import Mathlib

/-!
# LaBr3_timing : record buffer, merge step, level scheme, cascade and detectors

A shallow embedding of `Datum.hh`, `EventAction.hh`, `Transition.hh`, `Level.hh`,
`LevelScheme.hh`, `PrimaryGenerator.hh`, `SensitiveDetector.hh` and of
`ConstructSDandField` of `DetectorConstruction.hh`.

* C++ `unsigned int` is a natural number, every product and sum the source computes in
  that type is reduced modulo `2 ^ 32`.
* `double *values` is `Option (List α)`: `none` is the NULL pointer, `some l` a block of
  `l.length` elements. An access outside the block (or through NULL) makes the
  operation return `none`.
* `double` is a parameter: the buffer code only stores and copies values (`α`), the level
  scheme computes in a linearly ordered field (`R`), so the definitions run on `ℚ` and
  the theorems hold over the reals.
* `Level *` is `Option Nat`: the position of the level in the scheme's vector, `none`
  for NULL. `Transition` objects are never modified after construction and are held by
  value.
* A `for` loop over a `std::vector` is a recursion over the list; the vectors are taken
  to hold fewer than `2 ^ 32` entries, so the `unsigned int` loop counter does not wrap.
* Random numbers (`G4UniformRand`, `G4RandExponential::shoot`, `G4RandGauss::shoot`) are
  explicit inputs; the unit constants of Geant4 (`keV`, `ns`, `mm`, `twopi`) are
  parameters.
* Worker threads running in parallel are a schedule: the list of their steps (a store
  into the thread's own buffer, or one whole `EndOfEventAction`) in the order in which
  they take effect. That the body of `EndOfEventAction` is a single step is what the
  lock of the static mutex gives; nothing else is assumed of the threads.
-/

namespace LaBr3

/-! ## Datum.hh -/

/-- Number of values of a C++ `unsigned int`. -/
def UINT : Nat := 2 ^ 32

/-- The class `Datum`: the private members `values`, `nperdet`, `ndet`, `has_data`. -/
structure Datum (α : Type) where
  values : Option (List α)
  nperdet : Nat
  ndet : Nat
  has_data : Bool
deriving DecidableEq, Repr

/-- The call `memset(p, 0, sizeof(double) * n)`: the first `n` elements of the block
become zero. No byte is touched when `n = 0`. -/
def memset0 {α : Type} [Zero α] (p : Option (List α)) (n : Nat) : Option (Option (List α)) :=
  match p with
  | some l => if n ≤ l.length then some (some (List.replicate n 0 ++ l.drop n)) else none
  | none => if n = 0 then some none else none

/-- The call `memcpy(dst, src, sizeof(double) * n)` on two distinct blocks: the first `n`
elements of `dst` become those of `src`. No byte is touched when `n = 0`. -/
def memcpy {α : Type} (dst src : Option (List α)) (n : Nat) : Option (Option (List α)) :=
  match dst, src with
  | some d, some s =>
    if n ≤ d.length ∧ n ≤ s.length then some (some (s.take n ++ d.drop n)) else none
  | _, _ => if n = 0 then some dst else none

namespace Datum

variable {α : Type}

/-- `Datum::Reset`. -/
def Reset [Zero α] (d : Datum α) : Option (Datum α) :=
  match memset0 d.values ((d.nperdet * d.ndet) % UINT) with
  | some p => some { d with values := p, has_data := false }
  | none => none

/-- `Datum::SetDimensions`. `uninit` is the content of the elements that `new double[]`
hands out before they are initialised. -/
def SetDimensions [Zero α] (d : Datum α) (ndet_ nperdet_ : Nat) (uninit : α) :
    Option (Datum α) :=
  -- if (values) delete [] values; values = NULL; store the parameters
  let d1 : Datum α := { d with values := none, nperdet := nperdet_, ndet := ndet_ }
  if (ndet_ * nperdet_) % UINT < 1 then some d1
  else
    Reset { d1 with values := some (List.replicate ((ndet_ * nperdet_) % UINT) uninit) }

/-- The constructor `Datum::Datum(ndet_, nperdet_)`. -/
def construct [Zero α] (ndet_ nperdet_ : Nat) (uninit : α) : Option (Datum α) :=
  let d : Datum α := { values := none, nperdet := 0, ndet := 0, has_data := false }
  if ndet_ ≠ 0 ∨ nperdet_ ≠ 0 then SetDimensions d ndet_ nperdet_ uninit else some d

/-- `Datum::GetPointer`. -/
def GetPointer (d : Datum α) : Option (List α) := d.values

/-- `Datum::GetNPerDetector`. -/
def GetNPerDetector (d : Datum α) : Nat := d.nperdet

/-- `Datum::GetNDetectors`. -/
def GetNDetectors (d : Datum α) : Nat := d.ndet

/-- `Datum::HasData`. -/
def HasData (d : Datum α) : Bool := d.has_data

/-- `Datum::operator=`, called as `a = rhs` on two distinct objects. Both are passed by
non-const reference, so both come back: the first component is `*this`, the second
`rhs`. -/
def assign (a rhs : Datum α) : Option (Datum α × Datum α) :=
  let maxvalues : Nat :=
    if (a.ndet * a.nperdet) % UINT < (rhs.ndet * rhs.nperdet) % UINT
    then (a.ndet * a.nperdet) % UINT else (rhs.ndet * rhs.nperdet) % UINT
  match memcpy a.values rhs.values maxvalues with
  | some p => some ({ a with values := p }, rhs)
  | none => none

/-- `Datum::SetValue`. -/
def SetValue (d : Datum α) (n v : Nat) (value_ : α) : Option (Datum α) :=
  if n ≥ d.ndet then some d
  else if v ≥ d.nperdet then some d
  else
    match d.values with
    | some l =>
      if (n * d.nperdet + v) % UINT < l.length
      then some { d with values := some (l.set ((n * d.nperdet + v) % UINT) value_),
                         has_data := true }
      else none
    | none => none

/-- `Datum::GetValue`. -/
def GetValue [Zero α] (d : Datum α) (n v : Nat) : Option α :=
  if n ≥ d.ndet then some 0
  else if v ≥ d.nperdet then some 0
  else
    match d.values with
    | some l => l[(n * d.nperdet + v) % UINT]?
    | none => none

/-- The flat contents of the buffer as seen through `values` (nothing behind NULL). -/
def elems (d : Datum α) : List α := d.values.getD []

/-- State invariant of the class: both dimensions are `unsigned int` values and a
non-NULL `values` points to a block of `ndet * nperdet` elements, the product taken
in `unsigned int` as `SetDimensions` does; `values` is NULL exactly when that product
is zero. -/
def Valid (d : Datum α) : Prop :=
  d.ndet < UINT ∧ d.nperdet < UINT ∧
  match d.values with
  | some l => l.length = (d.ndet * d.nperdet) % UINT ∧ 0 < l.length
  | none => (d.ndet * d.nperdet) % UINT = 0

/-- An allocated buffer: `values` points to exactly `ndet * nperdet` elements (the product
did not wrap). -/
def Allocated (d : Datum α) : Prop :=
  d.ndet * d.nperdet < UINT ∧ ∃ l, d.values = some l ∧ l.length = d.ndet * d.nperdet

end Datum

/-! ## EventAction.hh -/

/-- The part of ROOT's `TTree` the program uses: the single branch `values[nvalues]/D`
that `main` binds to `data[0].GetPointer()`, and the entries filled so far. -/
structure TTree (α : Type) where
  nvalues : Nat
  entries : List (List α)
deriving DecidableEq, Repr

/-- `TTree::Fill` for that branch: one entry made of the `nvalues` elements found at the
bound address is appended. -/
def TTree.Fill {α : Type} (tree : TTree α) (address : Option (List α)) : Option (TTree α) :=
  match address with
  | some l =>
    if tree.nvalues ≤ l.length
    then some { tree with entries := tree.entries ++ [l.take tree.nvalues] } else none
  | none => if tree.nvalues = 0 then some { tree with entries := tree.entries ++ [[]] } else none

/-- The class `EventAction`: the members `tree`, `data` (the array of buffers, one per
thread and slot 0 for the master) and `ndata`. The mutex is not part of the sequential
state. -/
structure EventAction (α : Type) where
  tree : TTree α
  data : List (Datum α)
  ndata : Int
deriving DecidableEq, Repr

/-- `EventAction::EndOfEventAction`, run under the lock. `threadId` is what
`G4Threading::G4GetThreadId()` returns. -/
def EventAction.EndOfEventAction {α : Type} [Zero α] (ea : EventAction α) (threadId : Int) :
    Option (EventAction α) :=
  let thread : Int := threadId + 1
  if thread < 0 then none
  else
    match ea.data[0]?, ea.data[thread.toNat]? with
    | some lhs, some rhs =>
      -- data[0] = data[thread]
      match Datum.assign lhs rhs with
      | some (lhs1, rhs1) =>
        let data1 := (ea.data.set thread.toNat rhs1).set 0 lhs1
        -- tree->Fill()
        match ea.tree.Fill lhs1.GetPointer, data1[thread.toNat]? with
        | some tree1, some cur =>
          -- data[thread].Reset()
          match cur.Reset with
          | some cur1 => some { ea with tree := tree1, data := data1.set thread.toNat cur1 }
          | none => none
        | _, _ => none
      | none => none
    | _, _ => none

/-- What a worker thread does to the shared buffers: one of its sensitive detectors
stores a value in the thread's own buffer (`data->SetValue(n, v, x)` through the pointer
`data + thread` that `ConstructSDandField` hands to them), or the thread runs
`EndOfEventAction`. -/
inductive ThreadOp (α : Type) where
  | write (n v : Nat) (x : α)
  | merge
deriving DecidableEq, Repr

/-- The step is a run of `EndOfEventAction`. -/
def ThreadOp.isMerge {α : Type} : ThreadOp α → Bool
  | ThreadOp.write _ _ _ => false
  | ThreadOp.merge => true

/-- One step of a run with worker threads, done by the worker whose buffer is
`data[s.1]` (its `G4GetThreadId()` is `s.1 - 1`). The body of `EndOfEventAction` runs
under the lock of the static mutex, so a merge is one step. -/
def EventAction.step {α : Type} [Zero α] (ea : EventAction α) (s : Nat × ThreadOp α) :
    Option (EventAction α) :=
  match s.2 with
  | ThreadOp.write n v x =>
    match ea.data[s.1]? with
    | some d =>
      match d.SetValue n v x with
      | some d1 => some { ea with data := ea.data.set s.1 d1 }
      | none => none
    | none => none
  | ThreadOp.merge => ea.EndOfEventAction ((s.1 : Int) - 1)

/-- A run of the worker threads on the shared state: the schedule lists the steps of all
workers in the order in which they take effect. -/
def EventAction.run {α : Type} [Zero α] (ea : EventAction α) :
    List (Nat × ThreadOp α) → Option (EventAction α)
  | [] => some ea
  | s :: rest =>
    match ea.step s with
    | some ea1 => ea1.run rest
    | none => none

/-- What a step of a thread does to the thread's own buffer: a store, or the `Reset` that
ends `EndOfEventAction`. -/
def Datum.own {α : Type} [Zero α] (d : Datum α) : ThreadOp α → Option (Datum α)
  | ThreadOp.write n v x => d.SetValue n v x
  | ThreadOp.merge => d.Reset

/-- What the steps of one thread, taken alone, make of the thread's own buffer. -/
def Datum.ownRun {α : Type} [Zero α] (d : Datum α) : List (ThreadOp α) → Option (Datum α)
  | [] => some d
  | op :: rest =>
    match d.own op with
    | some d1 => d1.ownRun rest
    | none => none

/-- The steps of worker `t` in a schedule, in their order. -/
def threadOps {α : Type} (t : Nat) (sched : List (Nat × ThreadOp α)) : List (ThreadOp α) :=
  (sched.filter (fun s => decide (s.1 = t))).map Prod.snd

/-- The number of merges in a schedule. -/
def merges {α : Type} (sched : List (Nat × ThreadOp α)) : Nat :=
  (sched.filter (fun s => s.2.isMerge)).length

/-- The number of merges of worker `t` in a schedule. -/
def mergesOf {α : Type} (t : Nat) (sched : List (Nat × ThreadOp α)) : Nat :=
  ((threadOps t sched).filter ThreadOp.isMerge).length

/-- The merge state as `main` sets it up: every buffer is a state of the class with the
dimensions `D × F`, and the tree's branch has the element count of slot 0. -/
def EventAction.Inv {α : Type} (D F : Nat) (ea : EventAction α) : Prop :=
  ea.tree.nvalues = (D * F) % UINT ∧ ∀ d ∈ ea.data, d.Valid ∧ d.ndet = D ∧ d.nperdet = F

/-! ## Transition.hh -/

/-- The class `Transition`: `energy`, `intensity` and the pointer `final` to the level
the transition populates. -/
structure Transition (R : Type) where
  energy : R
  intensity : R
  final : Option Nat
deriving DecidableEq, Repr

namespace Transition

variable {R : Type}

/-- The constructor `Transition::Transition(final_, intensity_, energy_)`. -/
def construct (final_ : Option Nat) (intensity_ energy_ : R) : Transition R :=
  { energy := energy_, intensity := intensity_, final := final_ }

/-- `Transition::GetIntensity`. -/
def GetIntensity (t : Transition R) : R := t.intensity

/-- `Transition::GetEnergy`. -/
def GetEnergy (t : Transition R) : R := t.energy

/-- `Transition::GetFinal`. -/
def GetFinal (t : Transition R) : Option Nat := t.final

end Transition

/-! ## Level.hh -/

/-- The class `Level`: `energy`, `tau`, `population`, the vector of depopulating
transitions and the cached `total_decay`. -/
structure Level (R : Type) where
  energy : R
  tau : R
  population : R
  transitions : List (Transition R)
  total_decay : R
deriving DecidableEq, Repr

namespace Level

variable {R : Type}

/-- The constructor `Level::Level(energy_, tau_, population_)`. -/
def construct [Zero R] (energy_ tau_ population_ : R) : Level R :=
  { energy := energy_, tau := tau_, population := population_, transitions := [],
    total_decay := 0 }

/-- `Level::GetNTransitions`. -/
def GetNTransitions (l : Level R) : Nat := l.transitions.length

/-- `Level::GetTransition`. -/
def GetTransition (l : Level R) (ind : Nat) : Option (Transition R) :=
  if ind ≥ l.transitions.length then none else l.transitions[ind]?

/-- `Level::GetEnergy`. -/
def GetEnergy (l : Level R) : R := l.energy

/-- `Level::GetTau`. -/
def GetTau (l : Level R) : R := l.tau

/-- `Level::GetPopulation`. -/
def GetPopulation (l : Level R) : R := l.population

/-- `Level::AddTransition`. -/
def AddTransition [Add R] (l : Level R) (t : Transition R) : Level R :=
  { l with transitions := l.transitions ++ [t], total_decay := l.total_decay + t.GetIntensity }

/-- `Level::GetDecayIntensity`. -/
def GetDecayIntensity (l : Level R) : R := l.total_decay

/-- The `for` loop of `Level::PickDepopulatingTransition` over the transitions not yet
visited (`GetTransition(i)` for `i < GetNTransitions()` is the `i`-th of them), `sum`
being the running sum. -/
def PickDepopulatingTransition.loop [Add R] [LT R] [DecidableRel (fun a b : R => a < b)]
    (r : R) : List (Transition R) → R → Option (Transition R)
  | [], _ => none
  | t :: rest, sum =>
    if r < sum + t.GetIntensity then some t
    else PickDepopulatingTransition.loop r rest (sum + t.GetIntensity)

/-- `Level::PickDepopulatingTransition`; `u` is the value `G4UniformRand()` returns. -/
def PickDepopulatingTransition [Zero R] [Add R] [Mul R] [LT R]
    [DecidableRel (fun a b : R => a < b)] (l : Level R) (u : R) : Option (Transition R) :=
  PickDepopulatingTransition.loop (u * l.GetDecayIntensity) l.transitions 0

end Level

/-! ## LevelScheme.hh -/

/-- The class `LevelScheme`: the vector of levels, the vector of transitions and
`total_population`. -/
structure LevelScheme (R : Type) where
  levels : List (Level R)
  transitions : List (Transition R)
  total_population : R
deriving DecidableEq, Repr

namespace LevelScheme

variable {R : Type} [LinearOrderedField R]

/-- The constructor `LevelScheme::LevelScheme()`. -/
def construct : LevelScheme R := { levels := [], transitions := [], total_population := 0 }

/-- `LevelScheme::AddLevel`. -/
def AddLevel (s : LevelScheme R) (energy tau population : R) : LevelScheme R :=
  { s with levels := s.levels ++ [Level.construct energy tau population],
           total_population := s.total_population + population }

/-- The `for` loop of `LevelScheme::GetLevel` over the levels not yet visited, `i` being
the index of the first of them, `result` and `diff` the two local variables. -/
def GetLevel.loop (energy : R) : List (Level R) → Nat → Option Nat → R → Option Nat
  | [], _, result, _ => result
  | l :: rest, i, result, diff =>
    if abs (l.GetEnergy - energy) < diff then
      GetLevel.loop energy rest (i + 1)
        (if abs (l.GetEnergy - energy) < 2 then some i else result) (abs (l.GetEnergy - energy))
    else GetLevel.loop energy rest (i + 1) result diff

/-- `LevelScheme::GetLevel`: the pointer returned is the position of the level, NULL is
`none`. -/
def GetLevel (s : LevelScheme R) (energy : R) : Option Nat :=
  GetLevel.loop energy s.levels 0 none (10 ^ 30)

/-- The private `LevelScheme::AddTransition(Level *initial, Level *final, double intensity,
double energy)`. `initial` is dereferenced; it comes from `GetLevel`, which only hands out
positions of existing levels. -/
def AddTransitionLevels (s : LevelScheme R) (initial final : Option Nat) (intensity energy : R) :
    LevelScheme R :=
  match initial, final with
  | some i, some _ =>
    { s with transitions := s.transitions ++ [Transition.construct final intensity energy],
             levels := s.levels.modify
               (fun l => l.AddTransition (Transition.construct final intensity energy)) i }
  | _, _ => s

/-- The public `LevelScheme::AddTransition(double E1, double E2, double intensity)`. -/
def AddTransition (s : LevelScheme R) (E1 E2 intensity : R) : LevelScheme R :=
  match s.GetLevel E1, s.GetLevel E2 with
  | some i, some f => s.AddTransitionLevels (some i) (some f) intensity (E1 - E2)
  | _, _ => s

/-- The `for` loop of `LevelScheme::PickPrimaryLevel` over the levels not yet visited. -/
def PickPrimaryLevel.loop (r : R) : List (Level R) → Nat → R → Option Nat
  | [], _, _ => none
  | l :: rest, i, sum =>
    if r < sum + l.GetPopulation then some i
    else PickPrimaryLevel.loop r rest (i + 1) (sum + l.GetPopulation)

/-- `LevelScheme::PickPrimaryLevel`; `u` is the value `G4UniformRand()` returns. -/
def PickPrimaryLevel (s : LevelScheme R) (u : R) : Option Nat :=
  PickPrimaryLevel.loop (u * s.total_population) s.levels 0 0

/-- One line of the level scheme file, as the two `sscanf` calls of `Read` see it: three
numbers after the word `level`, three numbers after the word `transition`, or neither. -/
inductive Line (R : Type) where
  | level (Elev tau pop : R)
  | transition (E1 E2 inten : R)
  | other
deriving DecidableEq, Repr

/-- The body of the `while` loop of `LevelScheme::Read`. `keV` and `ns` are the unit
constants of `G4SystemOfUnits.hh`. -/
def Read.line (keV ns : R) (s : LevelScheme R) : Line R → LevelScheme R
  | Line.level Elev tau pop => s.AddLevel (Elev * keV) (tau * (1 / 1000) * ns) pop
  | Line.transition E1 E2 inten => s.AddTransition (E1 * keV) (E2 * keV) inten
  | Line.other => s

/-- `LevelScheme::Read`; `file` is `none` when `fopen` fails, else the lines of the
file. -/
def Read (s : LevelScheme R) (keV ns : R) (file : Option (List (Line R))) : LevelScheme R :=
  match file with
  | none => s
  | some lines => lines.foldl (Read.line keV ns) s

/-- A call of one of the two public building methods. -/
inductive Call (R : Type) where
  | addLevel (energy tau population : R)
  | addTransition (E1 E2 intensity : R)
deriving DecidableEq, Repr

/-- The effect of one call. -/
def call (s : LevelScheme R) : Call R → LevelScheme R
  | Call.addLevel energy tau population => s.AddLevel energy tau population
  | Call.addTransition E1 E2 intensity => s.AddTransition E1 E2 intensity

/-- The scheme a sequence of calls builds, starting from the constructor. -/
def build (calls : List (Call R)) : LevelScheme R := calls.foldl call construct

/-- Invariant of the loop of `GetLevel` after the levels `pre` have been visited. -/
def GetLevel.Inv (energy : R) (pre : List (Level R)) (result : Option Nat) (diff : R) : Prop :=
  (∀ l ∈ pre, diff ≤ abs (l.energy - energy)) ∧
  match result with
  | none => 2 ≤ diff
  | some k => diff < 2 ∧ ∃ lk, pre[k]? = some lk ∧ abs (lk.energy - energy) = diff ∧
      ∀ j lj, j < k → pre[j]? = some lj → diff < abs (lj.energy - energy)

/-- What `GetLevel` promises about its result on the levels `all`. -/
def GetLevel.Post (energy : R) (all : List (Level R)) (result : Option Nat) : Prop :=
  match result with
  | none => ∀ l ∈ all, 2 ≤ abs (l.energy - energy)
  | some k => ∃ lk, all[k]? = some lk ∧ abs (lk.energy - energy) < 2 ∧
      (∀ l ∈ all, abs (lk.energy - energy) ≤ abs (l.energy - energy)) ∧
      ∀ j lj, j < k → all[j]? = some lj → abs (lk.energy - energy) < abs (lj.energy - energy)

/-- Every transition in a level's outgoing list has a target that is a level of the
scheme, and `P` relates the transition's energy to the energy of the level it depopulates
minus the energy of the level it populates. -/
def TransitionsSatisfy (P : R → R → Prop) (s : LevelScheme R) : Prop :=
  ∀ (i : Nat) (li : Level R) (t : Transition R), s.levels[i]? = some li → t ∈ li.transitions →
    ∃ (f : Nat) (lf : Level R),
      t.final = some f ∧ s.levels[f]? = some lf ∧ P t.energy (li.energy - lf.energy)

/-- The calls, made in this order on the scheme `s`, give `AddTransition` the exact
energies of the levels its two arguments resolve to. -/
def ExactCalls (s : LevelScheme R) : List (Call R) → Prop
  | [] => True
  | Call.addLevel energy tau population :: rest =>
    ExactCalls (s.AddLevel energy tau population) rest
  | Call.addTransition E1 E2 intensity :: rest =>
    (∀ (i : Nat) (li : Level R),
      s.GetLevel E1 = some i → s.levels[i]? = some li → li.energy = E1) ∧
    (∀ (f : Nat) (lf : Level R),
      s.GetLevel E2 = some f → s.levels[f]? = some lf → lf.energy = E2) ∧
    ExactCalls (s.AddTransition E1 E2 intensity) rest

/-- An edge of the transition graph: the level at position `i` has, in its outgoing list,
a transition whose target is the level at position `f`. -/
def Edge (s : LevelScheme R) (i f : Nat) : Prop :=
  ∃ (li : Level R) (t : Transition R),
    s.levels[i]? = some li ∧ t ∈ li.transitions ∧ t.GetFinal = some f

/-- The transition graph has no directed cycle. -/
def Acyclic (s : LevelScheme R) : Prop := ∀ i : Nat, ¬ Relation.TransGen (Edge s) i i

/-- Every transition in a level's outgoing list points to a level of the scheme. -/
def ValidTargets (s : LevelScheme R) : Prop :=
  ∀ (i : Nat) (li : Level R) (t : Transition R), s.levels[i]? = some li → t ∈ li.transitions →
    ∃ f : Nat, t.GetFinal = some f ∧ f < s.levels.length

/-- The cumulative population sum of the first `k` levels. -/
def cumPopulation (s : LevelScheme R) (k : Nat) : R :=
  ((s.levels.take k).map Level.GetPopulation).sum

end LevelScheme

/-! ## PrimaryGenerator.hh -/

/-- One primary vertex the particle gun adds to the event: a gamma of the given energy
leaving the origin at the gun's particle time, in the direction of polar angle
`acos cosTheta` and azimuth `phi`. -/
structure Gamma (R : Type) where
  energy : R
  time : R
  cosTheta : R
  phi : R
deriving DecidableEq, Repr

/-- The random numbers one pass of the loop of `GeneratePrimaries` consumes: the
`G4UniformRand()` of `PickDepopulatingTransition`, the two of `GenerateGamma`, and the
answer of `G4RandExponential::shoot` as a function of the mean it is called with. -/
structure Draws (R : Type) where
  uTransition : R
  uCosTheta : R
  uPhi : R
  shoot : R → R

/-- How a run of `GeneratePrimaries` ends: the loop is left (with the vertices added to
the event and the gun's final particle time), a NULL or dangling `Level *` is
dereferenced, or the loop is still running after the given number of passes. -/
inductive Outcome (R : Type) where
  | finished (event : List (Gamma R)) (time : R)
  | fault
  | running

namespace PrimaryGenerator

variable {R : Type} [LinearOrderedField R]

/-- `PrimaryGenerator::GenerateGamma`: the vertex fired with the gun's current particle
time. `twopi` is the constant `CLHEP::twopi`. -/
def GenerateGamma (twopi : R) (time E uCosTheta uPhi : R) : Gamma R :=
  { energy := E, time := time, cosTheta := 2 * uCosTheta - 1, phi := twopi * uPhi }

/-- `PrimaryGenerator::AddTime`: the new particle time of the gun. -/
def AddTime (time tau : R) (shoot : R → R) : R := time + shoot tau

/-- The `while (level)` loop of `GeneratePrimaries`, for at most `passes` passes, `k`
counting the passes done. -/
def GeneratePrimaries.loop (ls : LevelScheme R) (twopi : R) (draws : Nat → Draws R) :
    Nat → Nat → Option Nat → R → List (Gamma R) → Outcome R
  | _, _, none, time, event => Outcome.finished event time
  | 0, _, some _, _, _ => Outcome.running
  | passes + 1, k, some i, time, event =>
    match ls.levels[i]? with
    | none => Outcome.fault
    | some level =>
      if level.GetTau < 0 then Outcome.finished event time
      else
        match level.PickDepopulatingTransition (draws k).uTransition with
        | none => Outcome.finished event time
        | some transition =>
          match transition.GetFinal with
          | none => Outcome.fault
          | some j =>
            match ls.levels[j]? with
            | none => Outcome.fault
            | some next =>
              if next.GetTau < 0 then
                Outcome.finished
                  (event ++ [GenerateGamma twopi time transition.GetEnergy
                    (draws k).uCosTheta (draws k).uPhi]) time
              else
                GeneratePrimaries.loop ls twopi draws passes (k + 1) (some j)
                  (AddTime time next.GetTau (draws k).shoot)
                  (event ++ [GenerateGamma twopi time transition.GetEnergy
                    (draws k).uCosTheta (draws k).uPhi])

/-- `PrimaryGenerator::GeneratePrimaries` on the level scheme `ls`: `uLevel` is the
`G4UniformRand()` of `PickPrimaryLevel`, `draws k` the random numbers of pass `k`. -/
def GeneratePrimaries (ls : LevelScheme R) (twopi : R) (uLevel : R) (draws : Nat → Draws R)
    (passes : Nat) : Outcome R :=
  GeneratePrimaries.loop ls twopi draws passes 0 (ls.PickPrimaryLevel uLevel) 0 []

/-- The random inputs `draws1` are those of `draws`, except for the answers of
`G4RandExponential::shoot` in pass `q`, which are arbitrary. -/
def SameButShoot (draws draws1 : Nat → Draws R) (q : Nat) : Prop :=
  ∀ p, (draws1 p).uTransition = (draws p).uTransition ∧
    (draws1 p).uCosTheta = (draws p).uCosTheta ∧ (draws1 p).uPhi = (draws p).uPhi ∧
    (p ≠ q → (draws1 p).shoot = (draws p).shoot)

/-- What holds of `g`, the gamma number `m` of the gammas `gs` that the loop emits when
it is entered in pass `j` at the level `i` with gun time `t` and left with gun time `t1`;
`i :: path` are the levels the cascade visits. The level `src` at position `m` of the
visit is not stable, the transition `tr` is the one picked in it with the random number
of pass `j + m`, `lv` is the level it populates, and `g` is the vertex fired for it. If
`g` is the first gamma its time is `t`; if another gamma follows, `lv` is not stable and
the next gamma carries the time of `g` plus the delay shot with mean `lv.tau`; if `lv` is
stable, `g` is the last gamma and the gun time is left at the time of `g`; if `g` is
the last gamma and `lv` is not stable, one delay shot with mean `lv.tau` was added. -/
def GammaStep (ls : LevelScheme R) (twopi : R) (draws : Nat → Draws R) (j : Nat) (t : R)
    (i : Nat) (path : List Nat) (gs : List (Gamma R)) (t1 : R) (m : Nat) (g : Gamma R) : Prop :=
  ∃ (a f : Nat) (src lv : Level R) (tr : Transition R),
    (i :: path)[m]? = some a ∧ path[m]? = some f ∧
    ls.levels[a]? = some src ∧ ¬ src.GetTau < 0 ∧
    src.PickDepopulatingTransition (draws (j + m)).uTransition = some tr ∧
    tr.GetFinal = some f ∧ ls.levels[f]? = some lv ∧
    g = GenerateGamma twopi g.time tr.GetEnergy (draws (j + m)).uCosTheta (draws (j + m)).uPhi ∧
    (m = 0 → g.time = t) ∧
    (∀ g1, gs[m + 1]? = some g1 →
      ¬ lv.GetTau < 0 ∧ g1.time = g.time + (draws (j + m)).shoot lv.GetTau) ∧
    (lv.GetTau < 0 → gs.length = m + 1 ∧ t1 = g.time) ∧
    (¬ lv.GetTau < 0 → gs.length = m + 1 → t1 = g.time + (draws (j + m)).shoot lv.GetTau)

end PrimaryGenerator

/-! ## SensitiveDetector.hh -/

/-- The class `SensitiveDetector`. `data` is the pointer to the buffer of the thread, kept
as the offset of that buffer in the array `data` of `main`; `h` is the histogram, kept as
the list of the values filled into it. -/
structure SensitiveDetector (R : Type) where
  data : Int
  sigma0 : R
  sigma1 : R
  h : List R
  sumE : R
  sumT : R
  sumN : R
  sumX : R
  sumY : R
  sumZ : R
  offT : R
  id : Int
deriving DecidableEq, Repr

/-- What one `G4Step` hands to `ProcessHits`: the total energy deposit, the global time of
the pre-step point and its position in the local frame of the detector. -/
structure Hit (R : Type) where
  edep : R
  globalTime : R
  x : R
  y : R
  z : R
deriving DecidableEq, Repr

/-- The conversion of an `int` argument to an `unsigned int` parameter. -/
def toUnsigned (i : Int) : Nat := (i % (UINT : Int)).toNat

namespace SensitiveDetector

variable {R : Type} [LinearOrderedField R]

/-- The constructor: `fresh` is the content of the new object before initialisation,
`hist` the histogram created (master thread) or found (other threads). -/
def construct (fresh : SensitiveDetector R) (hist : List R) : SensitiveDetector R :=
  { fresh with h := hist, sigma0 := 0, sigma1 := 1, offT := 0 }

/-- `SensitiveDetector::SetSigmaCoefficients`. -/
def SetSigmaCoefficients (sd : SensitiveDetector R) (sigma0_ sigma1_ : R) :
    SensitiveDetector R :=
  { sd with sigma0 := sigma0_, sigma1 := sigma1_ }

/-- `SensitiveDetector::SetTimeOffset`. -/
def SetTimeOffset (sd : SensitiveDetector R) (offT_ : R) : SensitiveDetector R :=
  { sd with offT := offT_ }

/-- `SensitiveDetector::SetDataPointer`. -/
def SetDataPointer (sd : SensitiveDetector R) (data_ : Int) : SensitiveDetector R :=
  { sd with data := data_ }

/-- `SensitiveDetector::SetID`. -/
def SetID (sd : SensitiveDetector R) (id_ : Int) : SensitiveDetector R :=
  { sd with id := id_ }

/-- `SensitiveDetector::Initialize`. -/
def Initialize (sd : SensitiveDetector R) : SensitiveDetector R :=
  { sd with sumE := 0, sumT := 0, sumX := 0, sumY := 0, sumZ := 0, sumN := 0 }

/-- `SensitiveDetector::ProcessHits`; `keV`, `ns` and `mm` are the unit constants of
`G4SystemOfUnits.hh`. -/
def ProcessHits (keV ns mm : R) (sd : SensitiveDetector R) (step : Hit R) :
    SensitiveDetector R :=
  { sd with sumE := sd.sumE + step.edep / keV,
            sumT := sd.sumT + step.globalTime / ns * 1000,
            sumX := sd.sumX + step.x / mm,
            sumY := sd.sumY + step.y / mm,
            sumZ := sd.sumZ + step.z / mm,
            sumN := sd.sumN + 1 }

/-- `SensitiveDetector::EndOfEvent`. `buf` is the buffer `data` points to, it comes back
with the values stored; `gauss mean sigma` is what `G4RandGauss::shoot(mean, sigma)`
returns. -/
def EndOfEvent (sd : SensitiveDetector R) (buf : Datum R) (gauss : R → R → R) :
    Option (SensitiveDetector R × Datum R) :=
  if sd.sumE < 1 / 100 then some (sd, buf)
  else
    let sd1 : SensitiveDetector R :=
      { sd with sumE := gauss sd.sumE (sd.sigma0 + sd.sigma1 * sd.sumE) }
    match buf.SetValue (toUnsigned sd1.id) 0 sd1.sumE with
    | none => none
    | some b0 =>
      match b0.SetValue (toUnsigned sd1.id) 1 (sd1.sumT / sd1.sumN + sd1.offT) with
      | none => none
      | some b1 =>
        match b1.SetValue (toUnsigned sd1.id) 2 (sd1.sumX / sd1.sumN) with
        | none => none
        | some b2 =>
          match b2.SetValue (toUnsigned sd1.id) 3 (sd1.sumY / sd1.sumN) with
          | none => none
          | some b3 =>
            match b3.SetValue (toUnsigned sd1.id) 4 (sd1.sumZ / sd1.sumN) with
            | none => none
            | some b4 => some ({ sd1 with h := sd1.h ++ [sd1.sumE] }, b4)

end SensitiveDetector

/-! ## DetectorConstruction.hh -/

/-- The members of `DetectorConstruction` that `ConstructSDandField` uses: `ndet` and the
vector `log_sci`, kept as the number of logical volumes in it. -/
structure DetectorConstruction where
  log_sci : Nat
  ndet : Int
deriving DecidableEq, Repr

namespace DetectorConstruction

variable {R : Type} [LinearOrderedField R]

/-- The constructor `DetectorConstruction::DetectorConstruction(data_, ndet_)`. -/
def construct (ndet_ : Int) : DetectorConstruction := { log_sci := 0, ndet := ndet_ }

/-- `DetectorConstruction::Construct`, as far as `log_sci` goes: the loop pushes one
volume per detector. -/
def Construct (dc : DetectorConstruction) : DetectorConstruction :=
  { dc with log_sci := dc.log_sci + dc.ndet.toNat }

/-- The array `offset` of `ConstructSDandField`. -/
def offset : List R := [200, 300, 50, 150, 330, 180, 250, 190]

/-- The `for (int i = 0; i < ndet; i++)` loop of `ConstructSDandField` with `todo` passes
left: the result is the list of the sensitive detectors attached so far, or nothing when
`offset[i]` or `log_sci[i]` is read outside the array. -/
def ConstructSDandField.loop (dc : DetectorConstruction) (thread : Int)
    (fresh : SensitiveDetector R) (hist : Nat → List R) :
    Nat → Nat → List (SensitiveDetector R) → Option (List (SensitiveDetector R))
  | 0, _, attached => some attached
  | todo + 1, i, attached =>
    match (offset : List R)[i]? with
    | none => none
    | some off =>
      if i < dc.log_sci then
        ConstructSDandField.loop dc thread fresh hist todo (i + 1)
          (attached ++
            [((((SensitiveDetector.construct fresh (hist i)).SetSigmaCoefficients 5
                (5 / 1000)).SetTimeOffset off).SetDataPointer thread).SetID i])
      else none

/-- `DetectorConstruction::ConstructSDandField`; `threadId` is what
`G4Threading::G4GetThreadId()` returns. -/
def ConstructSDandField (dc : DetectorConstruction) (threadId : Int)
    (fresh : SensitiveDetector R) (hist : Nat → List R) :
    Option (List (SensitiveDetector R)) :=
  ConstructSDandField.loop dc (threadId + 1) fresh hist dc.ndet.toNat 0 []

end DetectorConstruction

/-! ## Concrete inputs -/

/-- A 1 × 3 buffer holding 1, 2, 3. -/
def exampleDatumA : Datum Int := { values := some [1, 2, 3], nperdet := 3, ndet := 1, has_data := false }

/-- A 2 × 1 buffer holding 9, 8, with data. -/
def exampleDatumB : Datum Int := { values := some [9, 8], nperdet := 1, ndet := 2, has_data := true }

/-- A 2 × 2 buffer holding 1, 2, 3, 4. -/
def exampleDatumC : Datum Int :=
  { values := some [1, 2, 3, 4], nperdet := 2, ndet := 2, has_data := false }

/-- The merge state of a run with two workers and one detector of two fields: slot 0 holds
the previous record, worker 1 has finished an event, worker 2 is in the middle of one. -/
def exampleMerge : EventAction Int :=
  { tree := { nvalues := 2, entries := [[5, 6]] },
    data := [{ values := some [5, 6], nperdet := 2, ndet := 1, has_data := false },
             { values := some [3, 4], nperdet := 2, ndet := 1, has_data := true },
             { values := some [7, 0], nperdet := 2, ndet := 1, has_data := true }],
    ndata := 1 }

/-- A schedule of two workers with two merges each: worker 2 stores a value and both
merge, worker 1 stores a value, and both merge again. -/
def exampleSchedule : List (Nat × ThreadOp Int) :=
  [(2, ThreadOp.write 0 1 8), (1, ThreadOp.merge), (2, ThreadOp.merge),
   (1, ThreadOp.write 0 0 1), (2, ThreadOp.merge), (1, ThreadOp.merge)]

/-- A merge state whose slot 0 has three elements and whose worker buffer has two. -/
def exampleUnequal : EventAction Int :=
  { tree := { nvalues := 3, entries := [] },
    data := [{ values := some [5, 6, 99], nperdet := 3, ndet := 1, has_data := false },
             { values := some [3, 4], nperdet := 2, ndet := 1, has_data := true }],
    ndata := 1 }

/-- Two levels at 1000 and 0 (the second stable). -/
def exampleTwoLevels : List (LevelScheme.Call ℚ) :=
  [LevelScheme.Call.addLevel 1000 1 1, LevelScheme.Call.addLevel 0 (-1) 0]

/-- The two levels and a transition between them given as `1001 -> 0`. -/
def exampleInexact : List (LevelScheme.Call ℚ) :=
  exampleTwoLevels ++ [LevelScheme.Call.addTransition 1001 0 1]

/-- The two levels and a transition between them given as `1000 -> 0`. -/
def exampleExact : List (LevelScheme.Call ℚ) :=
  exampleTwoLevels ++ [LevelScheme.Call.addTransition 1000 0 1]

/-- The transition `1000 -> 0` as `exampleExact` stores it. -/
def exampleTransition : Transition ℚ := { energy := 1000, intensity := 1, final := some 1 }

/-- The level at 1000 of `exampleExact` once the transition has been added. -/
def exampleSource : Level ℚ :=
  { energy := 1000, tau := 1, population := 1, transitions := [exampleTransition],
    total_decay := 1 }

/-- Two levels of population -1 and a transition between them. -/
def exampleNegative : List (LevelScheme.Call ℚ) :=
  [LevelScheme.Call.addLevel 10 1 (-1), LevelScheme.Call.addLevel 0 (-1) (-1),
   LevelScheme.Call.addTransition 10 0 1]

/-- Random numbers that are the same in every pass of the cascade loop. -/
def exampleDraws : Nat → Draws ℚ :=
  fun _ => { uTransition := 1 / 2, uCosTheta := 1 / 2, uPhi := 1 / 2, shoot := fun tau => tau }

/-- A first level of population -1, a second of population 0 and a transition between
them. -/
def exampleFirstNegative : List (LevelScheme.Call ℚ) :=
  [LevelScheme.Call.addLevel 10 1 (-1), LevelScheme.Call.addLevel 0 (-1) 0,
   LevelScheme.Call.addTransition 10 0 1]

/-- Three levels at 3000, 1000 and 0, the second of lifetime 2 and the third stable, and
the transitions `3000 -> 1000` and `1000 -> 0`. -/
def exampleChain : List (LevelScheme.Call ℚ) :=
  [LevelScheme.Call.addLevel 3000 1 1, LevelScheme.Call.addLevel 1000 2 0,
   LevelScheme.Call.addLevel 0 (-1) 0, LevelScheme.Call.addTransition 3000 1000 1,
   LevelScheme.Call.addTransition 1000 0 1]

/-- The event of the cascade of `exampleChain` with `exampleDraws`: a gamma of energy 2000
at time 0 and a gamma of energy 1000 at time 2. -/
def exampleChainEvent : List (Gamma ℚ) :=
  [{ energy := 2000, time := 0, cosTheta := 0, phi := 3 },
   { energy := 1000, time := 2, cosTheta := 0, phi := 3 }]

/-- The scheme of the example of the specification, read from a file: a level at 1000
keV of lifetime 1000 ps and population 100, a stable level at 0 keV (lifetime field
`tauStable < 0`), and the transition `1000 -> 0` of intensity 100. -/
def specExample {R : Type} [LinearOrderedField R] (keV ns tauStable : R) : LevelScheme R :=
  LevelScheme.Read LevelScheme.construct keV ns
    (some [LevelScheme.Line.level 1000 1000 100, LevelScheme.Line.level 0 tauStable 0,
           LevelScheme.Line.transition 1000 0 100])

/-- Random numbers with an exponential sampler that answers 5 whatever the mean. -/
def examplePositiveDraws : Nat → Draws ℚ :=
  fun _ => { uTransition := 1 / 2, uCosTheta := 1 / 2, uPhi := 1 / 2, shoot := fun _ => 5 }

/-- An accumulator of detector 1 after two hits, above the threshold. -/
def exampleDetector : SensitiveDetector ℚ :=
  { data := 1, sigma0 := 5, sigma1 := 5 / 1000, h := [], sumE := 600, sumT := 40, sumN := 2,
    sumX := 4, sumY := 6, sumZ := 8, offT := 300, id := 1 }

/-- A zeroed 2 × 5 buffer. -/
def exampleRecord : Datum ℚ :=
  { values := some [0, 0, 0, 0, 0, 0, 0, 0, 0, 0], nperdet := 5, ndet := 2, has_data := false }

/-- A Gaussian sampler that answers the mean plus the standard deviation. -/
def exampleGauss : ℚ → ℚ → ℚ := fun mean sigma => mean + sigma

/-- The content of a sensitive detector object before its constructor has run. -/
def exampleFresh : SensitiveDetector ℚ :=
  { data := 0, sigma0 := 0, sigma1 := 0, h := [], sumE := 0, sumT := 0, sumN := 0,
    sumX := 0, sumY := 0, sumZ := 0, offT := 0, id := 0 }

/-! # Theorems -/

/-! ## Record buffer -/

theorem getElem?_splice {α : Type} (s d : List α) (m i : Nat) (hs : m ≤ s.length) :
    (s.take m ++ d.drop m)[i]? = if i < m then s[i]? else d[i]? := by
  have hlen : (s.take m).length = m := by simp [hs]
  by_cases h : i < m
  · rw [if_pos h, List.getElem?_append_left (by omega)]
    simp [List.getElem?_take, h]
  · rw [if_neg h, List.getElem?_append_right (by omega), hlen]
    simp only [List.getElem?_drop]
    congr 1
    omega

theorem Datum.Reset_of_valid {α : Type} [Zero α] (d : Datum α) (h : d.Valid) :
    d.Reset = some { d with values := d.values.map (fun l => List.replicate l.length 0),
                            has_data := false } := by
  obtain ⟨_, _, h3⟩ := h
  unfold Datum.Reset memset0
  cases hv : d.values with
  | none =>
    rw [hv] at h3
    simp only at h3
    simp [Nat.mul_comm d.nperdet d.ndet, h3]
  | some l =>
    rw [hv] at h3
    simp only at h3
    simp [Nat.mul_comm d.nperdet d.ndet, ← h3.1]

theorem Datum.SetDimensions_eq {α : Type} [Zero α] (d : Datum α) (ndet_ nperdet_ : Nat)
    (uninit : α) :
    d.SetDimensions ndet_ nperdet_ uninit =
      some { values := if (ndet_ * nperdet_) % UINT < 1 then none
                       else some (List.replicate ((ndet_ * nperdet_) % UINT) 0),
             nperdet := nperdet_, ndet := ndet_,
             has_data := if (ndet_ * nperdet_) % UINT < 1 then d.has_data else false } := by
  unfold Datum.SetDimensions
  by_cases h : (ndet_ * nperdet_) % UINT < 1
  · simp [h]
  · simp only [h, if_false]
    unfold Datum.Reset memset0
    simp [Nat.mul_comm nperdet_ ndet_]

theorem Datum.SetDimensions_valid {α : Type} [Zero α] (d d1 : Datum α) (ndet_ nperdet_ : Nat)
    (uninit : α) (h1 : ndet_ < UINT) (h2 : nperdet_ < UINT)
    (h : d.SetDimensions ndet_ nperdet_ uninit = some d1) : d1.Valid := by
  rw [Datum.SetDimensions_eq] at h
  injection h with h
  subst h
  by_cases hz : (ndet_ * nperdet_) % UINT < 1
  · refine ⟨h1, h2, ?_⟩
    simp only [hz, if_true]
    omega
  · refine ⟨h1, h2, ?_⟩
    simp only [hz, if_false, List.length_replicate, true_and]
    omega

theorem Datum.construct_valid {α : Type} [Zero α] (d1 : Datum α) (ndet_ nperdet_ : Nat)
    (uninit : α) (h1 : ndet_ < UINT) (h2 : nperdet_ < UINT)
    (h : Datum.construct ndet_ nperdet_ uninit = some d1) : d1.Valid := by
  unfold Datum.construct at h
  by_cases hz : ndet_ ≠ 0 ∨ nperdet_ ≠ 0
  · simp only [hz, if_true] at h
    exact Datum.SetDimensions_valid _ _ _ _ _ h1 h2 h
  · simp only [hz, if_false] at h
    injection h with h
    subst h
    refine ⟨Nat.pos_of_ne_zero (by decide), Nat.pos_of_ne_zero (by decide), ?_⟩
    simp

theorem Datum.Reset_valid {α : Type} [Zero α] (d d1 : Datum α) (h : d.Valid)
    (hr : d.Reset = some d1) : d1.Valid := by
  rw [Datum.Reset_of_valid d h] at hr
  injection hr with hr
  subst hr
  obtain ⟨h1, h2, h3⟩ := h
  refine ⟨h1, h2, ?_⟩
  cases hv : d.values with
  | none => rw [hv] at h3; simpa using h3
  | some l => rw [hv] at h3; simpa using h3

theorem Datum.SetValue_valid {α : Type} (d d1 : Datum α) (n v : Nat) (x : α) (h : d.Valid)
    (hs : d.SetValue n v x = some d1) : d1.Valid := by
  unfold Datum.SetValue at hs
  split_ifs at hs with c1 c2
  · injection hs with hs; subst hs; exact h
  · injection hs with hs; subst hs; exact h
  · obtain ⟨h1, h2, h3⟩ := h
    cases hv : d.values with
    | none => rw [hv] at hs; simp at hs
    | some l =>
      rw [hv] at hs h3
      simp only at hs h3
      split_ifs at hs with c3
      injection hs with hs
      subst hs
      refine ⟨h1, h2, ?_⟩
      simpa using h3

theorem Datum.assign_of_valid {α : Type} (a b : Datum α) (ha : a.Valid) (hb : b.Valid) :
    ∃ l, Datum.assign a b = some ({ a with values := l }, b) ∧
      (Option.getD l []).length = a.elems.length ∧
      (l = none ↔ a.values = none) ∧
      ∀ i, (Option.getD l [])[i]? =
        if i < min ((a.ndet * a.nperdet) % UINT) ((b.ndet * b.nperdet) % UINT)
        then b.elems[i]? else a.elems[i]? := by
  obtain ⟨_, _, ha3⟩ := ha
  obtain ⟨_, _, hb3⟩ := hb
  unfold Datum.assign memcpy Datum.elems
  cases hva : a.values with
  | none =>
    rw [hva] at ha3
    simp only at ha3
    refine ⟨none, ?_, ?_⟩
    · simp [ha3]
    · simp [ha3]
  | some la =>
    rw [hva] at ha3
    simp only at ha3
    cases hvb : b.values with
    | none =>
      rw [hvb] at hb3
      simp only at hb3
      refine ⟨some la, ?_, ?_⟩
      · simp [hb3]
      · simp [hb3]
    | some lb =>
      rw [hvb] at hb3
      simp only at hb3
      rw [← ha3.1, ← hb3.1]
      have hm : (if la.length < lb.length then la.length else lb.length)
          = min la.length lb.length := by
        split_ifs <;> omega
      rw [hm]
      refine ⟨some (lb.take (min la.length lb.length) ++ la.drop (min la.length lb.length)),
        ?_, ?_, ?_, ?_⟩
      · simp
      · simp only [Option.getD_some, List.length_append, List.length_take, List.length_drop]
        omega
      · simp
      · intro i
        simp only [Option.getD_some]
        exact getElem?_splice lb la _ i (Nat.min_le_right _ _)

theorem Datum.assign_valid {α : Type} (a b a1 b1 : Datum α) (ha : a.Valid) (hb : b.Valid)
    (h : Datum.assign a b = some (a1, b1)) : a1.Valid ∧ b1 = b := by
  obtain ⟨l, h1, h2, h3, _⟩ := Datum.assign_of_valid a b ha hb
  rw [h1] at h
  injection h with h
  injection h with h h'
  subst h
  refine ⟨?_, h'.symm⟩
  obtain ⟨x1, x2, x3⟩ := ha
  refine ⟨x1, x2, ?_⟩
  unfold Datum.elems at h2
  cases hl : l with
  | none =>
    rw [hl] at h3
    rw [h3.1 rfl] at x3
    simpa using x3
  | some ll =>
    cases hva : a.values with
    | none => rw [hl, hva] at h3; simp at h3
    | some la =>
      rw [hva] at x3 h2
      rw [hl] at h2
      simp only [Option.getD_some] at h2
      simp only at x3 ⊢
      rw [h2]
      exact x3

/-- C2. Truncating copy `a = b` (`Datum::operator=`): for every destination `a` and
source `b` (states of the class, `Valid`), with `m` the smaller of the two element counts
as the source computes them (`ndet * nperdet` in `unsigned int`), the assignment
completes; afterwards the first `m` flat elements of `a` are the first `m` flat elements of
`b` (all of which exist), every element of `a` at a flat index `≥ m` is unchanged, the
element count, both dimensions and the data flag of `a` are unchanged, and `b` is
unchanged. -/
theorem Datum.assign_truncating_copy {α : Type} (a b : Datum α) (ha : a.Valid)
    (hb : b.Valid) :
    ∃ a1 b1, Datum.assign a b = some (a1, b1) ∧
      min ((a.ndet * a.nperdet) % UINT) ((b.ndet * b.nperdet) % UINT) ≤ a.elems.length ∧
      min ((a.ndet * a.nperdet) % UINT) ((b.ndet * b.nperdet) % UINT) ≤ b.elems.length ∧
      (∀ i, i < min ((a.ndet * a.nperdet) % UINT) ((b.ndet * b.nperdet) % UINT) →
        a1.elems[i]? = b.elems[i]?) ∧
      (∀ i, min ((a.ndet * a.nperdet) % UINT) ((b.ndet * b.nperdet) % UINT) ≤ i →
        a1.elems[i]? = a.elems[i]?) ∧
      a1.elems.length = a.elems.length ∧
      a1.ndet = a.ndet ∧ a1.nperdet = a.nperdet ∧ a1.has_data = a.has_data ∧
      b1 = b := by
  obtain ⟨l, h1, h2, _, h4⟩ := Datum.assign_of_valid a b ha hb
  have la : a.elems.length = (a.ndet * a.nperdet) % UINT := by
    obtain ⟨_, _, h⟩ := ha
    unfold Datum.elems
    cases hv : a.values with
    | none => rw [hv] at h; simp only at h; simp [h]
    | some l => rw [hv] at h; simp only at h; simp [h.1]
  have lb : b.elems.length = (b.ndet * b.nperdet) % UINT := by
    obtain ⟨_, _, h⟩ := hb
    unfold Datum.elems
    cases hv : b.values with
    | none => rw [hv] at h; simp only at h; simp [h]
    | some l => rw [hv] at h; simp only at h; simp [h.1]
  refine ⟨_, _, h1, ?_, ?_, ?_, ?_, h2, rfl, rfl, rfl, rfl⟩
  · rw [la]; exact Nat.min_le_left _ _
  · rw [lb]; exact Nat.min_le_right _ _
  · intro i hi
    have := h4 i
    rw [if_pos hi] at this
    exact this
  · intro i hi
    have := h4 i
    rw [if_neg (by omega)] at this
    exact this

theorem flat_index_lt (n v D F : Nat) (hn : n < D) (hv : v < F) : n * F + v < D * F := by
  calc n * F + v < n * F + F := by omega
    _ = (n + 1) * F := by ring
    _ ≤ D * F := Nat.mul_le_mul_right F hn

theorem flat_index_inj (n v n1 v1 F : Nat) (hv : v < F) (hv1 : v1 < F)
    (h : n * F + v = n1 * F + v1) : n = n1 ∧ v = v1 := by
  have hF : 0 < F := by omega
  have e1 : (n * F + v) / F = n := by
    rw [Nat.mul_comm, Nat.mul_add_div hF, Nat.div_eq_of_lt hv, Nat.add_zero]
  have e2 : (n1 * F + v1) / F = n1 := by
    rw [Nat.mul_comm, Nat.mul_add_div hF, Nat.div_eq_of_lt hv1, Nat.add_zero]
  have hn : n = n1 := by rw [← e1, ← e2, h]
  subst hn
  exact ⟨rfl, by omega⟩

/-- C3. Round trip on an allocated buffer: for `n < ndet`, `v < nperdet` and every value
`x`, `SetValue(n, v, x)` completes, after it `GetValue(n, v)` returns `x`, `GetValue` at
every other in-range pair returns the value it returned before, both dimensions are
unchanged, the buffer is still allocated and `HasData()` is true. -/
theorem Datum.SetValue_GetValue_round_trip {α : Type} [Zero α] (d : Datum α) (n v : Nat)
    (x : α) (ha : d.Allocated) (hn : n < d.ndet) (hv : v < d.nperdet) :
    ∃ d1, d.SetValue n v x = some d1 ∧
      d1.GetValue n v = some x ∧
      (∀ n1 v1, n1 < d.ndet → v1 < d.nperdet → (n1, v1) ≠ (n, v) →
        (∃ y, d.GetValue n1 v1 = some y) ∧ d1.GetValue n1 v1 = d.GetValue n1 v1) ∧
      d1.ndet = d.ndet ∧ d1.nperdet = d.nperdet ∧ d1.Allocated ∧ d1.HasData = true := by
  obtain ⟨hlt, l, hl, hlen⟩ := ha
  have hidx : ∀ n1 v1, n1 < d.ndet → v1 < d.nperdet →
      (n1 * d.nperdet + v1) % UINT = n1 * d.nperdet + v1 ∧ n1 * d.nperdet + v1 < l.length := by
    intro n1 v1 h1 h2
    have := flat_index_lt n1 v1 d.ndet d.nperdet h1 h2
    exact ⟨Nat.mod_eq_of_lt (by omega), by omega⟩
  obtain ⟨e, hi⟩ := hidx n v hn hv
  refine ⟨{ d with values := some (l.set (n * d.nperdet + v) x), has_data := true },
    ?_, ?_, ?_, rfl, rfl, ?_, rfl⟩
  · unfold Datum.SetValue
    simp [Nat.not_le.mpr hn, Nat.not_le.mpr hv, hl, e, hi]
  · unfold Datum.GetValue
    simp [Nat.not_le.mpr hn, Nat.not_le.mpr hv, e, hi]
  · intro n1 v1 h1 h2 hne
    obtain ⟨e1, hi1⟩ := hidx n1 v1 h1 h2
    have hneq : n * d.nperdet + v ≠ n1 * d.nperdet + v1 := by
      intro hc
      obtain ⟨r1, r2⟩ := flat_index_inj n v n1 v1 d.nperdet hv h2 hc
      exact hne (by rw [r1, r2])
    unfold Datum.GetValue
    simp only [ge_iff_le, Nat.not_le.mpr h1, Nat.not_le.mpr h2, if_false, hl, e1]
    refine ⟨⟨l[n1 * d.nperdet + v1], List.getElem?_eq_getElem hi1⟩, ?_⟩
    rw [List.getElem?_set_ne hneq]
  · exact ⟨hlt, _, rfl, by simpa using hlen⟩

/-- C4. Out-of-range accesses: in every buffer state and for every pair `(n, v)` with
`n ≥ ndet` or `v ≥ nperdet`, `SetValue(n, v, x)` completes and leaves the whole state
(elements, both dimensions, data flag) unchanged, and `GetValue(n, v)` returns 0. -/
theorem Datum.SetValue_GetValue_out_of_range {α : Type} [Zero α] (d : Datum α) (n v : Nat)
    (x : α) (h : n ≥ d.ndet ∨ v ≥ d.nperdet) :
    d.SetValue n v x = some d ∧ d.GetValue n v = some 0 := by
  unfold Datum.SetValue Datum.GetValue
  rcases h with h | h
  · simp [h]
  · by_cases hn : n ≥ d.ndet
    · simp [hn]
    · simp [hn, h]

/-- C5 as stated fails twice: on a buffer whose flag is set, `SetDimensions(0, 5)` leaves
`HasData()` true; and after `SetDimensions(65536, 65536)` (element count `2 ^ 32`, which
is 0 in `unsigned int`) the in-range element `(0, 0)` cannot be read, no storage
exists. -/
theorem Datum.SetDimensions_counterexample :
    (Datum.SetDimensions (Datum.mk (some [7]) 1 1 true : Datum Int) 0 5 0).map Datum.HasData
        = some true ∧
      ((0 : Nat) < 65536 ∧
        (Datum.SetDimensions (Datum.mk none 0 0 false : Datum Int) 65536 65536 0).bind
          (fun d => d.GetValue 0 0) = none) := by
  decide

/-- C5, amended. For every prior buffer state and every pair of dimensions,
`SetDimensions` completes, the stored dimensions are the pair given, every element of the
new storage is 0; when the element count `nDetectors * nFields` is at least 1 (in
`unsigned int`) the data flag is cleared; and when the product does not wrap every
in-range element reads 0. -/
theorem Datum.SetDimensions_post {α : Type} [Zero α] (d : Datum α) (ndet_ nperdet_ : Nat)
    (uninit : α) :
    ∃ d1, d.SetDimensions ndet_ nperdet_ uninit = some d1 ∧
      d1.GetNDetectors = ndet_ ∧ d1.GetNPerDetector = nperdet_ ∧
      d1.elems = List.replicate ((ndet_ * nperdet_) % UINT) 0 ∧
      (1 ≤ (ndet_ * nperdet_) % UINT → d1.HasData = false) ∧
      (ndet_ * nperdet_ < UINT →
        ∀ n v, n < ndet_ → v < nperdet_ → d1.GetValue n v = some 0) := by
  refine ⟨_, Datum.SetDimensions_eq d ndet_ nperdet_ uninit, rfl, rfl, ?_, ?_, ?_⟩
  · unfold Datum.elems
    by_cases h : (ndet_ * nperdet_) % UINT < 1
    · have : (ndet_ * nperdet_) % UINT = 0 := by omega
      simp [this]
    · simp [h]
  · intro h
    simp [Datum.HasData, Nat.not_lt.mpr h]
  · intro hlt n v hn hv
    have hi := flat_index_lt n v ndet_ nperdet_ hn hv
    have hm : (ndet_ * nperdet_) % UINT = ndet_ * nperdet_ := Nat.mod_eq_of_lt hlt
    have hm2 : (n * nperdet_ + v) % UINT = n * nperdet_ + v := Nat.mod_eq_of_lt (by omega)
    unfold Datum.GetValue
    simp only [ge_iff_le, Nat.not_le.mpr hn, Nat.not_le.mpr hv, if_false, hm, hm2]
    have : ¬ ndet_ * nperdet_ < 1 := by omega
    simp only [this, if_false]
    rw [List.getElem?_replicate]
    simp [hi]

/-! ## Merge step -/

theorem Datum.elems_length_of_valid {α : Type} (d : Datum α) (h : d.Valid) :
    d.elems.length = (d.ndet * d.nperdet) % UINT := by
  obtain ⟨_, _, h⟩ := h
  unfold Datum.elems
  cases hv : d.values with
  | none => rw [hv] at h; simp only at h; simp [h]
  | some l => rw [hv] at h; simp only at h; simp [h.1]

theorem TTree.Fill_whole {α : Type} (tree : TTree α) (p : Option (List α))
    (h : (p.getD []).length = tree.nvalues) :
    tree.Fill p = some { tree with entries := tree.entries ++ [p.getD []] } := by
  unfold TTree.Fill
  cases p with
  | none => simp at h; simp [← h]
  | some l => simp at h; simp [← h]

/-- C1. One merge by worker `t ≥ 1` on buffers that all have the dimensions `D × F`
(each a state of the class, the tree's branch bound to slot 0 with its element count):
`EndOfEventAction` completes, exactly one record is appended to the output and it is the
pre-merge contents of buffer `t`; afterwards slot 0 holds those contents, buffer `t`
keeps its dimensions and element count, every element of it is 0 and its data flag is
cleared, and every buffer other than 0 and `t` is unchanged. -/
theorem EventAction.merge_step {α : Type} [Zero α] (ea : EventAction α) (t D F : Nat)
    (ht : 1 ≤ t) (htl : t < ea.data.length)
    (hdim : ∀ d ∈ ea.data, d.Valid ∧ d.ndet = D ∧ d.nperdet = F)
    (hbranch : ea.tree.nvalues = (D * F) % UINT) :
    ∃ ea1 bt b0 bt1, ea.data[t]? = some bt ∧
      ea.EndOfEventAction ((t : Int) - 1) = some ea1 ∧
      ea1.tree.entries = ea.tree.entries ++ [bt.elems] ∧
      ea1.data[0]? = some b0 ∧ b0.elems = bt.elems ∧ b0.ndet = D ∧ b0.nperdet = F ∧
      ea1.data[t]? = some bt1 ∧ bt1.elems = List.replicate bt.elems.length 0 ∧
      bt1.HasData = false ∧ bt1.ndet = D ∧ bt1.nperdet = F ∧
      ea1.data.length = ea.data.length ∧
      (∀ j, j ≠ 0 → j ≠ t → ea1.data[j]? = ea.data[j]?) := by
  have h0l : 0 < ea.data.length := by omega
  have e0 : ea.data[0]? = some ea.data[0] := List.getElem?_eq_getElem h0l
  have et : ea.data[t]? = some ea.data[t] := List.getElem?_eq_getElem htl
  obtain ⟨v0, d0, f0⟩ := hdim _ (List.getElem_mem h0l)
  obtain ⟨vt, dt, ft⟩ := hdim _ (List.getElem_mem htl)
  obtain ⟨l, hl, hlen, _, hget⟩ := Datum.assign_of_valid _ _ v0 vt
  have len0 := Datum.elems_length_of_valid _ v0
  have lent := Datum.elems_length_of_valid _ vt
  rw [d0, f0] at len0
  rw [dt, ft] at lent
  have hcopy : l.getD [] = (ea.data[t]).elems := by
    apply List.ext_getElem?
    intro i
    rw [hget i, d0, f0, dt, ft, Nat.min_self]
    split_ifs with c
    · rfl
    · rw [List.getElem?_eq_none (by omega), List.getElem?_eq_none (by omega)]
  have hfill := TTree.Fill_whole ea.tree l (by rw [hcopy, lent, hbranch])
  have hreset := Datum.Reset_of_valid _ vt
  have hthread : ((t : Int) - 1 + 1).toNat = t := by simp
  have hneg : ¬ ((t : Int) - 1 + 1 < 0) := by simp
  have ht0 : t ≠ 0 := by omega
  have hcur : ((ea.data.set t ea.data[t]).set 0 { ea.data[0] with values := l })[t]?
      = some ea.data[t] := by
    rw [List.getElem?_set_ne (Ne.symm ht0), List.getElem?_set_eq_of_lt _ (by simpa using htl)]
  have hrun : ea.EndOfEventAction ((t : Int) - 1) = some
      { ea with
        tree := { ea.tree with entries := ea.tree.entries ++ [l.getD []] },
        data := ((ea.data.set t ea.data[t]).set 0 { ea.data[0] with values := l }).set t
          { ea.data[t] with
            values := (ea.data[t]).values.map (fun l => List.replicate l.length 0),
            has_data := false } } := by
    unfold EventAction.EndOfEventAction
    simp only [hneg, if_false, hthread, e0, et, hl, Datum.GetPointer, hfill, hcur, hreset]
  refine ⟨_, ea.data[t], { ea.data[0] with values := l },
    { ea.data[t] with values := (ea.data[t]).values.map (fun l => List.replicate l.length 0),
                      has_data := false }, et, hrun, ?_, ?_, hcopy, d0, f0, ?_, ?_, rfl, dt, ft,
    ?_, ?_⟩
  · simp [hcopy]
  · simp only [List.getElem?_set_ne ht0]
    rw [List.getElem?_set_eq_of_lt _ (by simpa using h0l)]
  · rw [List.getElem?_set_eq_of_lt _ (by simpa using htl)]
  · unfold Datum.elems
    cases (ea.data[t]).values <;> simp
  · simp
  · intro j hj0 hjt
    simp only [List.getElem?_set_ne (Ne.symm hjt), List.getElem?_set_ne (Ne.symm hj0)]

/-! ## Record buffer and merge step at concrete inputs -/

theorem exampleDatumA_valid : exampleDatumA.Valid := by
  simp [Datum.Valid, exampleDatumA, UINT]

theorem exampleDatumB_valid : exampleDatumB.Valid := by
  simp [Datum.Valid, exampleDatumB, UINT]

theorem exampleDatumC_allocated : exampleDatumC.Allocated := by
  refine ⟨?_, [1, 2, 3, 4], rfl, ?_⟩ <;> simp [exampleDatumC, UINT]

theorem exampleMerge_dims :
    ∀ d ∈ exampleMerge.data, d.Valid ∧ d.ndet = 1 ∧ d.nperdet = 2 := by
  intro d hd
  simp only [exampleMerge, List.mem_cons, List.mem_singleton, List.not_mem_nil, or_false] at hd
  rcases hd with rfl | rfl | rfl <;> simp [Datum.Valid, UINT]

/-- C1 at `exampleMerge`, worker 1. -/
theorem EventAction.merge_step_witness :
    ((1 ≤ 1 ∧ 1 < exampleMerge.data.length) ∧
      (∀ d ∈ exampleMerge.data, d.Valid ∧ d.ndet = 1 ∧ d.nperdet = 2) ∧
      exampleMerge.tree.nvalues = (1 * 2) % UINT) ∧
    ∃ ea1 bt b0 bt1, exampleMerge.data[1]? = some bt ∧
      exampleMerge.EndOfEventAction ((1 : Nat) - 1 : Int) = some ea1 ∧
      ea1.tree.entries = exampleMerge.tree.entries ++ [bt.elems] ∧
      ea1.data[0]? = some b0 ∧ b0.elems = bt.elems ∧ b0.ndet = 1 ∧ b0.nperdet = 2 ∧
      ea1.data[1]? = some bt1 ∧ bt1.elems = List.replicate bt.elems.length 0 ∧
      bt1.HasData = false ∧ bt1.ndet = 1 ∧ bt1.nperdet = 2 ∧
      ea1.data.length = exampleMerge.data.length ∧
      (∀ j, j ≠ 0 → j ≠ 1 → ea1.data[j]? = exampleMerge.data[j]?) :=
  ⟨⟨⟨by decide, by decide⟩, exampleMerge_dims, by decide⟩,
    EventAction.merge_step exampleMerge 1 1 2 (by decide) (by decide) exampleMerge_dims
      (by decide)⟩

/-- C2 at `exampleDatumA = exampleDatumB`. -/
theorem Datum.assign_truncating_copy_witness :
    (exampleDatumA.Valid ∧ exampleDatumB.Valid) ∧
    ∃ a1 b1, Datum.assign exampleDatumA exampleDatumB = some (a1, b1) ∧
      min ((exampleDatumA.ndet * exampleDatumA.nperdet) % UINT)
          ((exampleDatumB.ndet * exampleDatumB.nperdet) % UINT) ≤ exampleDatumA.elems.length ∧
      min ((exampleDatumA.ndet * exampleDatumA.nperdet) % UINT)
          ((exampleDatumB.ndet * exampleDatumB.nperdet) % UINT) ≤ exampleDatumB.elems.length ∧
      (∀ i, i < min ((exampleDatumA.ndet * exampleDatumA.nperdet) % UINT)
                    ((exampleDatumB.ndet * exampleDatumB.nperdet) % UINT) →
        a1.elems[i]? = exampleDatumB.elems[i]?) ∧
      (∀ i, min ((exampleDatumA.ndet * exampleDatumA.nperdet) % UINT)
                ((exampleDatumB.ndet * exampleDatumB.nperdet) % UINT) ≤ i →
        a1.elems[i]? = exampleDatumA.elems[i]?) ∧
      a1.elems.length = exampleDatumA.elems.length ∧
      a1.ndet = exampleDatumA.ndet ∧ a1.nperdet = exampleDatumA.nperdet ∧
      a1.has_data = exampleDatumA.has_data ∧ b1 = exampleDatumB :=
  ⟨⟨exampleDatumA_valid, exampleDatumB_valid⟩,
    Datum.assign_truncating_copy exampleDatumA exampleDatumB exampleDatumA_valid
      exampleDatumB_valid⟩

/-- C3 at `exampleDatumC`, element `(1, 0)`. -/
theorem Datum.SetValue_GetValue_round_trip_witness :
    (exampleDatumC.Allocated ∧ 1 < exampleDatumC.ndet ∧ 0 < exampleDatumC.nperdet) ∧
    ∃ d1, exampleDatumC.SetValue 1 0 42 = some d1 ∧
      d1.GetValue 1 0 = some 42 ∧
      (∀ n1 v1, n1 < exampleDatumC.ndet → v1 < exampleDatumC.nperdet → (n1, v1) ≠ (1, 0) →
        (∃ y, exampleDatumC.GetValue n1 v1 = some y) ∧
          d1.GetValue n1 v1 = exampleDatumC.GetValue n1 v1) ∧
      d1.ndet = exampleDatumC.ndet ∧ d1.nperdet = exampleDatumC.nperdet ∧ d1.Allocated ∧
      d1.HasData = true :=
  ⟨⟨exampleDatumC_allocated, by decide, by decide⟩,
    Datum.SetValue_GetValue_round_trip exampleDatumC 1 0 42 exampleDatumC_allocated
      (by decide) (by decide)⟩

/-- C4 at `exampleDatumC`, index `(2, 0)`. -/
theorem Datum.SetValue_GetValue_out_of_range_witness :
    (2 ≥ exampleDatumC.ndet ∨ 0 ≥ exampleDatumC.nperdet) ∧
    (exampleDatumC.SetValue 2 0 42 = some exampleDatumC ∧
      exampleDatumC.GetValue 2 0 = some 0) :=
  ⟨Or.inl (by decide),
    Datum.SetValue_GetValue_out_of_range exampleDatumC 2 0 42 (Or.inl (by decide))⟩

/-! ## Concurrent merges -/

theorem Datum.SetValue_total {α : Type} (d : Datum α) (n v : Nat) (x : α) (h : d.Valid)
    (hw : d.ndet * d.nperdet < UINT) :
    ∃ d1, d.SetValue n v x = some d1 ∧ d1.Valid ∧ d1.ndet = d.ndet ∧ d1.nperdet = d.nperdet := by
  have key : ∃ d1, d.SetValue n v x = some d1 ∧ d1.ndet = d.ndet ∧ d1.nperdet = d.nperdet := by
    unfold Datum.SetValue
    by_cases hn : n ≥ d.ndet
    · rw [if_pos hn]; exact ⟨d, rfl, rfl, rfl⟩
    · rw [if_neg hn]
      by_cases hv : v ≥ d.nperdet
      · rw [if_pos hv]; exact ⟨d, rfl, rfl, rfl⟩
      · rw [if_neg hv]
        have hlt := flat_index_lt n v d.ndet d.nperdet (not_le.mp hn) (not_le.mp hv)
        obtain ⟨_, _, hval⟩ := h
        cases hvals : d.values with
        | none =>
          rw [hvals] at hval
          simp only at hval
          rw [Nat.mod_eq_of_lt hw] at hval
          omega
        | some l =>
          rw [hvals] at hval
          simp only at hval
          rw [Nat.mod_eq_of_lt hw] at hval
          have hidx : (n * d.nperdet + v) % UINT < l.length := by
            rw [Nat.mod_eq_of_lt (lt_trans hlt hw)]
            omega
          simp only [hidx, if_true]
          exact ⟨_, rfl, rfl, rfl⟩
  obtain ⟨d1, h1, h2, h3⟩ := key
  exact ⟨d1, h1, Datum.SetValue_valid d d1 n v x h h1, h2, h3⟩

theorem EventAction.merge_state {α : Type} [Zero α] (ea : EventAction α) (t D F : Nat)
    (ht : 1 ≤ t) (htl : t < ea.data.length) (hinv : ea.Inv D F) :
    ∃ ea1 bt bt1, ea.data[t]? = some bt ∧
      ea.EndOfEventAction ((t : Int) - 1) = some ea1 ∧
      ea1.tree.entries = ea.tree.entries ++ [bt.elems] ∧
      bt.Reset = some bt1 ∧ ea1.data[t]? = some bt1 ∧
      bt1.elems = List.replicate bt.elems.length 0 ∧
      bt1.HasData = false ∧ bt1.ndet = D ∧ bt1.nperdet = F ∧
      bt.elems.length = (D * F) % UINT ∧
      ea1.data.length = ea.data.length ∧
      (∀ j, j ≠ 0 → j ≠ t → ea1.data[j]? = ea.data[j]?) ∧ ea1.Inv D F := by
  obtain ⟨hbranch, hdim⟩ := hinv
  have h0l : 0 < ea.data.length := by omega
  have e0 : ea.data[0]? = some ea.data[0] := List.getElem?_eq_getElem h0l
  have et : ea.data[t]? = some ea.data[t] := List.getElem?_eq_getElem htl
  obtain ⟨v0, d0, f0⟩ := hdim _ (List.getElem_mem h0l)
  obtain ⟨vt, dt, ft⟩ := hdim _ (List.getElem_mem htl)
  obtain ⟨l, hl, hlen, _, hget⟩ := Datum.assign_of_valid _ _ v0 vt
  have hv0 := (Datum.assign_valid _ _ _ _ v0 vt hl).1
  have len0 := Datum.elems_length_of_valid _ v0
  have lent := Datum.elems_length_of_valid _ vt
  rw [d0, f0] at len0
  rw [dt, ft] at lent
  have hcopy : l.getD [] = (ea.data[t]).elems := by
    apply List.ext_getElem?
    intro i
    rw [hget i, d0, f0, dt, ft, Nat.min_self]
    split_ifs with c
    · rfl
    · rw [List.getElem?_eq_none (by omega), List.getElem?_eq_none (by omega)]
  have hfill := TTree.Fill_whole ea.tree l (by rw [hcopy, lent, hbranch])
  have hreset := Datum.Reset_of_valid _ vt
  have hvt1 := Datum.Reset_valid _ _ vt hreset
  have hthread : ((t : Int) - 1 + 1).toNat = t := by simp
  have hneg : ¬ ((t : Int) - 1 + 1 < 0) := by simp
  have ht0 : t ≠ 0 := by omega
  have hcur : ((ea.data.set t ea.data[t]).set 0 { ea.data[0] with values := l })[t]?
      = some ea.data[t] := by
    rw [List.getElem?_set_ne (Ne.symm ht0), List.getElem?_set_eq_of_lt _ (by simpa using htl)]
  have hrun : ea.EndOfEventAction ((t : Int) - 1) = some
      { ea with
        tree := { ea.tree with entries := ea.tree.entries ++ [l.getD []] },
        data := ((ea.data.set t ea.data[t]).set 0 { ea.data[0] with values := l }).set t
          { ea.data[t] with
            values := (ea.data[t]).values.map (fun l => List.replicate l.length 0),
            has_data := false } } := by
    unfold EventAction.EndOfEventAction
    simp only [hneg, if_false, hthread, e0, et, hl, Datum.GetPointer, hfill, hcur, hreset]
  refine ⟨_, ea.data[t],
    { ea.data[t] with values := (ea.data[t]).values.map (fun l => List.replicate l.length 0),
                      has_data := false }, et, hrun, ?_, hreset, ?_, ?_, rfl, dt, ft, lent,
    ?_, ?_, hbranch, ?_⟩
  · simp [hcopy]
  · rw [List.getElem?_set_eq_of_lt _ (by simpa using htl)]
  · unfold Datum.elems
    cases (ea.data[t]).values <;> simp
  · simp
  · intro j hj0 hjt
    simp only [List.getElem?_set_ne (Ne.symm hjt), List.getElem?_set_ne (Ne.symm hj0)]
  · intro d hd
    rcases List.mem_or_eq_of_mem_set hd with hd | hd
    · rcases List.mem_or_eq_of_mem_set hd with hd | hd
      · rcases List.mem_or_eq_of_mem_set hd with hd | hd
        · exact hdim d hd
        · rw [hd]; exact ⟨vt, dt, ft⟩
      · rw [hd]; exact ⟨hv0, d0, f0⟩
    · rw [hd]; exact ⟨hvt1, dt, ft⟩


theorem threadOps_cons_self {α : Type} (t : Nat) (op : ThreadOp α)
    (rest : List (Nat × ThreadOp α)) :
    threadOps t ((t, op) :: rest) = op :: threadOps t rest := by
  simp [threadOps]

theorem threadOps_cons_other {α : Type} (t t0 : Nat) (op : ThreadOp α)
    (rest : List (Nat × ThreadOp α)) (h : t0 ≠ t) :
    threadOps t ((t0, op) :: rest) = threadOps t rest := by
  simp [threadOps, h]

theorem merges_append {α : Type} (a b : List (Nat × ThreadOp α)) :
    merges (a ++ b) = merges a + merges b := by
  simp [merges, List.filter_append]

theorem EventAction.run_cons {α : Type} [Zero α] (ea : EventAction α)
    (s : Nat × ThreadOp α) (rest : List (Nat × ThreadOp α)) :
    ea.run (s :: rest) =
      match ea.step s with
      | some ea1 => ea1.run rest
      | none => none := rfl

theorem EventAction.run_append {α : Type} [Zero α] (a b : List (Nat × ThreadOp α)) :
    ∀ ea : EventAction α, ea.run (a ++ b) = (ea.run a).bind (fun e => e.run b) := by
  induction a with
  | nil => intro ea; rfl
  | cons s rest ih =>
    intro ea
    rw [List.cons_append, EventAction.run_cons, EventAction.run_cons]
    cases ea.step s with
    | none => rfl
    | some ea1 => exact ih ea1

theorem EventAction.run_spec {α : Type} [Zero α] (D F : Nat) (hw : D * F < UINT) :
    ∀ (sched : List (Nat × ThreadOp α)) (ea : EventAction α), ea.Inv D F →
      (∀ s ∈ sched, 1 ≤ s.1 ∧ s.1 < ea.data.length) →
      ∃ ea1 recs, ea.run sched = some ea1 ∧ ea1.Inv D F ∧
        ea1.data.length = ea.data.length ∧
        ea1.tree.entries = ea.tree.entries ++ recs ∧ recs.length = merges sched ∧
        (∀ r ∈ recs, r.length = D * F) ∧
        ∀ t, 1 ≤ t → t < ea.data.length →
          ∃ b0 bt, ea.data[t]? = some b0 ∧ b0.ownRun (threadOps t sched) = some bt ∧
            ea1.data[t]? = some bt := by
  intro sched
  induction sched with
  | nil =>
    intro ea hinv _
    refine ⟨ea, [], rfl, hinv, rfl, by simp, rfl, by simp, ?_⟩
    intro t _ htl
    exact ⟨ea.data[t], ea.data[t], List.getElem?_eq_getElem htl, rfl,
      List.getElem?_eq_getElem htl⟩
  | cons s rest ih =>
    intro ea hinv hworkers
    obtain ⟨t0, op⟩ := s
    obtain ⟨h1, h2⟩ := hworkers (t0, op) (List.mem_cons_self _ _)
    have hrest : ∀ s ∈ rest, 1 ≤ s.1 ∧ s.1 < ea.data.length :=
      fun s hs => hworkers s (List.mem_cons_of_mem _ hs)
    simp only at h1 h2
    cases op with
    | write n v x =>
      have et : ea.data[t0]? = some ea.data[t0] := List.getElem?_eq_getElem h2
      obtain ⟨vt, dt, ft⟩ := hinv.2 _ (List.getElem_mem h2)
      obtain ⟨d1, g1, g2, g3, g4⟩ :=
        Datum.SetValue_total (ea.data[t0]) n v x vt (by rw [dt, ft]; exact hw)
      have hstep : ea.step (t0, ThreadOp.write n v x) =
          some { ea with data := ea.data.set t0 d1 } := by
        simp only [EventAction.step, et, g1]
      have hinv1 : EventAction.Inv D F { ea with data := ea.data.set t0 d1 } := by
        refine ⟨hinv.1, ?_⟩
        intro d hd
        rcases List.mem_or_eq_of_mem_set hd with hd | hd
        · exact hinv.2 d hd
        · rw [hd]; exact ⟨g2, by rw [g3, dt], by rw [g4, ft]⟩
      have hlen1 : ({ ea with data := ea.data.set t0 d1 } : EventAction α).data.length
          = ea.data.length := by simp
      obtain ⟨ea1, recs, k1, k2, k3, k4, k5, k6, k7⟩ :=
        ih { ea with data := ea.data.set t0 d1 } hinv1 (by rw [hlen1]; exact hrest)
      refine ⟨ea1, recs, ?_, k2, by rw [k3, hlen1], k4, ?_, k6, ?_⟩
      · rw [EventAction.run_cons, hstep]
        exact k1
      · rw [k5]
        simp [merges, ThreadOp.isMerge]
      · intro t ht htl
        obtain ⟨b0, bt, m1, m2, m3⟩ := k7 t ht (by rw [hlen1]; exact htl)
        by_cases htt : t = t0
        · subst htt
          simp only [List.getElem?_set_eq_of_lt _ h2] at m1
          injection m1 with m1
          subst m1
          refine ⟨ea.data[t], bt, et, ?_, m3⟩
          rw [threadOps_cons_self]
          unfold Datum.ownRun
          simp only [Datum.own, g1]
          exact m2
        · simp only [List.getElem?_set_ne (Ne.symm htt)] at m1
          refine ⟨b0, bt, m1, ?_, m3⟩
          rw [threadOps_cons_other t t0 _ _ (Ne.symm htt)]
          exact m2
    | merge =>
      obtain ⟨ea0, bt, bt1, g1, g2, g3, g4, g5, g6, g7, g8, g9, g10, g11, g12, g13⟩ :=
        EventAction.merge_state ea t0 D F h1 h2 hinv
      obtain ⟨ea1, recs, k1, k2, k3, k4, k5, k6, k7⟩ :=
        ih ea0 g13 (by rw [g11]; exact hrest)
      refine ⟨ea1, bt.elems :: recs, ?_, k2, by rw [k3, g11], ?_, ?_, ?_, ?_⟩
      · rw [EventAction.run_cons]
        simp only [EventAction.step, g2]
        exact k1
      · rw [k4, g3, List.append_assoc]
        rfl
      · rw [List.length_cons, k5]
        simp [merges, ThreadOp.isMerge]
      · intro r hr
        rcases List.mem_cons.mp hr with hr | hr
        · rw [hr, g10, Nat.mod_eq_of_lt hw]
        · exact k6 r hr
      · intro t ht htl
        obtain ⟨b0, bt2, m1, m2, m3⟩ := k7 t ht (by rw [g11]; exact htl)
        by_cases htt : t = t0
        · subst htt
          rw [g5] at m1
          injection m1 with m1
          subst m1
          refine ⟨bt, bt2, g1, ?_, m3⟩
          rw [threadOps_cons_self]
          unfold Datum.ownRun
          simp only [Datum.own, g4]
          exact m2
        · rw [g12 t (by omega) htt] at m1
          refine ⟨b0, bt2, m1, ?_, m3⟩
          rw [threadOps_cons_other t t0 _ _ (Ne.symm htt)]
          exact m2

theorem merges_eq_sum {α : Type} (N : Nat) :
    ∀ sched : List (Nat × ThreadOp α), (∀ s ∈ sched, 1 ≤ s.1 ∧ s.1 ≤ N) →
      merges sched = ∑ t in Finset.range N, mergesOf (t + 1) sched := by
  intro sched
  induction sched with
  | nil => intro _; simp [merges, mergesOf, threadOps]
  | cons s rest ih =>
    intro h
    obtain ⟨t0, op⟩ := s
    obtain ⟨h1, h2⟩ := h (t0, op) (List.mem_cons_self _ _)
    simp only at h1 h2
    have hrest := ih (fun s hs => h s (List.mem_cons_of_mem _ hs))
    have hsplit : ∀ t, mergesOf (t + 1) ((t0, op) :: rest) =
        mergesOf (t + 1) rest + if t = t0 - 1 then (if op.isMerge then 1 else 0) else 0 := by
      intro t
      by_cases c : t = t0 - 1
      · have c1 : t + 1 = t0 := by omega
        rw [if_pos c, c1]
        unfold mergesOf
        rw [threadOps_cons_self]
        cases hop : op.isMerge <;> simp [List.filter, hop]
      · have c1 : t0 ≠ t + 1 := by omega
        rw [if_neg c]
        show mergesOf (t + 1) ((t0, op) :: rest) = mergesOf (t + 1) rest
        unfold mergesOf
        rw [threadOps_cons_other _ _ _ _ c1]
    have hm : merges ((t0, op) :: rest) = merges rest + if op.isMerge then 1 else 0 := by
      cases hop : op.isMerge <;> simp [merges, List.filter, hop]
    rw [hm, hrest, Finset.sum_congr rfl (fun t _ => hsplit t), Finset.sum_add_distrib,
      Finset.sum_ite_eq' (Finset.range N) (t0 - 1)]
    rw [if_pos (Finset.mem_range.mpr (by omega))]


theorem EventAction.run_merge_at {α : Type} [Zero α] (D F : Nat) (hw : D * F < UINT)
    (ea : EventAction α) (hinv : ea.Inv D F) (pre post : List (Nat × ThreadOp α)) (t : Nat)
    (hworkers : ∀ s ∈ pre ++ (t, ThreadOp.merge) :: post, 1 ≤ s.1 ∧ s.1 < ea.data.length) :
    ∃ eaPre bt eaPost bt1 ea1 recsPre recsPost,
      ea.run pre = some eaPre ∧ eaPre.data[t]? = some bt ∧ bt.elems.length = D * F ∧
      ea.run (pre ++ [(t, ThreadOp.merge)]) = some eaPost ∧
      eaPost.tree.entries = eaPre.tree.entries ++ [bt.elems] ∧
      eaPost.data[t]? = some bt1 ∧ bt1.elems = List.replicate (D * F) 0 ∧
      bt1.HasData = false ∧ bt1.ndet = D ∧ bt1.nperdet = F ∧
      eaPost.Inv D F ∧ eaPost.data.length = ea.data.length ∧
      ea.run (pre ++ (t, ThreadOp.merge) :: post) = some ea1 ∧
      ea1.tree.entries = ea.tree.entries ++ (recsPre ++ bt.elems :: recsPost) ∧
      recsPre.length = merges pre := by
  have hpre : ∀ s ∈ pre, 1 ≤ s.1 ∧ s.1 < ea.data.length :=
    fun s hs => hworkers s (List.mem_append_left _ hs)
  have ht := hworkers (t, ThreadOp.merge)
    (List.mem_append_right _ (List.mem_cons_self _ _))
  simp only at ht
  have hpost : ∀ s ∈ post, 1 ≤ s.1 ∧ s.1 < ea.data.length :=
    fun s hs => hworkers s (List.mem_append_right _ (List.mem_cons_of_mem _ hs))
  obtain ⟨eaPre, recsPre, k1, k2, k3, k4, k5, _, _⟩ :=
    EventAction.run_spec D F hw pre ea hinv hpre
  obtain ⟨eaPost, bt, bt1, g1, g2, g3, _, g5, g6, g7, g8, g9, g10, g11, _, g13⟩ :=
    EventAction.merge_state eaPre t D F ht.1 (by rw [k3]; exact ht.2) k2
  obtain ⟨ea1, recsPost, m1, _, _, m4, _, _, _⟩ :=
    EventAction.run_spec D F hw post eaPost g13 (by rw [g11, k3]; exact hpost)
  have hlen : bt.elems.length = D * F := by rw [g10, Nat.mod_eq_of_lt hw]
  have hstep : eaPre.run [(t, ThreadOp.merge)] = some eaPost := by
    rw [EventAction.run_cons]
    simp only [EventAction.step, g2]
    rfl
  have hrun1 : ea.run (pre ++ [(t, ThreadOp.merge)]) = some eaPost := by
    rw [EventAction.run_append, k1]
    exact hstep
  have hrun2 : ea.run (pre ++ (t, ThreadOp.merge) :: post) = some ea1 := by
    have : pre ++ (t, ThreadOp.merge) :: post = (pre ++ [(t, ThreadOp.merge)]) ++ post := by
      simp
    rw [this, EventAction.run_append, hrun1]
    exact m1
  refine ⟨eaPre, bt, eaPost, bt1, ea1, recsPre, recsPost, k1, g1, hlen, hrun1, g3, g5, ?_, g7,
    g8, g9, g13, by rw [g11, k3], hrun2, ?_, k5⟩
  · rw [g6, hlen]
  · rw [m4, g3, k4]
    simp

/-- C16. Concurrent merge. A run of the worker threads is a schedule: the steps of all
workers in the order in which they take effect, a step being a store of a sensitive
detector into the buffer of its own thread or one whole `EndOfEventAction`, whose body
runs under the lock of the static mutex (nothing else is assumed of the threads). On
buffers that all have the dimensions `D × F` (`D * F` not wrapping, each a state of the
class, the tree's branch bound to slot 0), for every schedule of workers `t` with
`1 ≤ t` and `data[t]` in the array: the run completes; the output is the former output
followed by one record per merge, so by `N × M` records when each of the workers `1..N`
merges `M` times; every record has all `D * F` elements; after any part of the schedule
the buffer of each worker is what the steps of that worker alone make of its buffer (no
step of another thread reaches it); the record appended by a merge of worker `t`, at the
position of that merge among the merges, is the whole content of buffer `t` at that
moment, and after the merge buffer `t` keeps its dimensions, all its elements are 0 and
its flag is cleared; and the record of the next merge of the same worker is that all-zero
buffer with the stores the worker has made in between. -/
theorem EventAction.concurrent_merge {α : Type} [Zero α] (ea : EventAction α) (D F : Nat)
    (sched : List (Nat × ThreadOp α))
    (hdim : ∀ d ∈ ea.data, d.Valid ∧ d.ndet = D ∧ d.nperdet = F)
    (hnowrap : D * F < UINT)
    (hbranch : ea.tree.nvalues = (D * F) % UINT)
    (hworkers : ∀ s ∈ sched, 1 ≤ s.1 ∧ s.1 < ea.data.length) :
    ∃ ea1 recs,
      ea.run sched = some ea1 ∧
      ea1.tree.entries = ea.tree.entries ++ recs ∧
      recs.length = merges sched ∧
      (∀ N M, (∀ s ∈ sched, s.1 ≤ N) → (∀ t, 1 ≤ t → t ≤ N → mergesOf t sched = M) →
        recs.length = N * M) ∧
      (∀ r ∈ recs, r.length = D * F) ∧
      (∀ pre post, sched = pre ++ post →
        ∃ eaPre, ea.run pre = some eaPre ∧
          ∀ t, 1 ≤ t → t < ea.data.length →
            ∃ b0 bt, ea.data[t]? = some b0 ∧ b0.ownRun (threadOps t pre) = some bt ∧
              eaPre.data[t]? = some bt) ∧
      (∀ pre t post, sched = pre ++ (t, ThreadOp.merge) :: post →
        ∃ eaPre bt eaPost bt1,
          ea.run pre = some eaPre ∧ eaPre.data[t]? = some bt ∧ bt.elems.length = D * F ∧
          recs[merges pre]? = some bt.elems ∧
          ea.run (pre ++ [(t, ThreadOp.merge)]) = some eaPost ∧
          eaPost.tree.entries = eaPre.tree.entries ++ [bt.elems] ∧
          eaPost.data[t]? = some bt1 ∧ bt1.elems = List.replicate (D * F) 0 ∧
          bt1.HasData = false ∧ bt1.ndet = D ∧ bt1.nperdet = F) ∧
      (∀ pre t mid post,
        sched = pre ++ (t, ThreadOp.merge) :: (mid ++ (t, ThreadOp.merge) :: post) →
        ∃ z b : Datum α, z.elems = List.replicate (D * F) 0 ∧ z.HasData = false ∧ z.ndet = D ∧
          z.nperdet = F ∧ z.ownRun (threadOps t mid) = some b ∧
          recs[merges (pre ++ (t, ThreadOp.merge) :: mid)]? = some b.elems) := by
  have hinv : ea.Inv D F := ⟨hbranch, hdim⟩
  obtain ⟨ea1, recs, k1, _, _, k4, k5, k6, _⟩ :=
    EventAction.run_spec D F hnowrap sched ea hinv hworkers
  have hat : ∀ pre t post, sched = pre ++ (t, ThreadOp.merge) :: post →
      ∃ eaPre bt eaPost bt1,
        ea.run pre = some eaPre ∧ eaPre.data[t]? = some bt ∧ bt.elems.length = D * F ∧
        recs[merges pre]? = some bt.elems ∧
        ea.run (pre ++ [(t, ThreadOp.merge)]) = some eaPost ∧
        eaPost.tree.entries = eaPre.tree.entries ++ [bt.elems] ∧
        eaPost.data[t]? = some bt1 ∧ bt1.elems = List.replicate (D * F) 0 ∧
        bt1.HasData = false ∧ bt1.ndet = D ∧ bt1.nperdet = F ∧
        eaPost.Inv D F ∧ eaPost.data.length = ea.data.length := by
    intro pre t post hs
    obtain ⟨eaPre, bt, eaPost, bt1, ea2, recsPre, recsPost, g1, g2, g3, g4, g5, g6, g7, g8, g9,
      g10, g11, g12, g13, g14, g15⟩ :=
      EventAction.run_merge_at D F hnowrap ea hinv pre post t (by rw [← hs]; exact hworkers)
    rw [← hs, k1] at g13
    injection g13 with g13
    subst g13
    rw [k4] at g14
    have hrecs : recs = recsPre ++ bt.elems :: recsPost := List.append_cancel_left g14
    refine ⟨eaPre, bt, eaPost, bt1, g1, g2, g3, ?_, g4, g5, g6, g7, g8, g9, g10, g11, g12⟩
    rw [hrecs, ← g15, List.getElem?_append_right (le_refl _), Nat.sub_self]
    simp
  refine ⟨ea1, recs, k1, k4, k5, ?_, k6, ?_, ?_, ?_⟩
  · intro N M hN hM
    rw [k5, merges_eq_sum N sched (fun s hs => ⟨(hworkers s hs).1, hN s hs⟩),
      Finset.sum_congr rfl (fun t ht => hM (t + 1) (by omega)
        (by have := Finset.mem_range.mp ht; omega))]
    simp
  · intro pre post hs
    obtain ⟨eaPre, _, g1, _, _, _, _, _, g7⟩ :=
      EventAction.run_spec D F hnowrap pre ea hinv
        (fun s h => hworkers s (by rw [hs]; exact List.mem_append_left _ h))
    exact ⟨eaPre, g1, g7⟩
  · intro pre t post hs
    obtain ⟨eaPre, bt, eaPost, bt1, g1, g2, g3, g4, g5, g6, g7, g8, g9, g10, g11, _⟩ :=
      hat pre t post hs
    exact ⟨eaPre, bt, eaPost, bt1, g1, g2, g3, g4, g5, g6, g7, g8, g9, g10, g11⟩
  · intro pre t mid post hs
    obtain ⟨_, _, eaPost, bt1, _, _, _, _, g5, _, g7, g8, g9, g10, g11, g12, g13⟩ :=
      hat pre t (mid ++ (t, ThreadOp.merge) :: post) hs
    have hs2 : sched = (pre ++ (t, ThreadOp.merge) :: mid) ++ (t, ThreadOp.merge) :: post := by
      rw [hs]; simp
    obtain ⟨eaMid, b2, _, _, m1, m2, _, m4, _⟩ :=
      hat (pre ++ (t, ThreadOp.merge) :: mid) t post hs2
    have ht := hworkers (t, ThreadOp.merge)
      (by rw [hs]; exact List.mem_append_right _ (List.mem_cons_self _ _))
    simp only at ht
    obtain ⟨eaMid1, _, n1, _, _, _, _, _, n7⟩ :=
      EventAction.run_spec D F hnowrap mid eaPost g12
        (fun s h => by
          rw [g13]
          exact hworkers s (by
            rw [hs]
            exact List.mem_append_right _ (List.mem_cons_of_mem _ (List.mem_append_left _ h))))
    obtain ⟨b0, b3, p1, p2, p3⟩ := n7 t ht.1 (by rw [g13]; exact ht.2)
    have hsame : ea.run (pre ++ (t, ThreadOp.merge) :: mid) = some eaMid1 := by
      have : pre ++ (t, ThreadOp.merge) :: mid = (pre ++ [(t, ThreadOp.merge)]) ++ mid := by
        simp
      rw [this, EventAction.run_append, g5]
      exact n1
    rw [hsame] at m1
    injection m1 with m1
    subst m1
    rw [g7] at p1
    injection p1 with p1
    subst p1
    rw [p3] at m2
    injection m2 with m2
    subst m2
    exact ⟨bt1, b3, g8, g9, g10, g11, p2, m4⟩


theorem exampleSchedule_workers :
    ∀ s ∈ exampleSchedule, 1 ≤ s.1 ∧ s.1 < exampleMerge.data.length := by
  decide

theorem exampleSchedule_entries :
    (exampleMerge.run exampleSchedule).map (fun e => e.tree.entries) =
      some [[5, 6], [3, 4], [7, 8], [0, 0], [1, 0]] := by
  decide

/-- C16 at `exampleMerge` and `exampleSchedule`. -/
theorem EventAction.concurrent_merge_witness :
    ((∀ d ∈ exampleMerge.data, d.Valid ∧ d.ndet = 1 ∧ d.nperdet = 2) ∧ 1 * 2 < UINT ∧
      exampleMerge.tree.nvalues = (1 * 2) % UINT ∧
      ∀ s ∈ exampleSchedule, 1 ≤ s.1 ∧ s.1 < exampleMerge.data.length) ∧
    (exampleMerge.run exampleSchedule).map (fun e => e.tree.entries) =
      some [[5, 6], [3, 4], [7, 8], [0, 0], [1, 0]] ∧
    ∃ ea1 recs,
      exampleMerge.run exampleSchedule = some ea1 ∧
      ea1.tree.entries = exampleMerge.tree.entries ++ recs ∧
      recs.length = merges exampleSchedule ∧
      (∀ N M, (∀ s ∈ exampleSchedule, s.1 ≤ N) →
        (∀ t, 1 ≤ t → t ≤ N → mergesOf t exampleSchedule = M) → recs.length = N * M) ∧
      (∀ r ∈ recs, r.length = 1 * 2) ∧
      (∀ pre post, exampleSchedule = pre ++ post →
        ∃ eaPre, exampleMerge.run pre = some eaPre ∧
          ∀ t, 1 ≤ t → t < exampleMerge.data.length →
            ∃ b0 bt, exampleMerge.data[t]? = some b0 ∧
              b0.ownRun (threadOps t pre) = some bt ∧ eaPre.data[t]? = some bt) ∧
      (∀ pre t post, exampleSchedule = pre ++ (t, ThreadOp.merge) :: post →
        ∃ eaPre bt eaPost bt1,
          exampleMerge.run pre = some eaPre ∧ eaPre.data[t]? = some bt ∧
          bt.elems.length = 1 * 2 ∧
          recs[merges pre]? = some bt.elems ∧
          exampleMerge.run (pre ++ [(t, ThreadOp.merge)]) = some eaPost ∧
          eaPost.tree.entries = eaPre.tree.entries ++ [bt.elems] ∧
          eaPost.data[t]? = some bt1 ∧ bt1.elems = List.replicate (1 * 2) 0 ∧
          bt1.HasData = false ∧ bt1.ndet = 1 ∧ bt1.nperdet = 2) ∧
      (∀ pre t mid post,
        exampleSchedule = pre ++ (t, ThreadOp.merge) :: (mid ++ (t, ThreadOp.merge) :: post) →
        ∃ z b : Datum Int, z.elems = List.replicate (1 * 2) 0 ∧ z.HasData = false ∧
          z.ndet = 1 ∧ z.nperdet = 2 ∧ z.ownRun (threadOps t mid) = some b ∧
          recs[merges (pre ++ (t, ThreadOp.merge) :: mid)]? = some b.elems) :=
  ⟨⟨exampleMerge_dims, by decide, by decide, exampleSchedule_workers⟩,
    exampleSchedule_entries,
    EventAction.concurrent_merge exampleMerge 1 2 exampleSchedule exampleMerge_dims
      (by decide) (by decide) exampleSchedule_workers⟩

/-- With buffers of unequal dimensions a merge appends a record that is a mixture: the two
elements of the worker's buffer followed by the third element of slot 0. -/
theorem exampleUnequal_entries :
    (exampleUnequal.run [(1, ThreadOp.merge)]).map (fun e => e.tree.entries) =
      some [[3, 4, 99]] := by
  decide

/-! ## Level scheme: nearest-energy lookup -/

namespace LevelScheme

variable {R : Type} [LinearOrderedField R]

theorem GetLevel.loop_post (energy : R) (rest : List (Level R)) :
    ∀ (pre : List (Level R)) (result : Option Nat) (diff : R),
      GetLevel.Inv energy pre result diff →
      GetLevel.Post energy (pre ++ rest) (GetLevel.loop energy rest pre.length result diff) := by
  induction rest with
  | nil =>
    intro pre result diff hinv
    obtain ⟨hmin, hres⟩ := hinv
    simp only [GetLevel.loop, List.append_nil]
    cases result with
    | none => exact fun l hl => le_trans hres (hmin l hl)
    | some k =>
      obtain ⟨hlt, lk, hk, hd, hfirst⟩ := hres
      exact ⟨lk, hk, hd ▸ hlt, fun l hl => hd ▸ hmin l hl, fun j lj hj hjl => hd ▸ hfirst j lj hj hjl⟩
  | cons l rest ih =>
    intro pre result diff hinv
    obtain ⟨hmin, hres⟩ := hinv
    have happ : pre ++ l :: rest = (pre ++ [l]) ++ rest := by simp
    have hlen : (pre ++ [l]).length = pre.length + 1 := by simp
    rw [happ]
    simp only [GetLevel.loop, Level.GetEnergy]
    by_cases hd : abs (l.energy - energy) < diff
    · rw [if_pos hd, ← hlen]
      apply ih
      refine ⟨?_, ?_⟩
      · intro l1 hl1
        rcases List.mem_append.mp hl1 with h | h
        · exact le_of_lt (lt_of_lt_of_le hd (hmin l1 h))
        · rw [List.mem_singleton.mp h]
      · by_cases h2 : abs (l.energy - energy) < 2
        · rw [if_pos h2]
          refine ⟨h2, l, by simp, rfl, ?_⟩
          intro j lj hj hjl
          rw [List.getElem?_append_left hj] at hjl
          exact lt_of_lt_of_le hd (hmin lj (List.getElem?_mem hjl))
        · rw [if_neg h2]
          cases result with
          | none => exact not_lt.mp h2
          | some k => exact absurd (lt_trans hd hres.1) h2
    · rw [if_neg hd, ← hlen]
      apply ih
      refine ⟨?_, ?_⟩
      · intro l1 hl1
        rcases List.mem_append.mp hl1 with h | h
        · exact hmin l1 h
        · rw [List.mem_singleton.mp h]; exact not_lt.mp hd
      · cases result with
        | none => exact hres
        | some k =>
          obtain ⟨hlt, lk, hk, hdk, hfirst⟩ := hres
          have hkl : k < pre.length := (List.getElem?_eq_some.mp hk).1
          refine ⟨hlt, lk, ?_, hdk, ?_⟩
          · rw [List.getElem?_append_left hkl]; exact hk
          · intro j lj hj hjl
            rw [List.getElem?_append_left (lt_trans hj hkl)] at hjl
            exact hfirst j lj hj hjl

theorem GetLevel_post (s : LevelScheme R) (energy : R) :
    GetLevel.Post energy s.levels (s.GetLevel energy) := by
  have h := GetLevel.loop_post energy s.levels [] none (10 ^ 30) ⟨by simp, by norm_num⟩
  simpa [GetLevel] using h

/-- C6. Nearest-energy lookup over exact reals (any linearly ordered field), for every list
of levels and every query energy `e`: `GetLevel(e)` returns a level iff the list is
non-empty and the minimum of `|L.energy - e|` over the levels is below 2; it returns the
level at position `k` iff that level is within 2 of `e`, attains the minimum, and every
level added before it is strictly farther from `e` (the first of the nearest levels);
and it returns no level iff every level is at distance at least 2 (so also on the empty
list). -/
theorem GetLevel_nearest (s : LevelScheme R) (e : R) :
    ((s.GetLevel e).isSome ↔
      s.levels ≠ [] ∧ ∃ l ∈ s.levels,
        (∀ l1 ∈ s.levels, abs (l.energy - e) ≤ abs (l1.energy - e)) ∧ abs (l.energy - e) < 2) ∧
    (∀ k, s.GetLevel e = some k ↔
      ∃ lk, s.levels[k]? = some lk ∧ abs (lk.energy - e) < 2 ∧
        (∀ l ∈ s.levels, abs (lk.energy - e) ≤ abs (l.energy - e)) ∧
        ∀ j lj, j < k → s.levels[j]? = some lj → abs (lk.energy - e) < abs (lj.energy - e)) ∧
    (s.GetLevel e = none ↔ ∀ l ∈ s.levels, 2 ≤ abs (l.energy - e)) := by
  have hpost := GetLevel_post s e
  have hnone : s.GetLevel e = none → ∀ l ∈ s.levels, 2 ≤ abs (l.energy - e) := by
    intro h
    rw [h] at hpost
    exact hpost
  have hsome : ∀ k, s.GetLevel e = some k →
      ∃ lk, s.levels[k]? = some lk ∧ abs (lk.energy - e) < 2 ∧
        (∀ l ∈ s.levels, abs (lk.energy - e) ≤ abs (l.energy - e)) ∧
        ∀ j lj, j < k → s.levels[j]? = some lj → abs (lk.energy - e) < abs (lj.energy - e) := by
    intro k h
    rw [h] at hpost
    exact hpost
  refine ⟨⟨?_, ?_⟩, ?_, ⟨hnone, ?_⟩⟩
  · intro h
    obtain ⟨k, hk⟩ := Option.isSome_iff_exists.mp h
    obtain ⟨lk, h1, h2, h3, _⟩ := hsome k hk
    have hmem := List.getElem?_mem h1
    exact ⟨List.ne_nil_of_mem hmem, lk, hmem, h3, h2⟩
  · rintro ⟨_, l, hl, _, h2⟩
    cases hg : s.GetLevel e with
    | none => exact absurd h2 (not_lt.mpr (hnone hg l hl))
    | some k => rfl
  · intro k
    refine ⟨hsome k, ?_⟩
    rintro ⟨lk, h1, h2, h3, h4⟩
    cases hg : s.GetLevel e with
    | none => exact absurd h2 (not_lt.mpr (hnone hg lk (List.getElem?_mem h1)))
    | some k1 =>
      obtain ⟨lk1, g1, _, g3, g4⟩ := hsome k1 hg
      rcases Nat.lt_trichotomy k1 k with hlt | heq | hgt
      · exact absurd (h4 k1 lk1 hlt g1) (not_lt.mpr (g3 lk (List.getElem?_mem h1)))
      · rw [heq]
      · exact absurd (g4 k lk hgt h1) (not_lt.mpr (h3 lk1 (List.getElem?_mem g1)))
  · intro h
    cases hg : s.GetLevel e with
    | none => rfl
    | some k =>
      obtain ⟨lk, h1, h2, _⟩ := hsome k hg
      exact absurd h2 (not_lt.mpr (h lk (List.getElem?_mem h1)))

/-! ## Level scheme: adding transitions -/

theorem GetLevel_some (s : LevelScheme R) (e : R) (k : Nat) (h : s.GetLevel e = some k) :
    ∃ lk, s.levels[k]? = some lk ∧ abs (lk.energy - e) < 2 := by
  have hpost := GetLevel_post s e
  rw [h] at hpost
  obtain ⟨lk, h1, h2, _⟩ := hpost
  exact ⟨lk, h1, h2⟩

theorem AddTransition_of_some (s : LevelScheme R) (E1 E2 intensity : R) (i f : Nat)
    (h1 : s.GetLevel E1 = some i) (h2 : s.GetLevel E2 = some f) :
    s.AddTransition E1 E2 intensity =
      { s with transitions := s.transitions ++ [Transition.mk (E1 - E2) intensity (some f)],
               levels := s.levels.modify
                 (fun l => l.AddTransition (Transition.mk (E1 - E2) intensity (some f))) i } := by
  simp [AddTransition, h1, h2, AddTransitionLevels, Transition.construct]

theorem AddTransition_of_none (s : LevelScheme R) (E1 E2 intensity : R)
    (h : s.GetLevel E1 = none ∨ s.GetLevel E2 = none) : s.AddTransition E1 E2 intensity = s := by
  unfold AddTransition
  rcases h with h | h
  · rw [h]
  · rw [h]
    cases s.GetLevel E1 <;> rfl

/-- C7. `AddTransition(E1, E2, intensity)`: if `GetLevel(E1)` or `GetLevel(E2)` returns no
level the scheme is unchanged (levels, both kinds of transition lists, cached totals);
otherwise exactly one transition, with gamma energy `E1 - E2`, the given intensity and
target `GetLevel(E2)`, is appended to the scheme's list and to the end of the outgoing
list of the level `GetLevel(E1)`, whose cached total decay weight grows by the intensity
and whose other members keep their values; every other level, the number of levels and
the total population are unchanged. -/
theorem AddTransition_effect (s : LevelScheme R) (E1 E2 intensity : R) :
    ((s.GetLevel E1 = none ∨ s.GetLevel E2 = none) → s.AddTransition E1 E2 intensity = s) ∧
    ∀ i f, s.GetLevel E1 = some i → s.GetLevel E2 = some f →
      ∃ li, s.levels[i]? = some li ∧
        (s.AddTransition E1 E2 intensity).transitions =
          s.transitions ++ [Transition.mk (E1 - E2) intensity (some f)] ∧
        (s.AddTransition E1 E2 intensity).levels[i]? =
          some { li with
            transitions := li.transitions ++ [Transition.mk (E1 - E2) intensity (some f)],
            total_decay := li.total_decay + intensity } ∧
        (∀ j, j ≠ i → (s.AddTransition E1 E2 intensity).levels[j]? = s.levels[j]?) ∧
        (s.AddTransition E1 E2 intensity).levels.length = s.levels.length ∧
        (s.AddTransition E1 E2 intensity).total_population = s.total_population := by
  refine ⟨AddTransition_of_none s E1 E2 intensity, ?_⟩
  intro i f h1 h2
  obtain ⟨li, hli, _⟩ := GetLevel_some s E1 i h1
  rw [AddTransition_of_some s E1 E2 intensity i f h1 h2]
  refine ⟨li, hli, rfl, ?_, ?_, ?_, rfl⟩
  · simp only [List.getElem?_modify_eq, hli]
    rfl
  · intro j hj
    exact List.getElem?_modify_ne _ _ (Ne.symm hj)
  · simp

/-! ## Level scheme: transition energies -/

theorem TransitionsSatisfy_AddLevel (P : R → R → Prop) (s : LevelScheme R)
    (energy tau population : R) (h : TransitionsSatisfy P s) :
    TransitionsSatisfy P (s.AddLevel energy tau population) := by
  intro i li t hi ht
  simp only [AddLevel] at hi ⊢
  by_cases hlt : i < s.levels.length
  · rw [List.getElem?_append_left hlt] at hi
    obtain ⟨f, lf, h1, h2, h3⟩ := h i li t hi ht
    have hf : f < s.levels.length := (List.getElem?_eq_some.mp h2).1
    exact ⟨f, lf, h1, by rw [List.getElem?_append_left hf]; exact h2, h3⟩
  · rw [List.getElem?_append_right (not_lt.mp hlt)] at hi
    have hmem := List.getElem?_mem hi
    rw [List.mem_singleton] at hmem
    rw [hmem] at ht
    simp [Level.construct] at ht

theorem AddTransition_levels (s : LevelScheme R) (E1 E2 intensity : R) (j : Nat)
    (l1 : Level R) (h : (s.AddTransition E1 E2 intensity).levels[j]? = some l1) :
    ∃ l, s.levels[j]? = some l ∧ l1.energy = l.energy ∧ l1.tau = l.tau ∧
      l1.population = l.population ∧
      (l1.transitions = l.transitions ∨
        ∃ f, s.GetLevel E1 = some j ∧ s.GetLevel E2 = some f ∧
          l1.transitions = l.transitions ++ [Transition.mk (E1 - E2) intensity (some f)]) := by
  cases h1 : s.GetLevel E1 with
  | none =>
    rw [AddTransition_of_none s E1 E2 intensity (Or.inl h1)] at h
    exact ⟨l1, h, rfl, rfl, rfl, Or.inl rfl⟩
  | some i =>
    cases h2 : s.GetLevel E2 with
    | none =>
      rw [AddTransition_of_none s E1 E2 intensity (Or.inr h2)] at h
      exact ⟨l1, h, rfl, rfl, rfl, Or.inl rfl⟩
    | some f =>
      rw [AddTransition_of_some s E1 E2 intensity i f h1 h2] at h
      simp only at h
      by_cases hji : i = j
      · subst hji
        rw [List.getElem?_modify_eq] at h
        cases hl : s.levels[i]? with
        | none => rw [hl] at h; simp at h
        | some l =>
          rw [hl] at h
          simp only [Option.map_eq_map, Option.map_some', Option.some.injEq] at h
          subst h
          exact ⟨l, rfl, rfl, rfl, rfl, Or.inr ⟨f, rfl, rfl, rfl⟩⟩
      · rw [List.getElem?_modify_ne _ _ hji] at h
        exact ⟨l1, h, rfl, rfl, rfl, Or.inl rfl⟩

theorem AddTransition_levels_back (s : LevelScheme R) (E1 E2 intensity : R) (j : Nat)
    (l : Level R) (h : s.levels[j]? = some l) :
    ∃ l1, (s.AddTransition E1 E2 intensity).levels[j]? = some l1 ∧ l1.energy = l.energy ∧
      l1.tau = l.tau ∧ l1.population = l.population := by
  have hj : j < (s.AddTransition E1 E2 intensity).levels.length := by
    have hlen : (s.AddTransition E1 E2 intensity).levels.length = s.levels.length := by
      unfold AddTransition AddTransitionLevels
      cases s.GetLevel E1 <;> cases s.GetLevel E2 <;> simp
    rw [hlen]
    exact (List.getElem?_eq_some.mp h).1
  refine ⟨(s.AddTransition E1 E2 intensity).levels[j], List.getElem?_eq_getElem hj, ?_⟩
  obtain ⟨l0, g1, g2, g3, g4, _⟩ :=
    AddTransition_levels s E1 E2 intensity j _ (List.getElem?_eq_getElem hj)
  rw [h] at g1
  injection g1 with g1
  subst g1
  exact ⟨g2, g3, g4⟩

theorem TransitionsSatisfy_AddTransition (P : R → R → Prop) (s : LevelScheme R)
    (E1 E2 intensity : R) (h : TransitionsSatisfy P s)
    (hnew : ∀ i f li lf, s.GetLevel E1 = some i → s.GetLevel E2 = some f →
      s.levels[i]? = some li → s.levels[f]? = some lf → P (E1 - E2) (li.energy - lf.energy)) :
    TransitionsSatisfy P (s.AddTransition E1 E2 intensity) := by
  intro j l1 t hj ht
  obtain ⟨l, g1, g2, _, _, g5⟩ := AddTransition_levels s E1 E2 intensity j l1 hj
  have hold : t ∈ l.transitions →
      ∃ f lf, t.final = some f ∧ (s.AddTransition E1 E2 intensity).levels[f]? = some lf ∧
        P t.energy (l1.energy - lf.energy) := by
    intro hmem
    obtain ⟨f, lf, k1, k2, k3⟩ := h j l t g1 hmem
    obtain ⟨lf1, m1, m2, _⟩ := AddTransition_levels_back s E1 E2 intensity f lf k2
    exact ⟨f, lf1, k1, m1, by rw [g2, m2]; exact k3⟩
  rcases g5 with g5 | ⟨f, e1, e2, g5⟩
  · rw [g5] at ht
    exact hold ht
  · rw [g5] at ht
    rcases List.mem_append.mp ht with hmem | hmem
    · exact hold hmem
    · rw [List.mem_singleton] at hmem
      subst hmem
      obtain ⟨lf, k2, _⟩ := GetLevel_some s E2 f e2
      obtain ⟨lf1, m1, m2, _⟩ := AddTransition_levels_back s E1 E2 intensity f lf k2
      exact ⟨f, lf1, rfl, m1, by rw [g2, m2]; exact hnew j f l lf e1 e2 g1 k2⟩

theorem TransitionsSatisfy_foldl_near (calls : List (Call R)) :
    ∀ s : LevelScheme R, TransitionsSatisfy (fun x y => abs (x - y) < 4) s →
      TransitionsSatisfy (fun x y => abs (x - y) < 4) (calls.foldl call s) := by
  induction calls with
  | nil => intro s h; exact h
  | cons c rest ih =>
    intro s h
    rw [List.foldl_cons]
    apply ih
    cases c with
    | addLevel energy tau population => exact TransitionsSatisfy_AddLevel _ s _ _ _ h
    | addTransition E1 E2 intensity =>
      apply TransitionsSatisfy_AddTransition _ s E1 E2 intensity h
      intro i f li lf h1 h2 g1 g2
      obtain ⟨li1, k1, k2⟩ := GetLevel_some s E1 i h1
      obtain ⟨lf1, m1, m2⟩ := GetLevel_some s E2 f h2
      rw [g1] at k1
      rw [g2] at m1
      injection k1 with k1
      injection m1 with m1
      subst k1
      subst m1
      have e : E1 - E2 - (li.energy - lf.energy) = (lf.energy - E2) - (li.energy - E1) := by ring
      show abs (E1 - E2 - (li.energy - lf.energy)) < 4
      rw [e]
      calc abs ((lf.energy - E2) - (li.energy - E1))
          ≤ abs (lf.energy - E2) + abs (li.energy - E1) := abs_sub _ _
        _ < 2 + 2 := add_lt_add m2 k2
        _ = 4 := by norm_num

theorem TransitionsSatisfy_foldl_exact (calls : List (Call R)) :
    ∀ s : LevelScheme R, TransitionsSatisfy (fun x y => x = y) s → ExactCalls s calls →
      TransitionsSatisfy (fun x y => x = y) (calls.foldl call s) := by
  induction calls with
  | nil => intro s h _; exact h
  | cons c rest ih =>
    intro s h hex
    rw [List.foldl_cons]
    cases c with
    | addLevel energy tau population =>
      exact ih _ (TransitionsSatisfy_AddLevel _ s _ _ _ h) hex
    | addTransition E1 E2 intensity =>
      obtain ⟨x1, x2, x3⟩ := hex
      apply ih _ _ x3
      apply TransitionsSatisfy_AddTransition _ s E1 E2 intensity h
      intro i f li lf h1 h2 g1 g2
      show E1 - E2 = li.energy - lf.energy
      rw [x1 i li h1 g1, x2 f lf h2 g2]

/-- C8, amended. In every scheme built by a sequence of `AddLevel` and `AddTransition`
calls, every transition stored in the outgoing list of a level has a target that is a level
of the scheme, and its energy differs from the energy of the level it depopulates minus
the energy of the level it populates by less than 4 (each of the two energies given to
`AddTransition` is within 2 of its level); the two are equal when every `AddTransition`
call was given the exact energies of the levels its two arguments resolve to. -/
theorem transition_energy (calls : List (Call R)) (i : Nat) (li : Level R)
    (t : Transition R) (hi : (build calls).levels[i]? = some li) (ht : t ∈ li.transitions) :
    ∃ f lf, t.GetFinal = some f ∧ (build calls).levels[f]? = some lf ∧
      abs (t.GetEnergy - (li.GetEnergy - lf.GetEnergy)) < 4 ∧
      (ExactCalls construct calls → t.GetEnergy = li.GetEnergy - lf.GetEnergy) := by
  have hc : ∀ P : R → R → Prop, TransitionsSatisfy P (construct : LevelScheme R) := by
    intro P i li t hi
    simp [construct] at hi
  obtain ⟨f, lf, h1, h2, h3⟩ :=
    TransitionsSatisfy_foldl_near calls construct (hc _) i li t hi ht
  refine ⟨f, lf, h1, h2, h3, ?_⟩
  intro hex
  obtain ⟨f1, lf1, g1, g2, g3⟩ :=
    TransitionsSatisfy_foldl_exact calls construct (hc _) hex i li t hi ht
  rw [h1] at g1
  injection g1 with g1
  subst g1
  rw [h2] at g2
  injection g2 with g2
  subst g2
  exact g3

theorem exampleTwoLevels_build :
    build exampleTwoLevels =
      { levels := [{ energy := 1000, tau := 1, population := 1, transitions := [],
                     total_decay := 0 },
                   { energy := 0, tau := -1, population := 0, transitions := [],
                     total_decay := 0 }],
        transitions := [], total_population := 1 } := by
  simp [build, exampleTwoLevels, call, AddLevel, construct, Level.construct]

theorem exampleTwoLevels_GetLevel :
    (build exampleTwoLevels).GetLevel 1001 = some 0 ∧
      (build exampleTwoLevels).GetLevel 1000 = some 0 ∧
      (build exampleTwoLevels).GetLevel 0 = some 1 := by
  rw [exampleTwoLevels_build]
  refine ⟨?_, ?_, ?_⟩ <;>
    norm_num [GetLevel, GetLevel.loop, Level.GetEnergy, abs_lt]

/-- C8 as stated fails: on the levels 1000 and 0 both energies of `AddTransition(1001, 0,
1)` resolve to levels (level 0 and level 1), and the transition stored in the outgoing list
of level 0 has energy 1001, not `1000 - 0`. -/
theorem energy_conservation_counterexample :
    ((build exampleTwoLevels).GetLevel 1001 = some 0 ∧
      (build exampleTwoLevels).GetLevel 0 = some 1) ∧
    (build exampleInexact).levels =
      [{ energy := 1000, tau := 1, population := 1,
         transitions := [{ energy := 1001, intensity := 1, final := some 1 }],
         total_decay := 1 },
       { energy := 0, tau := -1, population := 0, transitions := [], total_decay := 0 }] ∧
    (1001 : ℚ) ≠ 1000 - 0 := by
  have hb : build exampleInexact = (build exampleTwoLevels).AddTransition 1001 0 1 := by
    simp [build, exampleInexact, call]
  refine ⟨⟨exampleTwoLevels_GetLevel.1, exampleTwoLevels_GetLevel.2.2⟩, ?_, by norm_num⟩
  rw [hb, AddTransition_of_some _ _ _ _ 0 1 exampleTwoLevels_GetLevel.1
    exampleTwoLevels_GetLevel.2.2, exampleTwoLevels_build]
  norm_num [List.modify, List.modifyTailIdx, List.modifyHead, Level.AddTransition,
    Transition.GetIntensity]

theorem exampleExact_build :
    build exampleExact =
      { levels := [exampleSource,
                   { energy := 0, tau := -1, population := 0, transitions := [],
                     total_decay := 0 }],
        transitions := [exampleTransition], total_population := 1 } := by
  have hb : build exampleExact = (build exampleTwoLevels).AddTransition 1000 0 1 := by
    simp [build, exampleExact, call]
  rw [hb, AddTransition_of_some _ _ _ _ 0 1 exampleTwoLevels_GetLevel.2.1
    exampleTwoLevels_GetLevel.2.2, exampleTwoLevels_build]
  norm_num [List.modify, List.modifyTailIdx, List.modifyHead, Level.AddTransition,
    Transition.GetIntensity, exampleSource, exampleTransition]

theorem exampleExact_exact : ExactCalls construct exampleExact := by
  have h2 : ((construct : LevelScheme ℚ).AddLevel 1000 1 1).AddLevel 0 (-1) 0
      = build exampleTwoLevels := by
    simp [build, exampleTwoLevels, call]
  simp only [exampleExact, exampleTwoLevels, List.cons_append, List.nil_append, ExactCalls]
  rw [h2]
  refine ⟨?_, ?_, trivial⟩
  · intro i li hi hl
    rw [exampleTwoLevels_GetLevel.2.1] at hi
    injection hi with hi
    subst hi
    rw [exampleTwoLevels_build] at hl
    simp only [List.getElem?_cons_zero, Option.some.injEq] at hl
    rw [← hl]
  · intro f lf hf hl
    rw [exampleTwoLevels_GetLevel.2.2] at hf
    injection hf with hf
    subst hf
    rw [exampleTwoLevels_build] at hl
    simp only [List.getElem?_cons_succ, List.getElem?_cons_zero, Option.some.injEq] at hl
    rw [← hl]

theorem exampleExact_source : (build exampleExact).levels[0]? = some exampleSource := by
  rw [exampleExact_build]
  rfl

/-- C8 (amended) at `exampleExact`, level 0 and its transition. -/
theorem transition_energy_witness :
    ((build exampleExact).levels[0]? = some exampleSource ∧
      exampleTransition ∈ exampleSource.transitions ∧ ExactCalls construct exampleExact) ∧
    ∃ f lf, exampleTransition.GetFinal = some f ∧ (build exampleExact).levels[f]? = some lf ∧
      abs (exampleTransition.GetEnergy - (exampleSource.GetEnergy - lf.GetEnergy)) < 4 ∧
      (ExactCalls construct exampleExact →
        exampleTransition.GetEnergy = exampleSource.GetEnergy - lf.GetEnergy) :=
  ⟨⟨exampleExact_source, List.mem_singleton.mpr rfl, exampleExact_exact⟩,
    transition_energy exampleExact 0 exampleSource exampleTransition exampleExact_source
      (List.mem_singleton.mpr rfl)⟩

/-! ## Level scheme: weighted draw of the entry level -/

theorem PickPrimaryLevel.loop_eq_some_iff (r : R) (rest : List (Level R)) :
    ∀ (i : Nat) (sum : R) (j : Nat),
      PickPrimaryLevel.loop r rest i sum = some j ↔
        ∃ k, j = i + k ∧ k < rest.length ∧
          r < sum + ((rest.take (k + 1)).map Level.GetPopulation).sum ∧
          ∀ k1, k1 < k → ¬ r < sum + ((rest.take (k1 + 1)).map Level.GetPopulation).sum := by
  induction rest with
  | nil => intro i sum j; simp [PickPrimaryLevel.loop]
  | cons l rest ih =>
    intro i sum j
    simp only [PickPrimaryLevel.loop]
    by_cases h : r < sum + l.GetPopulation
    · rw [if_pos h]
      constructor
      · intro hj
        injection hj with hj
        subst hj
        exact ⟨0, rfl, by simp, by simpa using h, fun k1 hk1 => absurd hk1 (Nat.not_lt_zero k1)⟩
      · rintro ⟨k, hj, _, _, hfirst⟩
        cases k with
        | zero => rw [hj]; rfl
        | succ k => exact absurd (by simpa using h) (hfirst 0 (Nat.succ_pos k))
    · rw [if_neg h, ih]
      constructor
      · rintro ⟨k, hj, hk, hlt, hfirst⟩
        refine ⟨k + 1, by omega, by simpa using hk, ?_, ?_⟩
        · simpa [add_assoc] using hlt
        · intro k1 hk1
          cases k1 with
          | zero => simpa using h
          | succ k1 =>
            have := hfirst k1 (by omega)
            simpa [add_assoc] using this
      · rintro ⟨k, hj, hk, hlt, hfirst⟩
        cases k with
        | zero => exact absurd (by simpa using hlt) h
        | succ k =>
          refine ⟨k, by omega, by simpa using hk, by simpa [add_assoc] using hlt, ?_⟩
          intro k1 hk1
          have := hfirst (k1 + 1) (by omega)
          simpa [add_assoc] using this

theorem PickPrimaryLevel.loop_eq_none_iff (r : R) (rest : List (Level R)) :
    ∀ (i : Nat) (sum : R),
      PickPrimaryLevel.loop r rest i sum = none ↔
        ∀ k, k < rest.length →
          ¬ r < sum + ((rest.take (k + 1)).map Level.GetPopulation).sum := by
  induction rest with
  | nil => intro i sum; simp [PickPrimaryLevel.loop]
  | cons l rest ih =>
    intro i sum
    simp only [PickPrimaryLevel.loop]
    by_cases h : r < sum + l.GetPopulation
    · rw [if_pos h]
      constructor
      · intro hc; exact absurd hc (by simp)
      · intro hall
        exact absurd (by simpa using h) (hall 0 (by simp))
    · rw [if_neg h, ih]
      constructor
      · intro hall k hk
        cases k with
        | zero => simpa using h
        | succ k =>
          have := hall k (by simpa using hk)
          simpa [add_assoc] using this
      · intro hall k hk
        have := hall (k + 1) (by simpa using hk)
        simpa [add_assoc] using this

theorem PickPrimaryLevel_eq_some_iff (s : LevelScheme R) (u : R) (j : Nat) :
    s.PickPrimaryLevel u = some j ↔
      j < s.levels.length ∧ u * s.total_population < s.cumPopulation (j + 1) ∧
        ∀ k, k < j → ¬ u * s.total_population < s.cumPopulation (k + 1) := by
  unfold PickPrimaryLevel cumPopulation
  rw [PickPrimaryLevel.loop_eq_some_iff]
  constructor
  · rintro ⟨k, hj, hk, hlt, hfirst⟩
    have : j = k := by omega
    subst this
    exact ⟨hk, by simpa using hlt, fun k1 hk1 => by simpa using hfirst k1 hk1⟩
  · rintro ⟨hk, hlt, hfirst⟩
    exact ⟨j, by omega, hk, by simpa using hlt, fun k1 hk1 => by simpa using hfirst k1 hk1⟩

theorem PickPrimaryLevel_eq_none_iff (s : LevelScheme R) (u : R) :
    s.PickPrimaryLevel u = none ↔
      ∀ k, k < s.levels.length → ¬ u * s.total_population < s.cumPopulation (k + 1) := by
  unfold PickPrimaryLevel cumPopulation
  rw [PickPrimaryLevel.loop_eq_none_iff]
  constructor
  · intro h k hk
    simpa using h k hk
  · intro h k hk
    simpa using h k hk

theorem map_modify_of_invariant {α β : Type} (g : α → β) (f : α → α)
    (h : ∀ a, g (f a) = g a) : ∀ (l : List α) (n : Nat), (l.modify f n).map g = l.map g := by
  intro l
  induction l with
  | nil => intro n; simp
  | cons a l ih =>
    intro n
    cases n with
    | zero => simp [h]
    | succ n => simp [ih n]

theorem AddTransition_populations (s : LevelScheme R) (E1 E2 intensity : R) :
    (s.AddTransition E1 E2 intensity).levels.map Level.GetPopulation
        = s.levels.map Level.GetPopulation ∧
      (s.AddTransition E1 E2 intensity).total_population = s.total_population := by
  unfold AddTransition AddTransitionLevels
  cases s.GetLevel E1 <;> cases s.GetLevel E2 <;> simp only [and_self]
  refine ⟨?_, trivial⟩
  apply map_modify_of_invariant
  intro a
  rfl

theorem build_total_population (calls : List (Call R)) :
    (build calls).total_population = ((build calls).levels.map Level.GetPopulation).sum := by
  have gen : ∀ (cs : List (Call R)) (s : LevelScheme R),
      s.total_population = (s.levels.map Level.GetPopulation).sum →
      (cs.foldl call s).total_population
        = ((cs.foldl call s).levels.map Level.GetPopulation).sum := by
    intro cs
    induction cs with
    | nil => intro s h; exact h
    | cons c rest ih =>
      intro s h
      rw [List.foldl_cons]
      apply ih
      cases c with
      | addLevel energy tau population =>
        simp [call, AddLevel, h, Level.construct, Level.GetPopulation]
      | addTransition E1 E2 intensity =>
        obtain ⟨h1, h2⟩ := AddTransition_populations s E1 E2 intensity
        simp only [call]
        rw [h1, h2]
        exact h
  exact gen calls construct (by simp [construct])

theorem cumPopulation_zero (s : LevelScheme R) : s.cumPopulation 0 = 0 := by
  simp [cumPopulation]

theorem cumPopulation_succ (s : LevelScheme R) (k : Nat) (lk : Level R)
    (h : s.levels[k]? = some lk) :
    s.cumPopulation (k + 1) = s.cumPopulation k + lk.population := by
  simp [cumPopulation, List.take_succ, h, Level.GetPopulation]

theorem cumPopulation_of_length_le (s : LevelScheme R) (k : Nat) (h : s.levels.length ≤ k) :
    s.cumPopulation k = (s.levels.map Level.GetPopulation).sum := by
  simp [cumPopulation, List.take_of_length_le h]

theorem cumPopulation_mono (s : LevelScheme R) (hpop : ∀ l ∈ s.levels, 0 ≤ l.population)
    (k m : Nat) (hkm : k ≤ m) : s.cumPopulation k ≤ s.cumPopulation m := by
  induction m with
  | zero =>
    have : k = 0 := by omega
    rw [this]
  | succ m ih =>
    rcases Nat.eq_or_lt_of_le hkm with heq | hlt
    · rw [heq]
    · have h1 := ih (by omega)
      by_cases hm : m < s.levels.length
      · have hget : s.levels[m]? = some s.levels[m] := List.getElem?_eq_getElem hm
        rw [cumPopulation_succ s m _ hget]
        have := hpop _ (List.getElem_mem hm)
        linarith
      · rw [cumPopulation_of_length_le s (m + 1) (by omega),
          ← cumPopulation_of_length_le s m (by omega)]
        exact h1

/-- C9. Weighted entry-level draw over exact reals, `u` being the uniform variate: for
every scheme built by `AddLevel` and `AddTransition` calls whose population weights are all
`≥ 0` and whose total is `> 0`, and every `u` in `[0, 1)`, `PickPrimaryLevel` returns a
level; it is the first level, in insertion order, whose cumulative population sum
exceeds `r = u * total_population`, and its population is strictly positive. Level `k`
is the one returned iff `cum(k) ≤ u * total_population < cum(k + 1)`, that is iff `u`
lies in the interval `[cum(k) / total, cum(k + 1) / total)`, which lies inside `[0, 1]`
and has length `population(k) / total_population`. -/
theorem PickPrimaryLevel_weighted (calls : List (Call R)) (u : R)
    (hpop : ∀ l ∈ (build calls).levels, 0 ≤ l.GetPopulation)
    (htot : 0 < (build calls).total_population) (hu0 : 0 ≤ u) (hu1 : u < 1) :
    (∃ i li, (build calls).PickPrimaryLevel u = some i ∧
      (build calls).levels[i]? = some li ∧ 0 < li.GetPopulation ∧
      u * (build calls).total_population < (build calls).cumPopulation (i + 1) ∧
      ∀ j, j < i → ¬ u * (build calls).total_population < (build calls).cumPopulation (j + 1)) ∧
    (∀ k, (build calls).PickPrimaryLevel u = some k ↔
      (build calls).cumPopulation k ≤ u * (build calls).total_population ∧
        u * (build calls).total_population < (build calls).cumPopulation (k + 1)) ∧
    (∀ k, (build calls).PickPrimaryLevel u = some k ↔
      (build calls).cumPopulation k / (build calls).total_population ≤ u ∧
        u < (build calls).cumPopulation (k + 1) / (build calls).total_population) ∧
    (∀ k lk, (build calls).levels[k]? = some lk →
      (build calls).cumPopulation (k + 1) / (build calls).total_population
          - (build calls).cumPopulation k / (build calls).total_population
        = lk.GetPopulation / (build calls).total_population ∧
      0 ≤ (build calls).cumPopulation k / (build calls).total_population ∧
      (build calls).cumPopulation (k + 1) / (build calls).total_population ≤ 1) := by
  have hsum := build_total_population calls
  generalize build calls = s at hpop htot hsum ⊢
  have hpop1 : ∀ l ∈ s.levels, 0 ≤ l.population := hpop
  have hfull : ∀ m, s.levels.length ≤ m → s.cumPopulation m = s.total_population := by
    intro m hm
    rw [cumPopulation_of_length_le s m hm, hsum]
  have hr1 : u * s.total_population < s.total_population := by
    have := mul_lt_mul_of_pos_right hu1 htot
    simpa using this
  have hr0 : 0 ≤ u * s.total_population := mul_nonneg hu0 (le_of_lt htot)
  have hbelow : ∀ k, (∀ j, j < k → ¬ u * s.total_population < s.cumPopulation (j + 1)) →
      s.cumPopulation k ≤ u * s.total_population := by
    intro k hk
    cases k with
    | zero => rw [cumPopulation_zero]; exact hr0
    | succ k => exact not_lt.mp (hk k (Nat.lt_succ_self k))
  have hiff : ∀ k, s.PickPrimaryLevel u = some k ↔
      s.cumPopulation k ≤ u * s.total_population ∧
        u * s.total_population < s.cumPopulation (k + 1) := by
    intro k
    rw [PickPrimaryLevel_eq_some_iff]
    constructor
    · rintro ⟨_, h2, h3⟩
      exact ⟨hbelow k h3, h2⟩
    · rintro ⟨h1, h2⟩
      refine ⟨?_, h2, ?_⟩
      · by_contra hk
        rw [hfull k (not_lt.mp hk)] at h1
        exact absurd hr1 (not_lt.mpr h1)
      · intro j hj
        exact not_lt.mpr (le_trans (cumPopulation_mono s hpop1 (j + 1) k hj) h1)
  refine ⟨?_, hiff, ?_, ?_⟩
  · cases hp : s.PickPrimaryLevel u with
    | none =>
      rw [PickPrimaryLevel_eq_none_iff] at hp
      have hn : 0 < s.levels.length := by
        by_contra h0
        have := hfull 0 (not_lt.mp h0)
        rw [cumPopulation_zero] at this
        rw [← this] at htot
        exact lt_irrefl _ htot
      have := hp (s.levels.length - 1) (by omega)
      rw [hfull _ (by omega)] at this
      exact absurd hr1 this
    | some i =>
      obtain ⟨h1, h2, h3⟩ := (PickPrimaryLevel_eq_some_iff s u i).mp hp
      have hget : s.levels[i]? = some s.levels[i] := List.getElem?_eq_getElem h1
      refine ⟨i, s.levels[i], rfl, hget, ?_, h2, h3⟩
      have hb := hbelow i h3
      rw [cumPopulation_succ s i _ hget] at h2
      show 0 < (s.levels[i]).population
      linarith
  · intro k
    rw [hiff k, div_le_iff₀ htot, lt_div_iff₀ htot]
  · intro k lk hk
    refine ⟨?_, ?_, ?_⟩
    · rw [cumPopulation_succ s k lk hk]
      show _ = lk.population / s.total_population
      field_simp
    · apply div_nonneg _ (le_of_lt htot)
      have := cumPopulation_mono s hpop1 0 k (Nat.zero_le k)
      rwa [cumPopulation_zero] at this
    · rw [div_le_one htot]
      have := cumPopulation_mono s hpop1 (k + 1) (max (k + 1) s.levels.length) (le_max_left _ _)
      rwa [hfull _ (le_max_right _ _)] at this

theorem exampleExact_populations : ∀ l ∈ (build exampleExact).levels, 0 ≤ l.GetPopulation := by
  intro l hl
  rw [exampleExact_build] at hl
  simp only [List.mem_cons, List.mem_singleton, List.not_mem_nil, or_false] at hl
  rcases hl with rfl | rfl <;> norm_num [Level.GetPopulation, exampleSource]

theorem exampleExact_total : 0 < (build exampleExact).total_population := by
  rw [exampleExact_build]
  norm_num

/-- C9 at `exampleExact` and `u = 1 / 2`. -/
theorem PickPrimaryLevel_weighted_witness :
    ((∀ l ∈ (build exampleExact).levels, 0 ≤ l.GetPopulation) ∧
      0 < (build exampleExact).total_population ∧ (0 : ℚ) ≤ 1 / 2 ∧ (1 / 2 : ℚ) < 1) ∧
    (∃ i li, (build exampleExact).PickPrimaryLevel (1 / 2) = some i ∧
      (build exampleExact).levels[i]? = some li ∧ 0 < li.GetPopulation ∧
      1 / 2 * (build exampleExact).total_population < (build exampleExact).cumPopulation (i + 1) ∧
      ∀ j, j < i → ¬ 1 / 2 * (build exampleExact).total_population < (build exampleExact).cumPopulation (j + 1)) ∧
    (∀ k, (build exampleExact).PickPrimaryLevel (1 / 2) = some k ↔
      (build exampleExact).cumPopulation k ≤ 1 / 2 * (build exampleExact).total_population ∧
        1 / 2 * (build exampleExact).total_population < (build exampleExact).cumPopulation (k + 1)) ∧
    (∀ k, (build exampleExact).PickPrimaryLevel (1 / 2) = some k ↔
      (build exampleExact).cumPopulation k / (build exampleExact).total_population ≤ 1 / 2 ∧
        1 / 2 < (build exampleExact).cumPopulation (k + 1) / (build exampleExact).total_population) ∧
    (∀ k lk, (build exampleExact).levels[k]? = some lk →
      (build exampleExact).cumPopulation (k + 1) / (build exampleExact).total_population
          - (build exampleExact).cumPopulation k / (build exampleExact).total_population
        = lk.GetPopulation / (build exampleExact).total_population ∧
      0 ≤ (build exampleExact).cumPopulation k / (build exampleExact).total_population ∧
      (build exampleExact).cumPopulation (k + 1) / (build exampleExact).total_population ≤ 1) :=
  ⟨⟨exampleExact_populations, exampleExact_total, by norm_num, by norm_num⟩,
    PickPrimaryLevel_weighted exampleExact (1 / 2) exampleExact_populations exampleExact_total
      (by norm_num) (by norm_num)⟩

end LevelScheme

/-! ## Cascade on a scheme without positive population -/

namespace PrimaryGenerator

variable {R : Type} [LinearOrderedField R]

open LevelScheme

theorem exampleNegative_build :
    build exampleNegative =
      { levels := [{ energy := 10, tau := 1, population := -1,
                     transitions := [{ energy := 10, intensity := 1, final := some 1 }],
                     total_decay := 1 },
                   { energy := 0, tau := -1, population := -1, transitions := [],
                     total_decay := 0 }],
        transitions := [{ energy := 10, intensity := 1, final := some 1 }],
        total_population := -2 } := by
  have h2 : build [Call.addLevel 10 1 (-1), Call.addLevel 0 (-1) (-1)] =
      ({ levels := [{ energy := 10, tau := 1, population := -1, transitions := [],
                      total_decay := 0 },
                    { energy := 0, tau := -1, population := -1, transitions := [],
                      total_decay := 0 }],
         transitions := [], total_population := -2 } : LevelScheme ℚ) := by
    norm_num [build, call, AddLevel, construct, Level.construct]
  have hb : build exampleNegative =
      (build [Call.addLevel 10 1 (-1), Call.addLevel 0 (-1) (-1)]).AddTransition 10 0 1 := by
    simp [build, exampleNegative, call]
  have g1 : (build [Call.addLevel 10 1 (-1), Call.addLevel 0 (-1) (-1)]).GetLevel (10 : ℚ)
      = some 0 := by
    rw [h2]
    norm_num [GetLevel, GetLevel.loop, Level.GetEnergy, abs_lt]
  have g2 : (build [Call.addLevel 10 1 (-1), Call.addLevel 0 (-1) (-1)]).GetLevel (0 : ℚ)
      = some 1 := by
    rw [h2]
    norm_num [GetLevel, GetLevel.loop, Level.GetEnergy, abs_lt]
  rw [hb, AddTransition_of_some _ _ _ _ 0 1 g1 g2, h2]
  norm_num [List.modify, List.modifyTailIdx, List.modifyHead, Level.AddTransition,
    Transition.GetIntensity]

/-- C10 as stated fails: in `exampleNegative` no level has a population `> 0`, yet for
`u = 9 / 10` `PickPrimaryLevel` returns level 0 (`r = -1.8` is below the first cumulative
sum `-1`) and `GeneratePrimaries` emits one gamma. -/
theorem empty_cascade_counterexample :
    (∀ l ∈ (build exampleNegative).levels, ¬ 0 < l.GetPopulation) ∧
    ((0 : ℚ) ≤ 9 / 10 ∧ (9 / 10 : ℚ) < 1) ∧
    (build exampleNegative).PickPrimaryLevel (9 / 10) = some 0 ∧
    GeneratePrimaries (build exampleNegative) 6 (9 / 10) exampleDraws 1 =
      Outcome.finished [({ energy := 10, time := 0, cosTheta := 0, phi := 3 } : Gamma ℚ)] 0 := by
  have hp : (build exampleNegative).PickPrimaryLevel (9 / 10) = some 0 := by
    rw [exampleNegative_build]
    norm_num [PickPrimaryLevel, PickPrimaryLevel.loop, Level.GetPopulation]
  refine ⟨?_, by norm_num, hp, ?_⟩
  · intro l hl
    rw [exampleNegative_build] at hl
    simp only [List.mem_cons, List.mem_singleton, List.not_mem_nil, or_false] at hl
    rcases hl with rfl | rfl <;> norm_num [Level.GetPopulation]
  · unfold GeneratePrimaries
    rw [hp, exampleNegative_build]
    norm_num [GeneratePrimaries.loop, Level.GetTau, Level.PickDepopulatingTransition,
      Level.PickDepopulatingTransition.loop, Level.GetDecayIntensity, Transition.GetIntensity,
      Transition.GetFinal, Transition.GetEnergy, GenerateGamma, exampleDraws]

/-- C10, amended. For every scheme built by `AddLevel` and `AddTransition` calls (the empty
scheme included) in which no level has a population `> 0` and no level but the first one
added has a population `< 0`, and for every uniform variate `u < 1`, `PickPrimaryLevel`
returns no level and `GeneratePrimaries` leaves its loop at once: the event receives no
gamma and the gun's time stays 0, whatever the other random numbers and the number of
passes allowed. -/
theorem empty_cascade (calls : List (Call R)) (u : R)
    (hpos : ∀ l ∈ (build calls).levels, ¬ 0 < l.GetPopulation)
    (hneg : ∀ l ∈ (build calls).levels.tail, ¬ l.GetPopulation < 0)
    (hu1 : u < 1) :
    (build calls).PickPrimaryLevel u = none ∧
    ∀ (twopi : R) (draws : Nat → Draws R) (passes : Nat),
      GeneratePrimaries (build calls) twopi u draws passes = Outcome.finished [] 0 := by
  have hsum := build_total_population calls
  generalize build calls = s at hpos hneg hsum ⊢
  have hzero : ∀ l ∈ s.levels.tail, l.GetPopulation = 0 := by
    intro l hl
    exact le_antisymm (not_lt.mp (hpos l (List.mem_of_mem_tail hl))) (not_lt.mp (hneg l hl))
  have hcum : ∀ k, k < s.levels.length → s.cumPopulation (k + 1) = s.total_population := by
    intro k hk
    rw [hsum]
    unfold cumPopulation
    cases hl : s.levels with
    | nil => rw [hl] at hk; exact absurd hk (Nat.not_lt_zero k)
    | cons l0 rest =>
      rw [hl] at hzero
      simp only [List.tail_cons] at hzero
      have h1 : ((rest.take k).map Level.GetPopulation).sum = 0 := by
        apply List.sum_eq_zero
        intro x hx
        obtain ⟨l, hl1, rfl⟩ := List.mem_map.mp hx
        exact hzero l (List.mem_of_mem_take hl1)
      have h2 : (rest.map Level.GetPopulation).sum = 0 := by
        apply List.sum_eq_zero
        intro x hx
        obtain ⟨l, hl1, rfl⟩ := List.mem_map.mp hx
        exact hzero l hl1
      simp only [List.take_succ_cons, List.map_cons, List.sum_cons, h1, h2]
  have htot : s.total_population ≤ 0 := by
    cases hl : s.levels with
    | nil => rw [hsum, hl]; simp
    | cons l0 rest =>
      have h0 : 0 < s.levels.length := by rw [hl]; simp
      rw [← hcum 0 h0]
      unfold cumPopulation
      rw [hl]
      simp only [List.take_succ_cons, List.take_zero, List.map_cons, List.map_nil,
        List.sum_cons, List.sum_nil, add_zero]
      exact not_lt.mp (hpos l0 (by rw [hl]; exact List.mem_cons_self _ _))
  have hnone : s.PickPrimaryLevel u = none := by
    rw [PickPrimaryLevel_eq_none_iff]
    intro k hk
    rw [hcum k hk, not_lt]
    nlinarith
  refine ⟨hnone, ?_⟩
  intro twopi draws passes
  unfold GeneratePrimaries
  rw [hnone]
  cases passes <;> rfl

theorem exampleFirstNegative_build :
    build exampleFirstNegative =
      { levels := [{ energy := 10, tau := 1, population := -1,
                     transitions := [{ energy := 10, intensity := 1, final := some 1 }],
                     total_decay := 1 },
                   { energy := 0, tau := -1, population := 0, transitions := [],
                     total_decay := 0 }],
        transitions := [{ energy := 10, intensity := 1, final := some 1 }],
        total_population := -1 } := by
  norm_num [build, exampleFirstNegative, call, AddLevel, construct, Level.construct,
    AddTransition, AddTransitionLevels, GetLevel, GetLevel.loop, Level.GetEnergy, abs_lt,
    List.modify, List.modifyTailIdx, List.modifyHead, Level.AddTransition,
    Transition.GetIntensity, Transition.construct]

theorem exampleFirstNegative_populations :
    (∀ l ∈ (build exampleFirstNegative).levels, ¬ 0 < l.GetPopulation) ∧
      ∀ l ∈ (build exampleFirstNegative).levels.tail, ¬ l.GetPopulation < 0 := by
  rw [exampleFirstNegative_build]
  constructor
  · intro l hl
    simp only [List.mem_cons, List.mem_singleton, List.not_mem_nil, or_false] at hl
    rcases hl with rfl | rfl <;> norm_num [Level.GetPopulation]
  · intro l hl
    simp only [List.tail_cons, List.mem_singleton] at hl
    subst hl
    norm_num [Level.GetPopulation]

/-- C10 (amended) at the empty scheme a failed file open leaves, and at
`exampleFirstNegative` with `u = 9 / 10`. -/
theorem empty_cascade_witness :
    (((∀ l ∈ (Read (construct : LevelScheme ℚ) (1 / 1000) 1 none).levels,
          ¬ 0 < l.GetPopulation) ∧
        (∀ l ∈ (Read (construct : LevelScheme ℚ) (1 / 1000) 1 none).levels.tail,
          ¬ l.GetPopulation < 0) ∧ (0 : ℚ) < 1) ∧
      ((Read (construct : LevelScheme ℚ) (1 / 1000) 1 none).PickPrimaryLevel 0 = none ∧
        ∀ (twopi : ℚ) (draws : Nat → Draws ℚ) (passes : Nat),
          GeneratePrimaries (Read (construct : LevelScheme ℚ) (1 / 1000) 1 none) twopi 0 draws
            passes = Outcome.finished [] 0)) ∧
    (((∀ l ∈ (build exampleFirstNegative).levels, ¬ 0 < l.GetPopulation) ∧
        (∀ l ∈ (build exampleFirstNegative).levels.tail, ¬ l.GetPopulation < 0) ∧
        (9 / 10 : ℚ) < 1) ∧
      ((build exampleFirstNegative).PickPrimaryLevel (9 / 10) = none ∧
        ∀ (twopi : ℚ) (draws : Nat → Draws ℚ) (passes : Nat),
          GeneratePrimaries (build exampleFirstNegative) twopi (9 / 10) draws passes =
            Outcome.finished [] 0)) :=
  ⟨⟨⟨fun _ h => absurd h (List.not_mem_nil _), fun _ h => absurd h (List.not_mem_nil _),
      by norm_num⟩,
    empty_cascade ([] : List (Call ℚ)) 0 (fun _ h => absurd h (List.not_mem_nil _))
      (fun _ h => absurd h (List.not_mem_nil _)) (by norm_num)⟩,
   ⟨⟨exampleFirstNegative_populations.1, exampleFirstNegative_populations.2, by norm_num⟩,
    empty_cascade exampleFirstNegative (9 / 10) exampleFirstNegative_populations.1
      exampleFirstNegative_populations.2 (by norm_num)⟩⟩

end PrimaryGenerator


/-! ## Cascade: the walk through the level scheme -/

namespace PrimaryGenerator

variable {R : Type} [LinearOrderedField R]

open LevelScheme

theorem loop_none (ls : LevelScheme R) (twopi : R) (draws : Nat → Draws R) (k j : Nat)
    (t : R) (ev : List (Gamma R)) :
    GeneratePrimaries.loop ls twopi draws k j none t ev = Outcome.finished ev t := by
  cases k <;> rfl

theorem loop_zero (ls : LevelScheme R) (twopi : R) (draws : Nat → Draws R) (j i : Nat)
    (t : R) (ev : List (Gamma R)) :
    GeneratePrimaries.loop ls twopi draws 0 j (some i) t ev = Outcome.running := rfl

theorem loop_succ (ls : LevelScheme R) (twopi : R) (draws : Nat → Draws R) (k j i : Nat)
    (t : R) (ev : List (Gamma R)) :
    GeneratePrimaries.loop ls twopi draws (k + 1) j (some i) t ev =
      match ls.levels[i]? with
      | none => Outcome.fault
      | some level =>
        if level.GetTau < 0 then Outcome.finished ev t
        else
          match level.PickDepopulatingTransition (draws j).uTransition with
          | none => Outcome.finished ev t
          | some transition =>
            match transition.GetFinal with
            | none => Outcome.fault
            | some f =>
              match ls.levels[f]? with
              | none => Outcome.fault
              | some next =>
                if next.GetTau < 0 then
                  Outcome.finished
                    (ev ++ [GenerateGamma twopi t transition.GetEnergy
                      (draws j).uCosTheta (draws j).uPhi]) t
                else
                  GeneratePrimaries.loop ls twopi draws k (j + 1) (some f)
                    (AddTime t next.GetTau (draws j).shoot)
                    (ev ++ [GenerateGamma twopi t transition.GetEnergy
                      (draws j).uCosTheta (draws j).uPhi]) := rfl

theorem PickDepopulatingTransition_loop_mem (r : R) (l : List (Transition R)) :
    ∀ (sum : R) (t : Transition R),
      Level.PickDepopulatingTransition.loop r l sum = some t → t ∈ l := by
  induction l with
  | nil => intro sum t h; simp [Level.PickDepopulatingTransition.loop] at h
  | cons a rest ih =>
    intro sum t h
    simp only [Level.PickDepopulatingTransition.loop] at h
    split_ifs at h with c
    · injection h with h
      rw [← h]
      exact List.mem_cons_self _ _
    · exact List.mem_cons_of_mem _ (ih _ t h)

theorem PickDepopulatingTransition_mem (l : Level R) (u : R) (t : Transition R)
    (h : l.PickDepopulatingTransition u = some t) : t ∈ l.transitions :=
  PickDepopulatingTransition_loop_mem _ _ _ t h

theorem loop_finished_mono (ls : LevelScheme R) (twopi : R) (draws : Nat → Draws R) :
    ∀ (k j : Nat) (lvl : Option Nat) (t : R) (ev e : List (Gamma R)) (t1 : R),
      GeneratePrimaries.loop ls twopi draws k j lvl t ev = Outcome.finished e t1 →
      ∀ m, k ≤ m → GeneratePrimaries.loop ls twopi draws m j lvl t ev = Outcome.finished e t1 := by
  intro k
  induction k with
  | zero =>
    intro j lvl t ev e t1 h m _
    cases lvl with
    | none => rw [loop_none] at h ⊢; exact h
    | some i => rw [loop_zero] at h; exact Outcome.noConfusion h
  | succ k ih =>
    intro j lvl t ev e t1 h m hm
    cases lvl with
    | none => rw [loop_none] at h ⊢; exact h
    | some i =>
      obtain ⟨m1, rfl⟩ : ∃ m1, m = m1 + 1 := ⟨m - 1, by omega⟩
      rw [loop_succ] at h ⊢
      cases hl : ls.levels[i]? with
      | none => rw [hl] at h; exact Outcome.noConfusion h
      | some level =>
        rw [hl] at h
        simp only at h ⊢
        by_cases c1 : level.GetTau < 0
        · rw [if_pos c1] at h ⊢; exact h
        · rw [if_neg c1] at h ⊢
          cases hp : level.PickDepopulatingTransition (draws j).uTransition with
          | none => rw [hp] at h; exact h
          | some tr =>
            rw [hp] at h
            simp only at h ⊢
            cases hf : tr.GetFinal with
            | none => rw [hf] at h; exact Outcome.noConfusion h
            | some f =>
              rw [hf] at h
              simp only at h ⊢
              cases hn : ls.levels[f]? with
              | none => rw [hn] at h; exact Outcome.noConfusion h
              | some next =>
                rw [hn] at h
                simp only at h ⊢
                by_cases c2 : next.GetTau < 0
                · rw [if_pos c2] at h ⊢; exact h
                · rw [if_neg c2] at h ⊢
                  exact ih _ _ _ _ _ _ h m1 (by omega)

theorem loop_path (ls : LevelScheme R) (twopi : R) (draws : Nat → Draws R)
    (hv : ValidTargets ls) :
    ∀ (k j i : Nat) (t : R) (ev : List (Gamma R)), i < ls.levels.length →
      (∃ path, List.Chain (Edge ls) i path ∧ path.length = k ∧
        GeneratePrimaries.loop ls twopi draws k j (some i) t ev = Outcome.running) ∨
      (∃ gs t1 path, GeneratePrimaries.loop ls twopi draws k j (some i) t ev
          = Outcome.finished (ev ++ gs) t1 ∧
        List.Chain (Edge ls) i path ∧ path.length = gs.length ∧ gs.length ≤ k) := by
  intro k
  induction k with
  | zero =>
    intro j i t ev _
    exact Or.inl ⟨[], List.Chain.nil, rfl, rfl⟩
  | succ k ih =>
    intro j i t ev hi
    rw [loop_succ]
    have hl : ls.levels[i]? = some ls.levels[i] := List.getElem?_eq_getElem hi
    rw [hl]
    simp only
    by_cases c1 : (ls.levels[i]).GetTau < 0
    · rw [if_pos c1]
      exact Or.inr ⟨[], t, [], by simp, List.Chain.nil, rfl, by simp⟩
    · rw [if_neg c1]
      cases hp : (ls.levels[i]).PickDepopulatingTransition (draws j).uTransition with
      | none => exact Or.inr ⟨[], t, [], by simp, List.Chain.nil, rfl, by simp⟩
      | some tr =>
        simp only
        have hmem := PickDepopulatingTransition_mem _ _ _ hp
        obtain ⟨f, hf, hfl⟩ := hv i _ tr hl hmem
        have hedge : Edge ls i f := ⟨_, tr, hl, hmem, hf⟩
        have hn : ls.levels[f]? = some ls.levels[f] := List.getElem?_eq_getElem hfl
        rw [hf]
        simp only
        rw [hn]
        simp only
        by_cases c2 : (ls.levels[f]).GetTau < 0
        · rw [if_pos c2]
          exact Or.inr ⟨_, t, [f], rfl, List.Chain.cons hedge List.Chain.nil, rfl, by simp⟩
        · rw [if_neg c2]
          rcases ih (j + 1) f (AddTime t (ls.levels[f]).GetTau (draws j).shoot)
            (ev ++ [GenerateGamma twopi t tr.GetEnergy (draws j).uCosTheta (draws j).uPhi])
            hfl with ⟨path, h1, h2, h3⟩ | ⟨gs, t1, path, h1, h2, h3, h4⟩
          · exact Or.inl ⟨f :: path, List.Chain.cons hedge h1, by simp [h2], h3⟩
          · refine Or.inr
              ⟨GenerateGamma twopi t tr.GetEnergy (draws j).uCosTheta (draws j).uPhi :: gs, t1,
                f :: path, ?_, List.Chain.cons hedge h2, by simp [h3], by simp; omega⟩
            rw [h1, List.append_assoc]
            rfl

theorem build_validTargets (calls : List (Call R)) : ValidTargets (build calls) := by
  intro i li t hi ht
  have hc : TransitionsSatisfy (fun x y => abs (x - y) < 4) (construct : LevelScheme R) := by
    intro i li t hi
    simp [construct] at hi
  obtain ⟨f, lf, h1, h2, _⟩ := TransitionsSatisfy_foldl_near calls construct hc i li t hi ht
  exact ⟨f, h1, (List.getElem?_eq_some.mp h2).1⟩

theorem acyclic_of_rank {β : Type} [Preorder β] (s : LevelScheme R) (rank : Nat → β)
    (h : ∀ i f, Edge s i f → rank f < rank i) : Acyclic s := by
  have gen : ∀ i j, Relation.TransGen (Edge s) i j → rank j < rank i := by
    intro i j hij
    induction hij with
    | single e => exact h _ _ e
    | tail _ e ih => exact lt_trans (h _ _ e) ih
  intro i hi
  exact lt_irrefl _ (gen i i hi)

theorem chain_targets_lt (s : LevelScheme R) (hv : ValidTargets s) (path : List Nat) :
    ∀ i, List.Chain (Edge s) i path → ∀ x ∈ path, x < s.levels.length := by
  induction path with
  | nil => intro i _ x hx; exact absurd hx (List.not_mem_nil x)
  | cons b rest ih =>
    intro i hc x hx
    rw [List.chain_cons] at hc
    obtain ⟨⟨li, t, h1, h2, h3⟩, hrest⟩ := hc
    rcases List.mem_cons.mp hx with rfl | hx
    · obtain ⟨f, g1, g2⟩ := hv i li t h1 h2
      rw [h3] at g1
      injection g1 with g1
      rw [g1]
      exact g2
    · exact ih b hrest x hx

theorem path_length_lt (s : LevelScheme R) (hv : ValidTargets s) (ha : Acyclic s) (i : Nat)
    (hi : i < s.levels.length) (path : List Nat) (hc : List.Chain (Edge s) i path) :
    path.length < s.levels.length := by
  have hch : List.Chain (Relation.TransGen (Edge s)) i path :=
    hc.imp (fun _ _ h => Relation.TransGen.single h)
  have hpw : List.Pairwise (Relation.TransGen (Edge s)) (i :: path) := hch.pairwise
  have hnd : (i :: path).Nodup := by
    refine List.Pairwise.imp ?_ hpw
    intro a b hab heq
    rw [heq] at hab
    exact ha b hab
  have hsub : (i :: path) ⊆ List.range s.levels.length := by
    intro x hx
    rw [List.mem_range]
    rcases List.mem_cons.mp hx with rfl | hx
    · exact hi
    · exact chain_targets_lt s hv path i hc x hx
  have hle := (List.subperm_of_subset hnd hsub).length_le
  simp only [List.length_cons, List.length_range] at hle
  omega

theorem PickPrimaryLevel_lt (s : LevelScheme R) (u : R) (i : Nat)
    (h : s.PickPrimaryLevel u = some i) : i < s.levels.length :=
  ((PickPrimaryLevel_eq_some_iff s u i).mp h).1

/-- C11. Cascade termination: for every scheme built by `AddLevel` and `AddTransition`
calls whose transition graph (levels as nodes, the transitions in the outgoing lists as
edges) is acyclic, and for every sequence of random inputs, the loop of
`GeneratePrimaries` is left after at most as many passes as there are levels, with one
and the same event and gun time; nothing is emitted when no entry level is picked, and
otherwise the gammas emitted are as many as the edges of some directed path that starts at
the entry level. Every such path has fewer edges than there are levels, so the number of
gammas is at most the number of edges of the longest of them. -/
theorem cascade_terminates (calls : List (Call R)) (twopi uLevel : R)
    (draws : Nat → Draws R) (hacyc : Acyclic (build calls)) :
    ∃ ev time,
      (∀ passes, (build calls).levels.length ≤ passes →
        GeneratePrimaries (build calls) twopi uLevel draws passes = Outcome.finished ev time) ∧
      ((build calls).PickPrimaryLevel uLevel = none → ev = []) ∧
      ∀ entry, (build calls).PickPrimaryLevel uLevel = some entry →
        (∃ path, List.Chain (Edge (build calls)) entry path ∧ path.length = ev.length) ∧
        (∀ path, List.Chain (Edge (build calls)) entry path →
          path.length < (build calls).levels.length) ∧
        (∀ L, (∀ path, List.Chain (Edge (build calls)) entry path → path.length ≤ L) →
          ev.length ≤ L) := by
  have hv := build_validTargets calls
  generalize build calls = s at hacyc hv ⊢
  unfold GeneratePrimaries
  cases hp : s.PickPrimaryLevel uLevel with
  | none =>
    refine ⟨[], 0, fun passes _ => loop_none _ _ _ _ _ _ _, fun _ => rfl, ?_⟩
    intro entry he
    exact Option.noConfusion he
  | some i =>
    have hi := PickPrimaryLevel_lt s uLevel i hp
    rcases loop_path s twopi draws hv s.levels.length 0 i 0 [] hi with
      ⟨path, h1, h2, _⟩ | ⟨gs, t1, path, h1, h2, h3, _⟩
    · exact absurd (path_length_lt s hv hacyc i hi path h1) (by omega)
    · rw [List.nil_append] at h1
      refine ⟨gs, t1, ?_, fun he => Option.noConfusion he, ?_⟩
      · intro passes hpass
        exact loop_finished_mono s twopi draws _ _ _ _ _ _ _ h1 passes hpass
      · intro entry he
        injection he with he
        subst he
        refine ⟨⟨path, h2, h3⟩, fun p hpth => path_length_lt s hv hacyc i hi p hpth, ?_⟩
        intro L hL
        rw [← h3]
        exact hL path h2

theorem exampleExact_edge (i f : Nat) (h : Edge (build exampleExact) i f) : i = 0 ∧ f = 1 := by
  obtain ⟨li, t, h1, h2, h3⟩ := h
  rw [exampleExact_build] at h1
  match i, h1 with
  | 0, h1 =>
    simp only [List.getElem?_cons_zero, Option.some.injEq] at h1
    subst h1
    simp only [exampleSource, List.mem_singleton] at h2
    subst h2
    simp only [Transition.GetFinal, exampleTransition, Option.some.injEq] at h3
    exact ⟨rfl, h3.symm⟩
  | 1, h1 =>
    simp only [List.getElem?_cons_succ, List.getElem?_cons_zero, Option.some.injEq] at h1
    subst h1
    simp at h2
  | n + 2, h1 => simp at h1

theorem exampleExact_acyclic : Acyclic (build exampleExact) := by
  apply acyclic_of_rank (build exampleExact) (fun i => 1 - i)
  intro i f h
  obtain ⟨rfl, rfl⟩ := exampleExact_edge i f h
  decide

/-- C11 at `exampleExact`, `u = 1 / 2` and `exampleDraws`. -/
theorem cascade_terminates_witness :
    Acyclic (build exampleExact) ∧
    ∃ ev time,
      (∀ passes, (build exampleExact).levels.length ≤ passes →
        GeneratePrimaries (build exampleExact) 6 (1 / 2) exampleDraws passes = Outcome.finished ev time) ∧
      ((build exampleExact).PickPrimaryLevel (1 / 2) = none → ev = []) ∧
      ∀ entry, (build exampleExact).PickPrimaryLevel (1 / 2) = some entry →
        (∃ path, List.Chain (Edge (build exampleExact)) entry path ∧ path.length = ev.length) ∧
        (∀ path, List.Chain (Edge (build exampleExact)) entry path →
          path.length < (build exampleExact).levels.length) ∧
        (∀ L, (∀ path, List.Chain (Edge (build exampleExact)) entry path → path.length ≤ L) →
          ev.length ≤ L) :=
  ⟨exampleExact_acyclic, cascade_terminates exampleExact 6 (1 / 2) exampleDraws exampleExact_acyclic⟩

/-! ## Cascade: transition targets -/

theorem AddTransition_transitions (s : LevelScheme R) (E1 E2 intensity : R) :
    (s.AddTransition E1 E2 intensity).transitions = s.transitions ∨
      ∃ i f, s.GetLevel E1 = some i ∧ s.GetLevel E2 = some f ∧
        (s.AddTransition E1 E2 intensity).transitions =
          s.transitions ++ [Transition.mk (E1 - E2) intensity (some f)] := by
  cases h1 : s.GetLevel E1 with
  | none => rw [AddTransition_of_none s E1 E2 intensity (Or.inl h1)]; exact Or.inl rfl
  | some i =>
    cases h2 : s.GetLevel E2 with
    | none => rw [AddTransition_of_none s E1 E2 intensity (Or.inr h2)]; exact Or.inl rfl
    | some f =>
      rw [AddTransition_of_some s E1 E2 intensity i f h1 h2]
      exact Or.inr ⟨i, f, rfl, rfl, rfl⟩

theorem listed_foldl (calls : List (Call R)) :
    ∀ s : LevelScheme R,
      ((∀ t ∈ s.transitions, ∃ f lf, t.GetFinal = some f ∧ s.levels[f]? = some lf) ∧
        ∀ (i : Nat) (li : Level R) (t : Transition R),
          s.levels[i]? = some li → t ∈ li.transitions → t ∈ s.transitions) →
      ((∀ t ∈ (calls.foldl call s).transitions,
          ∃ f lf, t.GetFinal = some f ∧ (calls.foldl call s).levels[f]? = some lf) ∧
        ∀ (i : Nat) (li : Level R) (t : Transition R),
          (calls.foldl call s).levels[i]? = some li → t ∈ li.transitions →
            t ∈ (calls.foldl call s).transitions) := by
  induction calls with
  | nil => intro s h; exact h
  | cons c rest ih =>
    intro s h
    obtain ⟨hA, hB⟩ := h
    rw [List.foldl_cons]
    apply ih
    cases c with
    | addLevel energy tau population =>
      simp only [call, AddLevel]
      constructor
      · intro t ht
        obtain ⟨f, lf, h1, h2⟩ := hA t ht
        have hf : f < s.levels.length := (List.getElem?_eq_some.mp h2).1
        exact ⟨f, lf, h1, by rw [List.getElem?_append_left hf]; exact h2⟩
      · intro i li t hi ht
        by_cases hlt : i < s.levels.length
        · rw [List.getElem?_append_left hlt] at hi
          exact hB i li t hi ht
        · rw [List.getElem?_append_right (not_lt.mp hlt)] at hi
          have hmem := List.getElem?_mem hi
          rw [List.mem_singleton] at hmem
          rw [hmem] at ht
          simp [Level.construct] at ht
    | addTransition E1 E2 intensity =>
      simp only [call]
      constructor
      · intro t ht
        have hold : t ∈ s.transitions →
            ∃ f lf, t.GetFinal = some f ∧
              (s.AddTransition E1 E2 intensity).levels[f]? = some lf := by
          intro hm
          obtain ⟨f, lf, h1, h2⟩ := hA t hm
          obtain ⟨lf1, m1, _⟩ := AddTransition_levels_back s E1 E2 intensity f lf h2
          exact ⟨f, lf1, h1, m1⟩
        rcases AddTransition_transitions s E1 E2 intensity with h | ⟨i, f, _, e2, h⟩
        · rw [h] at ht
          exact hold ht
        · rw [h] at ht
          rcases List.mem_append.mp ht with hm | hm
          · exact hold hm
          · rw [List.mem_singleton] at hm
            subst hm
            obtain ⟨lf, k2, _⟩ := GetLevel_some s E2 f e2
            obtain ⟨lf1, m1, _⟩ := AddTransition_levels_back s E1 E2 intensity f lf k2
            exact ⟨f, lf1, rfl, m1⟩
      · intro j l1 t hj ht
        obtain ⟨l, g1, _, _, _, g5⟩ := AddTransition_levels s E1 E2 intensity j l1 hj
        have hold : t ∈ l.transitions → t ∈ (s.AddTransition E1 E2 intensity).transitions := by
          intro hm
          have := hB j l t g1 hm
          rcases AddTransition_transitions s E1 E2 intensity with h | ⟨_, _, _, _, h⟩
          · rw [h]; exact this
          · rw [h]; exact List.mem_append_left _ this
        rcases g5 with g5 | ⟨f, e1, e2, g5⟩
        · rw [g5] at ht
          exact hold ht
        · rw [g5] at ht
          rcases List.mem_append.mp ht with hm | hm
          · exact hold hm
          · rw [AddTransition_of_some s E1 E2 intensity j f e1 e2]
            exact List.mem_append_right _ hm

theorem loop_ne_fault (ls : LevelScheme R) (twopi : R) (draws : Nat → Draws R)
    (hv : ValidTargets ls) (k j : Nat) (lvl : Option Nat) (t : R) (ev : List (Gamma R))
    (hl : ∀ i, lvl = some i → i < ls.levels.length) :
    GeneratePrimaries.loop ls twopi draws k j lvl t ev ≠ Outcome.fault := by
  cases lvl with
  | none => rw [loop_none]; exact fun h => Outcome.noConfusion h
  | some i =>
    rcases loop_path ls twopi draws hv k j i t ev (hl i rfl) with
      ⟨_, _, _, h⟩ | ⟨_, _, _, h, _⟩
    · rw [h]; exact fun h => Outcome.noConfusion h
    · rw [h]; exact fun h => Outcome.noConfusion h

/-- C18. After any sequence of `AddLevel` and `AddTransition` calls every transition in
the scheme's list has a target that is a level of the scheme, every transition in the
outgoing list of any level is also in the scheme's list and has a target that is a
level of the scheme; and `GeneratePrimaries` never dereferences a NULL or dangling
level pointer, whatever the random inputs and the number of passes: in particular the
read of the lifetime of the populated level after an emission is defined. -/
theorem transition_targets_valid (calls : List (Call R)) :
    (∀ t ∈ (build calls).transitions,
      ∃ f lf, t.GetFinal = some f ∧ (build calls).levels[f]? = some lf) ∧
    (∀ (i : Nat) (li : Level R) (t : Transition R),
      (build calls).levels[i]? = some li → t ∈ li.transitions →
        t ∈ (build calls).transitions ∧
          ∃ f lf, t.GetFinal = some f ∧ (build calls).levels[f]? = some lf) ∧
    ∀ (twopi uLevel : R) (draws : Nat → Draws R) (passes : Nat),
      GeneratePrimaries (build calls) twopi uLevel draws passes ≠ Outcome.fault := by
  have hlist := listed_foldl calls (construct : LevelScheme R)
    ⟨fun t ht => by simp [construct] at ht, fun i li t hi => by simp [construct] at hi⟩
  obtain ⟨hA, hB⟩ := hlist
  refine ⟨hA, ?_, ?_⟩
  · intro i li t hi ht
    have hm := hB i li t hi ht
    exact ⟨hm, hA t hm⟩
  · intro twopi uLevel draws passes
    unfold GeneratePrimaries
    apply loop_ne_fault _ _ _ (build_validTargets calls)
    intro i hi
    exact PickPrimaryLevel_lt _ _ _ hi

end PrimaryGenerator




/-! ## Cascade: timing -/

namespace PrimaryGenerator

variable {R : Type} [LinearOrderedField R]

open LevelScheme

theorem loop_succ_stable (ls : LevelScheme R) (twopi : R) (draws : Nat → Draws R)
    (k j i f : Nat) (t : R) (ev : List (Gamma R)) (src lv : Level R) (tr : Transition R)
    (hl : ls.levels[i]? = some src) (c1 : ¬ src.GetTau < 0)
    (hp : src.PickDepopulatingTransition (draws j).uTransition = some tr)
    (hf : tr.GetFinal = some f) (hn : ls.levels[f]? = some lv) (c2 : lv.GetTau < 0) :
    GeneratePrimaries.loop ls twopi draws (k + 1) j (some i) t ev =
      Outcome.finished
        (ev ++ [GenerateGamma twopi t tr.GetEnergy (draws j).uCosTheta (draws j).uPhi]) t := by
  rw [loop_succ, hl]
  simp only
  rw [if_neg c1, hp]
  simp only
  rw [hf]
  simp only
  rw [hn]
  simp only
  rw [if_pos c2]

theorem loop_succ_continue (ls : LevelScheme R) (twopi : R) (draws : Nat → Draws R)
    (k j i f : Nat) (t : R) (ev : List (Gamma R)) (src lv : Level R) (tr : Transition R)
    (hl : ls.levels[i]? = some src) (c1 : ¬ src.GetTau < 0)
    (hp : src.PickDepopulatingTransition (draws j).uTransition = some tr)
    (hf : tr.GetFinal = some f) (hn : ls.levels[f]? = some lv) (c2 : ¬ lv.GetTau < 0) :
    GeneratePrimaries.loop ls twopi draws (k + 1) j (some i) t ev =
      GeneratePrimaries.loop ls twopi draws k (j + 1) (some f)
        (AddTime t lv.GetTau (draws j).shoot)
        (ev ++ [GenerateGamma twopi t tr.GetEnergy (draws j).uCosTheta (draws j).uPhi]) := by
  rw [loop_succ, hl]
  simp only
  rw [if_neg c1, hp]
  simp only
  rw [hf]
  simp only
  rw [hn]
  simp only
  rw [if_neg c2]

theorem loop_timing (ls : LevelScheme R) (twopi : R) (draws : Nat → Draws R) :
    ∀ (k j i : Nat) (t : R) (ev e : List (Gamma R)) (t1 : R),
      GeneratePrimaries.loop ls twopi draws k j (some i) t ev = Outcome.finished e t1 →
      ∃ gs path, e = ev ++ gs ∧ path.length = gs.length ∧ (gs = [] → t1 = t) ∧
        (∀ m g, gs[m]? = some g → GammaStep ls twopi draws j t i path gs t1 m g) ∧
        (∀ m f lv, path[m]? = some f → ls.levels[f]? = some lv → lv.GetTau < 0 →
          ∀ draws1, SameButShoot draws draws1 (j + m) →
            GeneratePrimaries.loop ls twopi draws1 k j (some i) t ev = Outcome.finished e t1) ∧
        ∃ (reached : Nat) (lvl : Level R), (i :: path).getLast? = some reached ∧
          ls.levels[reached]? = some lvl ∧
          (lvl.GetTau < 0 ∨
            lvl.PickDepopulatingTransition (draws (j + gs.length)).uTransition = none) := by
  intro k
  induction k with
  | zero =>
    intro j i t ev e t1 h
    rw [loop_zero] at h
    exact Outcome.noConfusion h
  | succ k ih =>
    intro j i t ev e t1 h
    rw [loop_succ] at h
    cases hl : ls.levels[i]? with
    | none => rw [hl] at h; exact Outcome.noConfusion h
    | some src =>
      rw [hl] at h
      simp only at h
      have hstop : (src.GetTau < 0 ∨
            src.PickDepopulatingTransition (draws j).uTransition = none) →
          Outcome.finished ev t = Outcome.finished e t1 →
          ∃ gs path, e = ev ++ gs ∧ path.length = gs.length ∧ (gs = [] → t1 = t) ∧
            (∀ m g, gs[m]? = some g → GammaStep ls twopi draws j t i path gs t1 m g) ∧
            (∀ m f lv, path[m]? = some f → ls.levels[f]? = some lv → lv.GetTau < 0 →
              ∀ draws1, SameButShoot draws draws1 (j + m) →
                GeneratePrimaries.loop ls twopi draws1 (k + 1) j (some i) t ev
                  = Outcome.finished e t1) ∧
            ∃ (reached : Nat) (lvl : Level R), (i :: path).getLast? = some reached ∧
              ls.levels[reached]? = some lvl ∧
              (lvl.GetTau < 0 ∨
                lvl.PickDepopulatingTransition (draws (j + gs.length)).uTransition = none) := by
        intro hlast h
        injection h with h1 h2
        refine ⟨[], [], by simp [h1], rfl, fun _ => h2.symm, ?_, ?_, i, src, rfl, hl, hlast⟩
        · intro m g hg
          simp at hg
        · intro m f lv hm
          simp at hm
      by_cases c1 : src.GetTau < 0
      · rw [if_pos c1] at h
        exact hstop (Or.inl c1) h
      · rw [if_neg c1] at h
        cases hp : src.PickDepopulatingTransition (draws j).uTransition with
        | none => rw [hp] at h; exact hstop (Or.inr hp) h
        | some tr =>
          rw [hp] at h
          simp only at h
          cases hf : tr.GetFinal with
          | none => rw [hf] at h; exact Outcome.noConfusion h
          | some f =>
            rw [hf] at h
            simp only at h
            cases hn : ls.levels[f]? with
            | none => rw [hn] at h; exact Outcome.noConfusion h
            | some lv =>
              rw [hn] at h
              simp only at h
              by_cases c2 : lv.GetTau < 0
              · rw [if_pos c2] at h
                injection h with h1 h2
                refine ⟨[GenerateGamma twopi t tr.GetEnergy (draws j).uCosTheta (draws j).uPhi],
                  [f], h1.symm, rfl, fun hc => absurd hc (by simp), ?_, ?_,
                  f, lv, rfl, hn, Or.inl c2⟩
                · intro m g hg
                  cases m with
                  | zero =>
                    simp only [List.getElem?_cons_zero, Option.some.injEq] at hg
                    subst hg
                    exact ⟨i, f, src, lv, tr, rfl, rfl, hl, c1, hp, hf, hn, rfl, fun _ => rfl,
                      fun g1 hg1 => by simp at hg1, fun _ => ⟨rfl, h2.symm⟩,
                      fun hc => absurd c2 hc⟩
                  | succ m => simp at hg
                · intro m f1 lv1 _ _ _ draws1 hsame
                  obtain ⟨s1, s2, s3, _⟩ := hsame j
                  rw [loop_succ_stable ls twopi draws1 k j i f t ev src lv tr hl c1
                    (by rw [s1]; exact hp) hf hn c2, s2, s3, h1, h2]
              · rw [if_neg c2] at h
                obtain ⟨gs, path, h1, h2, h3, h4, h5, reached, lvl, h6, h7, h8⟩ :=
                  ih _ _ _ _ _ _ h
                have hj1 : j + 1 + gs.length = j + (gs.length + 1) := by omega
                rw [hj1] at h8
                refine ⟨GenerateGamma twopi t tr.GetEnergy (draws j).uCosTheta (draws j).uPhi
                    :: gs, f :: path, by rw [h1, List.append_assoc]; rfl, by simp [h2],
                  fun hc => absurd hc (by simp), ?_, ?_,
                  reached, lvl, by rw [List.getLast?_cons_cons]; exact h6, h7, h8⟩
                rotate_left
                · intro m f1 lv1 hm hlv1 hst draws1 hsame
                  cases m with
                  | zero =>
                    simp only [List.getElem?_cons_zero, Option.some.injEq] at hm
                    subst hm
                    rw [hn] at hlv1
                    injection hlv1 with hlv1
                    subst hlv1
                    exact absurd hst c2
                  | succ m =>
                    simp only [List.getElem?_cons_succ] at hm
                    obtain ⟨s1, s2, s3, s4⟩ := hsame j
                    have hsame1 : SameButShoot draws draws1 (j + 1 + m) := by
                      have hj : j + 1 + m = j + (m + 1) := by omega
                      rw [hj]
                      exact hsame
                    rw [loop_succ_continue ls twopi draws1 k j i f t ev src lv tr hl c1
                      (by rw [s1]; exact hp) hf hn c2, s2, s3, s4 (by omega)]
                    exact h5 m f1 lv1 hm hlv1 hst draws1 hsame1
                intro m g hg
                cases m with
                | zero =>
                  simp only [List.getElem?_cons_zero, Option.some.injEq] at hg
                  subst hg
                  refine ⟨i, f, src, lv, tr, by simp, by simp, hl, c1, hp, hf, hn, rfl,
                    fun _ => rfl, ?_, fun hc => absurd hc c2, ?_⟩
                  · intro g1 hg1
                    simp only [List.getElem?_cons_succ] at hg1
                    obtain ⟨_, _, _, _, _, _, _, _, _, _, _, _, _, k9, _⟩ := h4 0 g1 hg1
                    exact ⟨c2, k9 rfl⟩
                  · intro _ hlen
                    have hnil : gs = [] := by
                      simp only [List.length_cons, Nat.zero_add, Nat.add_left_eq_self] at hlen
                      exact List.length_eq_zero.mp hlen
                    exact h3 hnil
                | succ m =>
                  simp only [List.getElem?_cons_succ] at hg
                  obtain ⟨a, f1, src1, lv1, tr1, k1, k2, k3, k4, k5, k6, k7, k8, _, k10, k11,
                    k12⟩ := h4 m g hg
                  have hj : j + 1 + m = j + (m + 1) := by omega
                  rw [hj] at k5 k8 k10 k12
                  refine ⟨a, f1, src1, lv1, tr1, by simpa using k1, by simpa using k2, k3, k4,
                    k5, k6, k7, k8, fun hc => absurd hc (Nat.succ_ne_zero m), ?_, ?_, ?_⟩
                  · intro g1 hg1
                    simp only [List.getElem?_cons_succ] at hg1
                    exact k10 g1 hg1
                  · intro hc
                    obtain ⟨x1, x2⟩ := k11 hc
                    exact ⟨by simp [x1], x2⟩
                  · intro hc hlen
                    exact k12 hc (by simpa using hlen)

theorem loop_running (ls : LevelScheme R) (twopi : R) (draws : Nat → Draws R) :
    ∀ (k j i : Nat) (t : R) (ev : List (Gamma R)),
      GeneratePrimaries.loop ls twopi draws k j (some i) t ev = Outcome.running →
      ∃ (gs : List (Gamma R)) (path : List Nat) (t1 : R) (reached : Nat),
        gs.length = k ∧ path.length = k ∧ (gs = [] → t1 = t) ∧
        (∀ m g, gs[m]? = some g → GammaStep ls twopi draws j t i path gs t1 m g) ∧
        (∀ (m f : Nat) (lv : Level R), path[m]? = some f → ls.levels[f]? = some lv →
          ¬ lv.GetTau < 0) ∧
        (i :: path).getLast? = some reached ∧
        ∀ more, GeneratePrimaries.loop ls twopi draws (k + more) j (some i) t ev =
          GeneratePrimaries.loop ls twopi draws more (j + k) (some reached) t1 (ev ++ gs) := by
  intro k
  induction k with
  | zero =>
    intro j i t ev _
    refine ⟨[], [], t, i, rfl, rfl, fun _ => rfl, ?_, ?_, rfl, ?_⟩
    · intro m g hg
      simp at hg
    · intro m f lv hm
      simp at hm
    · intro more
      rw [Nat.zero_add, Nat.add_zero, List.append_nil]
  | succ k ih =>
    intro j i t ev h
    rw [loop_succ] at h
    cases hl : ls.levels[i]? with
    | none => rw [hl] at h; exact Outcome.noConfusion h
    | some src =>
      rw [hl] at h
      simp only at h
      by_cases c1 : src.GetTau < 0
      · rw [if_pos c1] at h
        exact Outcome.noConfusion h
      · rw [if_neg c1] at h
        cases hp : src.PickDepopulatingTransition (draws j).uTransition with
        | none => rw [hp] at h; exact Outcome.noConfusion h
        | some tr =>
          rw [hp] at h
          simp only at h
          cases hf : tr.GetFinal with
          | none => rw [hf] at h; exact Outcome.noConfusion h
          | some f =>
            rw [hf] at h
            simp only at h
            cases hn : ls.levels[f]? with
            | none => rw [hn] at h; exact Outcome.noConfusion h
            | some lv =>
              rw [hn] at h
              simp only at h
              by_cases c2 : lv.GetTau < 0
              · rw [if_pos c2] at h
                exact Outcome.noConfusion h
              · rw [if_neg c2] at h
                obtain ⟨gs, path, t1, reached, h1, h2, h3, h4, h5, h6, h7⟩ := ih _ _ _ _ h
                refine ⟨GenerateGamma twopi t tr.GetEnergy (draws j).uCosTheta (draws j).uPhi
                    :: gs, f :: path, t1, reached, by simp [h1], by simp [h2],
                  fun hc => absurd hc (by simp), ?_, ?_, ?_, ?_⟩
                · intro m g hg
                  cases m with
                  | zero =>
                    simp only [List.getElem?_cons_zero, Option.some.injEq] at hg
                    subst hg
                    refine ⟨i, f, src, lv, tr, by simp, by simp, hl, c1, hp, hf, hn, rfl,
                      fun _ => rfl, ?_, fun hc => absurd hc c2, ?_⟩
                    · intro g1 hg1
                      simp only [List.getElem?_cons_succ] at hg1
                      obtain ⟨_, _, _, _, _, _, _, _, _, _, _, _, _, k9, _⟩ := h4 0 g1 hg1
                      exact ⟨c2, k9 rfl⟩
                    · intro _ hlen
                      have hnil : gs = [] := by
                        simp only [List.length_cons, Nat.zero_add, Nat.add_left_eq_self] at hlen
                        exact List.length_eq_zero.mp hlen
                      exact h3 hnil
                  | succ m =>
                    simp only [List.getElem?_cons_succ] at hg
                    obtain ⟨a, f1, src1, lv1, tr1, k1, k2, k3, k4, k5, k6, k7, k8, _, k10, k11,
                      k12⟩ := h4 m g hg
                    have hj : j + 1 + m = j + (m + 1) := by omega
                    rw [hj] at k5 k8 k10 k12
                    refine ⟨a, f1, src1, lv1, tr1, by simpa using k1, by simpa using k2, k3, k4,
                      k5, k6, k7, k8, fun hc => absurd hc (Nat.succ_ne_zero m), ?_, ?_, ?_⟩
                    · intro g1 hg1
                      simp only [List.getElem?_cons_succ] at hg1
                      exact k10 g1 hg1
                    · intro hc
                      obtain ⟨x1, x2⟩ := k11 hc
                      exact ⟨by simp [x1], x2⟩
                    · intro hc hlen
                      exact k12 hc (by simpa using hlen)
                · intro m f1 lv1 hm hlv1
                  cases m with
                  | zero =>
                    simp only [List.getElem?_cons_zero, Option.some.injEq] at hm
                    subst hm
                    rw [hn] at hlv1
                    injection hlv1 with hlv1
                    subst hlv1
                    exact c2
                  | succ m =>
                    simp only [List.getElem?_cons_succ] at hm
                    exact h5 m f1 lv1 hm hlv1
                · rw [List.getLast?_cons_cons]
                  exact h6
                · intro more
                  have e1 : k + 1 + more = (k + more) + 1 := by omega
                  have e2 : j + 1 + k = j + (k + 1) := by omega
                  rw [e1, loop_succ_continue ls twopi draws (k + more) j i f t ev src lv tr hl c1
                    hp hf hn c2, h7 more, e2, List.append_assoc]
                  rfl

/-- C12. Cascade timing, the exponential draws being explicit inputs, for every scheme
built by `AddLevel` and `AddTransition` calls, all random inputs and every number of
passes of the loop of `GeneratePrimaries`. The passes done have emitted gammas `ev` along
the levels `entry :: path` and brought the gun time to `time`, such that: gamma number `m`
is the vertex fired for the transition picked, with the random number of pass `m`, in the
level reached, with the gun time of that moment; the first gamma carries the time 0; if
another gamma follows, the level `lv` populated by gamma `m` is not stable and the next
gamma carries the time of gamma `m` plus one delay, shot with mean `lv.tau`; if `lv` is
stable (`tau < 0`), gamma `m` is the last one, the gun time is left at the time of gamma
`m` and the run is the same whatever `G4RandExponential::shoot` would have answered in
that pass (no delay is drawn or added); if gamma `m` is the last one and `lv` is not
stable, exactly one delay shot with mean `lv.tau` was added; without any gamma the time
is 0. And either the run has left the loop with exactly this event and gun time, the
last level reached being stable or without a transition picked; or every pass has
emitted one gamma, no level populated is stable, and the run with any further passes is
the loop resumed in the level reached with this gun time and event. On an acyclic scheme
with at least as many passes as levels it is the first. -/
theorem cascade_timing (calls : List (Call R)) (twopi uLevel : R) (draws : Nat → Draws R)
    (passes : Nat) :
    ∃ (ev : List (Gamma R)) (time : R) (path : List Nat),
      path.length = ev.length ∧ (ev = [] → time = 0) ∧
      (∀ m g, ev[m]? = some g →
        ∃ (entry a f : Nat) (src lv : Level R) (tr : Transition R),
          (build calls).PickPrimaryLevel uLevel = some entry ∧
          (entry :: path)[m]? = some a ∧ path[m]? = some f ∧
          (build calls).levels[a]? = some src ∧
          src.PickDepopulatingTransition (draws m).uTransition = some tr ∧
          tr.GetFinal = some f ∧ (build calls).levels[f]? = some lv ∧
          g = GenerateGamma twopi g.time tr.GetEnergy (draws m).uCosTheta (draws m).uPhi ∧
          (m = 0 → g.time = 0) ∧
          (∀ g1, ev[m + 1]? = some g1 →
            ¬ lv.GetTau < 0 ∧ g1.time = g.time + (draws m).shoot lv.GetTau) ∧
          (lv.GetTau < 0 →
            ev.length = m + 1 ∧ time = g.time ∧
            ∀ draws1, SameButShoot draws draws1 m →
              GeneratePrimaries (build calls) twopi uLevel draws1 passes =
                Outcome.finished ev time) ∧
          (¬ lv.GetTau < 0 → ev.length = m + 1 →
            time = g.time + (draws m).shoot lv.GetTau)) ∧
      ((GeneratePrimaries (build calls) twopi uLevel draws passes = Outcome.finished ev time ∧
          ∀ entry, (build calls).PickPrimaryLevel uLevel = some entry →
            ∃ (reached : Nat) (lvl : Level R), (entry :: path).getLast? = some reached ∧
              (build calls).levels[reached]? = some lvl ∧
              (lvl.GetTau < 0 ∨
                lvl.PickDepopulatingTransition (draws ev.length).uTransition = none)) ∨
        (ev.length = passes ∧
          (∀ (m f : Nat) (lv : Level R), path[m]? = some f →
            (build calls).levels[f]? = some lv → ¬ lv.GetTau < 0) ∧
          ∃ entry reached, (build calls).PickPrimaryLevel uLevel = some entry ∧
            (entry :: path).getLast? = some reached ∧
            ∀ more, GeneratePrimaries (build calls) twopi uLevel draws (passes + more) =
              GeneratePrimaries.loop (build calls) twopi draws more passes (some reached)
                time ev)) ∧
      (Acyclic (build calls) → (build calls).levels.length ≤ passes →
        GeneratePrimaries (build calls) twopi uLevel draws passes =
          Outcome.finished ev time) := by
  have hv := build_validTargets calls
  cases hp : (build calls).PickPrimaryLevel uLevel with
  | none =>
    have hrun : GeneratePrimaries (build calls) twopi uLevel draws passes =
        Outcome.finished [] 0 := by
      unfold GeneratePrimaries
      rw [hp, loop_none]
    refine ⟨[], 0, [], rfl, fun _ => rfl, ?_,
      Or.inl ⟨hrun, fun entry he => Option.noConfusion he⟩, fun _ _ => hrun⟩
    intro m g hg
    simp at hg
  | some entry =>
    have hentry := PickPrimaryLevel_lt _ _ _ hp
    cases hout : GeneratePrimaries.loop (build calls) twopi draws passes 0 (some entry) 0 [] with
    | fault =>
      exact absurd hout (loop_ne_fault (build calls) twopi draws hv passes 0 (some entry) 0 []
        (fun i hi => by injection hi with hi; rw [← hi]; exact hentry))
    | finished e t1 =>
      have hrun : GeneratePrimaries (build calls) twopi uLevel draws passes =
          Outcome.finished e t1 := by
        unfold GeneratePrimaries
        rw [hp]
        exact hout
      obtain ⟨gs, path, h1, h2, h3, h4, h5, reached, lvl, h6, h7, h8⟩ :=
        loop_timing (build calls) twopi draws _ _ _ _ _ _ _ hout
      rw [List.nil_append] at h1
      subst h1
      rw [Nat.zero_add] at h8
      refine ⟨e, t1, path, h2, h3, ?_,
        Or.inl ⟨hrun, fun entry1 he => by
          injection he with he
          subst he
          exact ⟨reached, lvl, h6, h7, h8⟩⟩, fun _ _ => hrun⟩
      intro m g hg
      obtain ⟨a, f, src, lv, tr, k1, k2, k3, _, k5, k6, k7, k8, k9, k10, k11, k12⟩ := h4 m g hg
      rw [Nat.zero_add] at k5 k8 k10 k12
      refine ⟨entry, a, f, src, lv, tr, rfl, k1, k2, k3, k5, k6, k7, k8, k9, k10, ?_, k12⟩
      · intro hst
        obtain ⟨x1, x2⟩ := k11 hst
        refine ⟨x1, x2, ?_⟩
        intro draws1 hsame
        unfold GeneratePrimaries
        rw [hp]
        exact h5 m f lv k2 k7 hst draws1 (by rw [Nat.zero_add]; exact hsame)
    | running =>
      obtain ⟨gs, path, t1, reached, h1, h2, h3, h4, h5, h6, h7⟩ :=
        loop_running (build calls) twopi draws _ _ _ _ _ hout
      refine ⟨gs, t1, path, by rw [h1, h2], h3, ?_, Or.inr ⟨h1, h5, entry, reached, rfl, h6, ?_⟩,
        ?_⟩
      · intro m g hg
        obtain ⟨a, f, src, lv, tr, k1, k2, k3, _, k5, k6, k7, k8, k9, k10, k11, k12⟩ := h4 m g hg
        rw [Nat.zero_add] at k5 k8 k10 k12
        refine ⟨entry, a, f, src, lv, tr, rfl, k1, k2, k3, k5, k6, k7, k8, k9, k10, ?_, k12⟩
        intro hst
        exact absurd hst (h5 m f lv k2 k7)
      · intro more
        unfold GeneratePrimaries
        rw [hp, h7 more, Nat.zero_add, List.nil_append]
      · intro hacyc hlen
        exfalso
        rcases loop_path (build calls) twopi draws hv passes 0 entry 0 [] hentry with
          ⟨p, c1, c2, _⟩ | ⟨_, _, _, c1, _⟩
        · have := path_length_lt (build calls) hv hacyc entry hentry p c1
          omega
        · rw [hout] at c1
          exact Outcome.noConfusion c1

theorem exampleChain_build :
    build exampleChain =
      { levels := [{ energy := 3000, tau := 1, population := 1,
                     transitions := [{ energy := 2000, intensity := 1, final := some 1 }],
                     total_decay := 1 },
                   { energy := 1000, tau := 2, population := 0,
                     transitions := [{ energy := 1000, intensity := 1, final := some 2 }],
                     total_decay := 1 },
                   { energy := 0, tau := -1, population := 0, transitions := [],
                     total_decay := 0 }],
        transitions := [{ energy := 2000, intensity := 1, final := some 1 },
                        { energy := 1000, intensity := 1, final := some 2 }],
        total_population := 1 } := by
  norm_num [build, exampleChain, call, AddLevel, construct, Level.construct,
    AddTransition, AddTransitionLevels, GetLevel, GetLevel.loop, Level.GetEnergy, abs_lt,
    List.modify, List.modifyTailIdx, List.modifyHead, Level.AddTransition,
    Transition.GetIntensity, Transition.construct]

theorem exampleChain_cascade :
    GeneratePrimaries (build exampleChain) 6 (1 / 2) exampleDraws 2 =
      Outcome.finished exampleChainEvent 2 := by
  have hp : (build exampleChain).PickPrimaryLevel (1 / 2) = some 0 := by
    rw [exampleChain_build]
    norm_num [PickPrimaryLevel, PickPrimaryLevel.loop, Level.GetPopulation]
  unfold GeneratePrimaries
  rw [hp, exampleChain_build]
  norm_num [GeneratePrimaries.loop, Level.GetTau, Level.PickDepopulatingTransition,
    Level.PickDepopulatingTransition.loop, Level.GetDecayIntensity, Transition.GetIntensity,
    Transition.GetFinal, Transition.GetEnergy, GenerateGamma, AddTime, exampleDraws,
    exampleChainEvent]

/-- C12 at the cascade of `exampleChain` with `u = 1 / 2` and `exampleDraws`, two passes:
the gamma of the transition `3000 -> 1000` at time 0, then, the level at 1000 having the
lifetime 2, the gamma of the transition `1000 -> 0` at the time `0 + shoot 2 = 2`. -/
theorem cascade_timing_witness :
    GeneratePrimaries (build exampleChain) 6 (1 / 2) exampleDraws 2 =
      Outcome.finished exampleChainEvent 2 ∧
    ∃ path : List Nat,
      path.length = exampleChainEvent.length ∧ (exampleChainEvent = [] → (2 : ℚ) = 0) ∧
      (∀ m g, exampleChainEvent[m]? = some g →
        ∃ (entry a f : Nat) (src lv : Level ℚ) (tr : Transition ℚ),
          (build exampleChain).PickPrimaryLevel (1 / 2) = some entry ∧
          (entry :: path)[m]? = some a ∧ path[m]? = some f ∧
          (build exampleChain).levels[a]? = some src ∧
          src.PickDepopulatingTransition (exampleDraws m).uTransition = some tr ∧
          tr.GetFinal = some f ∧ (build exampleChain).levels[f]? = some lv ∧
          g = GenerateGamma 6 g.time tr.GetEnergy (exampleDraws m).uCosTheta
            (exampleDraws m).uPhi ∧
          (m = 0 → g.time = 0) ∧
          (∀ g1, exampleChainEvent[m + 1]? = some g1 →
            ¬ lv.GetTau < 0 ∧ g1.time = g.time + (exampleDraws m).shoot lv.GetTau) ∧
          (lv.GetTau < 0 →
            exampleChainEvent.length = m + 1 ∧ 2 = g.time ∧
            ∀ draws1, SameButShoot exampleDraws draws1 m →
              GeneratePrimaries (build exampleChain) 6 (1 / 2) draws1 2 =
                Outcome.finished exampleChainEvent 2) ∧
          (¬ lv.GetTau < 0 → exampleChainEvent.length = m + 1 →
            2 = g.time + (exampleDraws m).shoot lv.GetTau)) ∧
      ((GeneratePrimaries (build exampleChain) 6 (1 / 2) exampleDraws 2 =
            Outcome.finished exampleChainEvent 2 ∧
          ∀ entry, (build exampleChain).PickPrimaryLevel (1 / 2) = some entry →
            ∃ (reached : Nat) (lvl : Level ℚ), (entry :: path).getLast? = some reached ∧
              (build exampleChain).levels[reached]? = some lvl ∧
              (lvl.GetTau < 0 ∨
                lvl.PickDepopulatingTransition
                  (exampleDraws exampleChainEvent.length).uTransition = none)) ∨
        (exampleChainEvent.length = 2 ∧
          (∀ (m f : Nat) (lv : Level ℚ), path[m]? = some f →
            (build exampleChain).levels[f]? = some lv → ¬ lv.GetTau < 0) ∧
          ∃ entry reached, (build exampleChain).PickPrimaryLevel (1 / 2) = some entry ∧
            (entry :: path).getLast? = some reached ∧
            ∀ more, GeneratePrimaries (build exampleChain) 6 (1 / 2) exampleDraws (2 + more) =
              GeneratePrimaries.loop (build exampleChain) 6 exampleDraws more 2 (some reached)
                2 exampleChainEvent)) ∧
      (Acyclic (build exampleChain) → (build exampleChain).levels.length ≤ 2 →
        GeneratePrimaries (build exampleChain) 6 (1 / 2) exampleDraws 2 =
          Outcome.finished exampleChainEvent 2) := by
  obtain ⟨ev, time, path, h1, h2, h3, h4, h5⟩ :=
    cascade_timing exampleChain 6 (1 / 2) exampleDraws 2
  have hfin : GeneratePrimaries (build exampleChain) 6 (1 / 2) exampleDraws 2 =
      Outcome.finished ev time := by
    rcases h4 with ⟨h4, _⟩ | ⟨_, _, entry, reached, _, _, h4⟩
    · exact h4
    · have := h4 0
      rw [loop_zero, Nat.add_zero, exampleChain_cascade] at this
      exact Outcome.noConfusion this
  rw [exampleChain_cascade] at hfin
  injection hfin with e1 e2
  subst e1
  subst e2
  exact ⟨exampleChain_cascade, path, h1, h2, h3, h4, h5⟩

/-! ## Cascade: the example of the specification -/

theorem GetLevel_eq_some_of_first_nearest (s : LevelScheme R) (e : R) (k : Nat) (lk : Level R)
    (h1 : s.levels[k]? = some lk) (h2 : abs (lk.energy - e) < 2)
    (h3 : ∀ l ∈ s.levels, abs (lk.energy - e) ≤ abs (l.energy - e))
    (h4 : ∀ j lj, j < k → s.levels[j]? = some lj → abs (lk.energy - e) < abs (lj.energy - e)) :
    s.GetLevel e = some k := by
  have hpost := GetLevel_post s e
  cases hg : s.GetLevel e with
  | none =>
    rw [hg] at hpost
    exact absurd h2 (not_lt.mpr (hpost lk (List.getElem?_mem h1)))
  | some k1 =>
    rw [hg] at hpost
    obtain ⟨lk1, g1, _, g3, g4⟩ := hpost
    rcases Nat.lt_trichotomy k1 k with hlt | heq | hgt
    · exact absurd (h4 k1 lk1 hlt g1) (not_lt.mpr (g3 lk (List.getElem?_mem h1)))
    · rw [heq]
    · exact absurd (g4 k lk hgt h1) (not_lt.mpr (h3 lk1 (List.getElem?_mem g1)))

theorem specExample_eq (keV ns tauStable : R) (hkeV : 0 < keV) :
    specExample keV ns tauStable =
      { levels := [{ energy := 1000 * keV, tau := 1000 * (1 / 1000) * ns, population := 100,
                     transitions := [{ energy := 1000 * keV - 0 * keV, intensity := 100,
                                       final := some 1 }],
                     total_decay := 0 + 100 },
                   { energy := 0 * keV, tau := tauStable * (1 / 1000) * ns, population := 0,
                     transitions := [], total_decay := 0 }],
        transitions := [{ energy := 1000 * keV - 0 * keV, intensity := 100, final := some 1 }],
        total_population := 0 + 100 + 0 } := by
  have h2 : ((construct : LevelScheme R).AddLevel (1000 * keV) (1000 * (1 / 1000) * ns) 100).AddLevel
        (0 * keV) (tauStable * (1 / 1000) * ns) 0 =
      { levels := [{ energy := 1000 * keV, tau := 1000 * (1 / 1000) * ns, population := 100,
                     transitions := [], total_decay := 0 },
                   { energy := 0 * keV, tau := tauStable * (1 / 1000) * ns, population := 0,
                     transitions := [], total_decay := 0 }],
        transitions := [], total_population := 0 + 100 + 0 } := by
    simp [AddLevel, construct, Level.construct]
  have g1 : (((construct : LevelScheme R).AddLevel (1000 * keV) (1000 * (1 / 1000) * ns)
      100).AddLevel (0 * keV) (tauStable * (1 / 1000) * ns) 0).GetLevel (1000 * keV) = some 0 := by
    rw [h2]
    apply GetLevel_eq_some_of_first_nearest _ _ 0
      (Level.mk (1000 * keV) (1000 * (1 / 1000) * ns) 100 [] 0) (by simp)
    · simp
    · intro l _
      simp
    · intro j lj hj
      exact absurd hj (Nat.not_lt_zero j)
  have g2 : (((construct : LevelScheme R).AddLevel (1000 * keV) (1000 * (1 / 1000) * ns)
      100).AddLevel (0 * keV) (tauStable * (1 / 1000) * ns) 0).GetLevel (0 * keV) = some 1 := by
    rw [h2]
    apply GetLevel_eq_some_of_first_nearest _ _ 1
      (Level.mk (0 * keV) (tauStable * (1 / 1000) * ns) 0 [] 0) (by simp)
    · simp
    · intro l _
      simp
    · intro j lj hj hlj
      have hj0 : j = 0 := by omega
      subst hj0
      simp only [List.getElem?_cons_zero, Option.some.injEq] at hlj
      subst hlj
      simp only [sub_self, abs_zero, abs_pos]
      have : 0 < 1000 * keV := by positivity
      linarith
  simp only [specExample, Read, List.foldl_cons, List.foldl_nil, Read.line]
  rw [AddTransition_of_some _ _ _ _ 0 1 g1 g2, h2]
  simp [List.modify, List.modifyTailIdx, List.modifyHead, Level.AddTransition,
    Transition.GetIntensity]

theorem specExample_pick (keV ns tauStable uLevel : R) (hkeV : 0 < keV) (hu : uLevel < 1) :
    (specExample keV ns tauStable).PickPrimaryLevel uLevel = some 0 := by
  rw [specExample_eq keV ns tauStable hkeV]
  have h : uLevel * (0 + 100 + 0) < 0 + 100 := by linarith
  simp only [PickPrimaryLevel, PickPrimaryLevel.loop, Level.GetPopulation, if_pos h]

theorem specExample_loop (keV ns tauStable twopi : R) (draws : Nat → Draws R) (k : Nat)
    (hkeV : 0 < keV) (hns : 0 < ns) (hstable : tauStable < 0)
    (hut : (draws 0).uTransition < 1) :
    GeneratePrimaries.loop (specExample keV ns tauStable) twopi draws (k + 1) 0 (some 0) 0 [] =
      Outcome.finished
        [GenerateGamma twopi 0 (1000 * keV - 0 * keV) (draws 0).uCosTheta (draws 0).uPhi] 0 := by
  rw [specExample_eq keV ns tauStable hkeV]
  have h : (draws 0).uTransition * (0 + 100) < 0 + 100 := by linarith
  rw [loop_succ_stable _ twopi draws k 0 0 1 0 []
    (Level.mk (1000 * keV) (1000 * (1 / 1000) * ns) 100
      [Transition.mk (1000 * keV - 0 * keV) 100 (some 1)] (0 + 100))
    (Level.mk (0 * keV) (tauStable * (1 / 1000) * ns) 0 [] 0)
    (Transition.mk (1000 * keV - 0 * keV) 100 (some 1)) (by simp) ?_ ?_ rfl (by simp) ?_]
  · rfl
  · show ¬ 1000 * (1 / 1000) * ns < 0
    have : 0 ≤ 1000 * (1 / 1000) * ns := by positivity
    exact not_lt.mpr this
  · simp only [Level.PickDepopulatingTransition, Level.PickDepopulatingTransition.loop,
      Level.GetDecayIntensity, Transition.GetIntensity, if_pos h]
  · show tauStable * (1 / 1000) * ns < 0
    have : 0 < (1 / 1000) * ns := by positivity
    nlinarith

/-- C13 as stated fails: on the scheme of the example (with Geant4's `keV = 0.001`,
`ns = 1`), with an exponential sampler that would answer the positive delay 5, the cascade
emits its one gamma at time 0 and is left with the gun time still 0: the level populated
is stable, so no delay is added to the time of the gamma. -/
theorem spec_example_counterexample :
    (∀ mean : ℚ, 0 < (examplePositiveDraws 0).shoot mean) ∧
    GeneratePrimaries (specExample (1 / 1000) 1 (-1)) 6 (1 / 2) examplePositiveDraws 1 =
      Outcome.finished [({ energy := 1, time := 0, cosTheta := 0, phi := 3 } : Gamma ℚ)] 0 ∧
    ¬ ∃ delay : ℚ, 0 < delay ∧ (0 : ℚ) = 0 + delay := by
  refine ⟨fun _ => by norm_num [examplePositiveDraws], ?_, ?_⟩
  · unfold GeneratePrimaries
    rw [specExample_pick _ _ _ _ (by norm_num) (by norm_num),
      specExample_loop _ _ _ _ _ _ (by norm_num) (by norm_num) (by norm_num)
        (by norm_num [examplePositiveDraws])]
    norm_num [GenerateGamma, examplePositiveDraws]
  · rintro ⟨delay, h1, h2⟩
    linarith

/-- C13, amended. For the scheme of the example, read from its file (levels 1000 keV,
1000 ps, population 100 and 0 keV, stable; one transition `1000 -> 0` of intensity 100),
for every uniform variate below 1 and every other random input, every cascade emits
exactly one gamma, of energy `1000 keV - 0 keV`, at time 0, and then terminates, in the
first pass of the loop: the level populated is stable, so the gun time stays 0 and the
run is the same whatever the exponential sampler would have answered (no delay is drawn
or added). -/
theorem spec_example_cascade (keV ns tauStable twopi uLevel : R) (draws : Nat → Draws R)
    (passes : Nat) (hkeV : 0 < keV) (hns : 0 < ns) (hstable : tauStable < 0)
    (hu : uLevel < 1) (hut : (draws 0).uTransition < 1) (hpasses : 1 ≤ passes) :
    GeneratePrimaries (specExample keV ns tauStable) twopi uLevel draws passes =
      Outcome.finished
        [GenerateGamma twopi 0 (1000 * keV - 0 * keV) (draws 0).uCosTheta (draws 0).uPhi] 0 ∧
    ∀ draws1, SameButShoot draws draws1 0 →
      GeneratePrimaries (specExample keV ns tauStable) twopi uLevel draws1 passes =
        Outcome.finished
          [GenerateGamma twopi 0 (1000 * keV - 0 * keV) (draws 0).uCosTheta (draws 0).uPhi] 0 := by
  obtain ⟨k, rfl⟩ : ∃ k, passes = k + 1 := ⟨passes - 1, by omega⟩
  have hpick := specExample_pick keV ns tauStable uLevel hkeV hu
  constructor
  · unfold GeneratePrimaries
    rw [hpick]
    exact specExample_loop keV ns tauStable twopi draws k hkeV hns hstable hut
  · intro draws1 hsame
    obtain ⟨s1, s2, s3, _⟩ := hsame 0
    unfold GeneratePrimaries
    rw [hpick, specExample_loop keV ns tauStable twopi draws1 k hkeV hns hstable
      (by rw [s1]; exact hut), s2, s3]

/-- C13 (amended) with Geant4's units, `u = 1 / 2` and `examplePositiveDraws`. -/
theorem spec_example_cascade_witness :
    ((0 : ℚ) < 1 / 1000 ∧ (0 : ℚ) < 1 ∧ (-1 : ℚ) < 0 ∧ (1 / 2 : ℚ) < 1 ∧
      (examplePositiveDraws 0).uTransition < 1 ∧ 1 ≤ 1) ∧
    (GeneratePrimaries (specExample (1 / 1000) 1 (-1)) 6 (1 / 2) examplePositiveDraws 1 =
      Outcome.finished
        [GenerateGamma 6 0 (1000 * (1 / 1000) - 0 * (1 / 1000))
          (examplePositiveDraws 0).uCosTheta (examplePositiveDraws 0).uPhi] 0 ∧
    ∀ draws1, SameButShoot examplePositiveDraws draws1 0 →
      GeneratePrimaries (specExample (1 / 1000) 1 (-1)) 6 (1 / 2) draws1 1 =
        Outcome.finished
          [GenerateGamma 6 0 (1000 * (1 / 1000) - 0 * (1 / 1000))
            (examplePositiveDraws 0).uCosTheta (examplePositiveDraws 0).uPhi] 0) :=
  ⟨⟨by norm_num, by norm_num, by norm_num, by norm_num, by norm_num [examplePositiveDraws],
      le_refl 1⟩,
    spec_example_cascade (1 / 1000) 1 (-1) 6 (1 / 2) examplePositiveDraws 1 (by norm_num)
      (by norm_num) (by norm_num) (by norm_num) (by norm_num [examplePositiveDraws])
      (le_refl 1)⟩

/-! ## Level scheme: direction of the transitions -/

theorem TransitionsSatisfy_foldl_of (P Q : R → R → Prop)
    (hQ : ∀ (s : LevelScheme R) (E1 E2 : R) (i f : Nat) (li lf : Level R), Q E1 E2 →
      s.GetLevel E1 = some i → s.GetLevel E2 = some f → s.levels[i]? = some li →
      s.levels[f]? = some lf → P (E1 - E2) (li.energy - lf.energy))
    (calls : List (Call R)) :
    ∀ s : LevelScheme R, TransitionsSatisfy P s →
      (∀ E1 E2 w, Call.addTransition E1 E2 w ∈ calls → Q E1 E2) →
      TransitionsSatisfy P (calls.foldl call s) := by
  induction calls with
  | nil => intro s h _; exact h
  | cons c rest ih =>
    intro s h hq
    rw [List.foldl_cons]
    apply ih
    · cases c with
      | addLevel energy tau population => exact TransitionsSatisfy_AddLevel _ s _ _ _ h
      | addTransition E1 E2 intensity =>
        apply TransitionsSatisfy_AddTransition _ s E1 E2 intensity h
        intro i f li lf h1 h2 g1 g2
        exact hQ s E1 E2 i f li lf (hq E1 E2 intensity (List.mem_cons_self _ _)) h1 h2 g1 g2
    · intro E1 E2 w hm
      exact hq E1 E2 w (List.mem_cons_of_mem _ hm)

end PrimaryGenerator




/-! ## Sensitive detector -/

theorem Datum.SetValue_spec {α : Type} [Zero α] (d : Datum α) (n v : Nat) (x : α)
    (ha : d.Allocated) (hn : n < d.ndet) (hv : v < d.nperdet) :
    ∃ d1, d.SetValue n v x = some d1 ∧ d1.Allocated ∧ d1.ndet = d.ndet ∧
      d1.nperdet = d.nperdet ∧ d1.has_data = true ∧ d1.GetValue n v = some x ∧
      ∀ n1 v1, (n1, v1) ≠ (n, v) → d1.GetValue n1 v1 = d.GetValue n1 v1 := by
  obtain ⟨hlt, l, hl, hlen⟩ := ha
  have hidx : ∀ n1 v1, n1 < d.ndet → v1 < d.nperdet →
      (n1 * d.nperdet + v1) % UINT = n1 * d.nperdet + v1 ∧ n1 * d.nperdet + v1 < l.length := by
    intro n1 v1 h1 h2
    have := flat_index_lt n1 v1 d.ndet d.nperdet h1 h2
    exact ⟨Nat.mod_eq_of_lt (by omega), by omega⟩
  obtain ⟨e, hi⟩ := hidx n v hn hv
  refine ⟨{ d with values := some (l.set (n * d.nperdet + v) x), has_data := true },
    ?_, ⟨hlt, _, rfl, by simpa using hlen⟩, rfl, rfl, rfl, ?_, ?_⟩
  · unfold Datum.SetValue
    simp [Nat.not_le.mpr hn, Nat.not_le.mpr hv, hl, e, hi]
  · unfold Datum.GetValue
    simp [Nat.not_le.mpr hn, Nat.not_le.mpr hv, e, hi]
  · intro n1 v1 hne
    unfold Datum.GetValue
    by_cases h1 : n1 ≥ d.ndet
    · simp [h1]
    · by_cases h2 : v1 ≥ d.nperdet
      · simp [h2]
      · obtain ⟨e1, _⟩ := hidx n1 v1 (not_le.mp h1) (not_le.mp h2)
        have hneq : n * d.nperdet + v ≠ n1 * d.nperdet + v1 := by
          intro hc
          obtain ⟨r1, r2⟩ := flat_index_inj n v n1 v1 d.nperdet hv (not_le.mp h2) hc
          exact hne (by rw [r1, r2])
        simp only [ge_iff_le, h1, h2, if_false, hl, e1]
        rw [List.getElem?_set_ne hneq]

namespace SensitiveDetector

variable {R : Type} [LinearOrderedField R]

/-- C14. Finalize (`SensitiveDetector::EndOfEvent`) over exact reals, `gauss` being the
Gaussian sampler: if `sumE < 0.01` the accumulator and the record buffer are returned
unchanged, whatever the sampler (no Gaussian is drawn); if `sumE ≥ 0.01`, the buffer is
allocated, the detector id is in range and there are at least 5 fields, then the call
completes, the value `g` drawn with mean `sumE` and standard deviation
`sigma0 + sigma1 * sumE` replaces `sumE` and is filled into the histogram, the fields
0..4 of the detector's slot read `g`, `sumT / sumN + offT`, `sumX / sumN`, `sumY / sumN`,
`sumZ / sumN`, every other element of the buffer (other detectors, fields from 5 on)
reads what it read before, the dimensions are unchanged and the data flag is set. -/
theorem EndOfEvent_finalize (sd : SensitiveDetector R) (buf : Datum R) (gauss : R → R → R) :
    (sd.sumE < 1 / 100 → sd.EndOfEvent buf gauss = some (sd, buf)) ∧
    (¬ sd.sumE < 1 / 100 → buf.Allocated → 0 ≤ sd.id → sd.id < buf.ndet → 5 ≤ buf.nperdet →
      ∃ buf1, sd.EndOfEvent buf gauss =
          some ({ sd with sumE := gauss sd.sumE (sd.sigma0 + sd.sigma1 * sd.sumE),
                          h := sd.h ++ [gauss sd.sumE (sd.sigma0 + sd.sigma1 * sd.sumE)] },
                buf1) ∧
        buf1.GetValue sd.id.toNat 0 = some (gauss sd.sumE (sd.sigma0 + sd.sigma1 * sd.sumE)) ∧
        buf1.GetValue sd.id.toNat 1 = some (sd.sumT / sd.sumN + sd.offT) ∧
        buf1.GetValue sd.id.toNat 2 = some (sd.sumX / sd.sumN) ∧
        buf1.GetValue sd.id.toNat 3 = some (sd.sumY / sd.sumN) ∧
        buf1.GetValue sd.id.toNat 4 = some (sd.sumZ / sd.sumN) ∧
        (∀ n v, n ≠ sd.id.toNat ∨ 5 ≤ v → buf1.GetValue n v = buf.GetValue n v) ∧
        buf1.ndet = buf.ndet ∧ buf1.nperdet = buf.nperdet ∧ buf1.HasData = true) := by
  constructor
  · intro h
    unfold EndOfEvent
    rw [if_pos h]
  · intro h ha hid0 hid1 h5
    have hnd : buf.ndet < UINT := by
      obtain ⟨hlt, _⟩ := ha
      have : buf.ndet * 5 ≤ buf.ndet * buf.nperdet := Nat.mul_le_mul_left _ h5
      omega
    have hn : sd.id.toNat < buf.ndet := by omega
    have hu : toUnsigned sd.id = sd.id.toNat := by
      unfold toUnsigned
      rw [Int.emod_eq_of_lt hid0]
      have : (buf.ndet : Int) < (UINT : Int) := by exact_mod_cast hnd
      omega
    obtain ⟨b0, e0, a0, d0, f0, _, g0, r0⟩ := Datum.SetValue_spec buf sd.id.toNat 0
      (gauss sd.sumE (sd.sigma0 + sd.sigma1 * sd.sumE)) ha hn (by omega)
    obtain ⟨b1, e1, a1, d1, f1, _, g1, r1⟩ := Datum.SetValue_spec b0 sd.id.toNat 1
      (sd.sumT / sd.sumN + sd.offT) a0 (by omega) (by omega)
    obtain ⟨b2, e2, a2, d2, f2, _, g2, r2⟩ := Datum.SetValue_spec b1 sd.id.toNat 2
      (sd.sumX / sd.sumN) a1 (by omega) (by omega)
    obtain ⟨b3, e3, a3, d3, f3, _, g3, r3⟩ := Datum.SetValue_spec b2 sd.id.toNat 3
      (sd.sumY / sd.sumN) a2 (by omega) (by omega)
    obtain ⟨b4, e4, _, d4, f4, x4, g4, r4⟩ := Datum.SetValue_spec b3 sd.id.toNat 4
      (sd.sumZ / sd.sumN) a3 (by omega) (by omega)
    have ne : ∀ (a b : Nat), a ≠ b → (sd.id.toNat, a) ≠ (sd.id.toNat, b) := by
      intro a b hab hc
      exact hab (Prod.mk.inj hc).2
    refine ⟨b4, ?_, ?_, ?_, ?_, ?_, g4, ?_, by omega, by omega, x4⟩
    · unfold EndOfEvent
      rw [if_neg h]
      simp only [hu, e0, e1, e2, e3, e4]
    · rw [r4 _ _ (ne 0 4 (by decide)), r3 _ _ (ne 0 3 (by decide)),
        r2 _ _ (ne 0 2 (by decide)), r1 _ _ (ne 0 1 (by decide)), g0]
    · rw [r4 _ _ (ne 1 4 (by decide)), r3 _ _ (ne 1 3 (by decide)),
        r2 _ _ (ne 1 2 (by decide)), g1]
    · rw [r4 _ _ (ne 2 4 (by decide)), r3 _ _ (ne 2 3 (by decide)), g2]
    · rw [r4 _ _ (ne 3 4 (by decide)), g3]
    · intro n v hnv
      have hne : ∀ k, k < 5 → (n, v) ≠ (sd.id.toNat, k) := by
        intro k hk hc
        obtain ⟨c1, c2⟩ := Prod.mk.inj hc
        rcases hnv with hnv | hnv
        · exact hnv c1
        · omega
      rw [r4 _ _ (hne 4 (by decide)), r3 _ _ (hne 3 (by decide)), r2 _ _ (hne 2 (by decide)),
        r1 _ _ (hne 1 (by decide)), r0 _ _ (hne 0 (by decide))]

theorem exampleRecord_allocated : exampleRecord.Allocated := by
  refine ⟨?_, [0, 0, 0, 0, 0, 0, 0, 0, 0, 0], rfl, ?_⟩ <;> simp [exampleRecord, UINT]

/-- C14 at `exampleDetector` (above the threshold), `exampleRecord` and `exampleGauss`. -/
theorem EndOfEvent_finalize_witness :
    (¬ exampleDetector.sumE < 1 / 100 ∧ exampleRecord.Allocated ∧ 0 ≤ exampleDetector.id ∧
      exampleDetector.id < exampleRecord.ndet ∧ 5 ≤ exampleRecord.nperdet) ∧
    ∃ buf1, exampleDetector.EndOfEvent exampleRecord exampleGauss =
        some ({ exampleDetector with
                sumE := exampleGauss exampleDetector.sumE
                  (exampleDetector.sigma0 + exampleDetector.sigma1 * exampleDetector.sumE),
                h := exampleDetector.h ++ [exampleGauss exampleDetector.sumE
                  (exampleDetector.sigma0 + exampleDetector.sigma1 * exampleDetector.sumE)] },
              buf1) ∧
      buf1.GetValue exampleDetector.id.toNat 0 = some (exampleGauss exampleDetector.sumE
        (exampleDetector.sigma0 + exampleDetector.sigma1 * exampleDetector.sumE)) ∧
      buf1.GetValue exampleDetector.id.toNat 1 =
        some (exampleDetector.sumT / exampleDetector.sumN + exampleDetector.offT) ∧
      buf1.GetValue exampleDetector.id.toNat 2 =
        some (exampleDetector.sumX / exampleDetector.sumN) ∧
      buf1.GetValue exampleDetector.id.toNat 3 =
        some (exampleDetector.sumY / exampleDetector.sumN) ∧
      buf1.GetValue exampleDetector.id.toNat 4 =
        some (exampleDetector.sumZ / exampleDetector.sumN) ∧
      (∀ n v, n ≠ exampleDetector.id.toNat ∨ 5 ≤ v →
        buf1.GetValue n v = exampleRecord.GetValue n v) ∧
      buf1.ndet = exampleRecord.ndet ∧ buf1.nperdet = exampleRecord.nperdet ∧
      buf1.HasData = true := by
  have h1 : ¬ exampleDetector.sumE < 1 / 100 := by norm_num [exampleDetector]
  have h2 : (0 : Int) ≤ exampleDetector.id := by decide
  have h3 : exampleDetector.id < exampleRecord.ndet := by decide
  have h4 : 5 ≤ exampleRecord.nperdet := by decide
  exact ⟨⟨h1, exampleRecord_allocated, h2, h3, h4⟩,
    (EndOfEvent_finalize exampleDetector exampleRecord exampleGauss).2 h1
      exampleRecord_allocated h2 h3 h4⟩

theorem ProcessHits_foldl (keV ns mm : R) (hits : List (Hit R)) :
    ∀ sd : SensitiveDetector R,
      (hits.foldl (ProcessHits keV ns mm) sd).sumN = sd.sumN + (hits.length : R) ∧
      (hits = [] → (hits.foldl (ProcessHits keV ns mm) sd).sumE = sd.sumE) := by
  induction hits with
  | nil => intro sd; simp
  | cons hit rest ih =>
    intro sd
    obtain ⟨h1, _⟩ := ih (ProcessHits keV ns mm sd hit)
    refine ⟨?_, fun hc => absurd hc (List.cons_ne_nil _ _)⟩
    rw [List.foldl_cons, h1]
    simp only [ProcessHits, List.length_cons, Nat.cast_add, Nat.cast_one]
    ring

/-- C15. In every accumulator state reached by `Initialize` followed by any finite sequence
of `ProcessHits` calls, with arbitrary deposited energies, times and positions, `sumN`
(the hit count) equals the number of `ProcessHits` calls; and whenever the threshold
gate of `EndOfEvent` passes (`sumE < 0.01` is false) there was at least one call and
`sumN ≥ 1`, so the divisor of the time division and of the three position divisions is
not zero. -/
theorem hit_count_nonzero (keV ns mm : R) (sd : SensitiveDetector R) (hits : List (Hit R)) :
    (hits.foldl (ProcessHits keV ns mm) sd.Initialize).sumN = (hits.length : R) ∧
    (¬ (hits.foldl (ProcessHits keV ns mm) sd.Initialize).sumE < 1 / 100 →
      1 ≤ hits.length ∧ 1 ≤ (hits.foldl (ProcessHits keV ns mm) sd.Initialize).sumN ∧
      (hits.foldl (ProcessHits keV ns mm) sd.Initialize).sumN ≠ 0) := by
  obtain ⟨h1, h2⟩ := ProcessHits_foldl keV ns mm hits sd.Initialize
  have hN : (hits.foldl (ProcessHits keV ns mm) sd.Initialize).sumN = (hits.length : R) := by
    rw [h1]
    simp [Initialize]
  refine ⟨hN, ?_⟩
  intro hgate
  have hlen : 1 ≤ hits.length := by
    by_contra hc
    have hnil : hits = [] := List.length_eq_zero.mp (by omega)
    have hE : (hits.foldl (ProcessHits keV ns mm) sd.Initialize).sumE = 0 := h2 hnil
    rw [hE] at hgate
    exact hgate (by norm_num)
  have hcast : (1 : R) ≤ (hits.length : R) := by exact_mod_cast hlen
  rw [hN]
  exact ⟨hlen, hcast, by linarith⟩

end SensitiveDetector

/-! ## Buffer indexing under 32-bit arithmetic -/

/-- C19 at two failing inputs. After `SetDimensions(65536, 65536)` the element count
`2 ^ 32` is 0 in `unsigned int`: no storage is allocated, yet `(0, 0)` passes the bounds
check and `SetValue` and `GetValue` access NULL. After `SetDimensions(858993460, 5)` (the
call `main` makes for `-n 858993460`) the element count is 4: `(1, 0)` passes the bounds
check and its index 5 lies outside the 4 elements allocated. -/
theorem Datum.index_outside_allocation :
    ((65536 < UINT ∧ (0 : Nat) < 65536) ∧
      (Datum.SetDimensions (Datum.mk none 0 0 false : Datum Int) 65536 65536 0)
        = some (Datum.mk none 65536 65536 false) ∧
      (Datum.mk none 65536 65536 false : Datum Int).SetValue 0 0 7 = none ∧
      (Datum.mk none 65536 65536 false : Datum Int).GetValue 0 0 = none ∧
      ¬ ((0 * 65536 + 0) % UINT < (65536 * 65536) % UINT)) ∧
    ((858993460 < UINT ∧ (1 : Nat) < 858993460 ∧ (0 : Nat) < 5) ∧
      (Datum.SetDimensions (Datum.mk none 0 0 false : Datum Int) 858993460 5 0)
        = some (Datum.mk (some [0, 0, 0, 0]) 5 858993460 false) ∧
      (Datum.mk (some [0, 0, 0, 0]) 5 858993460 false : Datum Int).SetValue 1 0 7 = none ∧
      (Datum.mk (some [0, 0, 0, 0]) 5 858993460 false : Datum Int).GetValue 1 0 = none ∧
      ¬ ((1 * 5 + 0) % UINT < (858993460 * 5) % UINT)) := by
  decide

/-! ## Time offsets of the detectors -/

namespace DetectorConstruction

/-- C20 at the failing input `-n 9`: `ConstructSDandField` reads `offset[8]`, outside the 8
entries of the table; with 8 detectors every read is inside and 8 detectors are
attached. -/
theorem ConstructSDandField_nine_detectors :
    ((9 : Int) ≥ 1 ∧ ¬ (8 < (offset : List ℚ).length)) ∧
    (construct 9).Construct.ConstructSDandField 0 exampleFresh (fun _ => []) = none ∧
    (((construct 8).Construct.ConstructSDandField 0 exampleFresh (fun _ => [])).map
      (fun l => l.map SensitiveDetector.offT)) = some (offset : List ℚ) := by
  refine ⟨⟨by decide, by simp [offset]⟩, ?_, ?_⟩
  · simp [ConstructSDandField, ConstructSDandField.loop, construct, Construct, offset]
  · simp [ConstructSDandField, ConstructSDandField.loop, construct, Construct, offset,
      SensitiveDetector.construct, SensitiveDetector.SetSigmaCoefficients,
      SensitiveDetector.SetTimeOffset, SensitiveDetector.SetDataPointer,
      SensitiveDetector.SetID]

end DetectorConstruction

end LaBr3
